import Mathlib

/-!
# SOLA time-scale engine (`sola.c`): shallow embedding and verified properties

The C functions `seek_best_overlap`, `overlap` and `sola` are embedded as Lean
functions, and so is the moving-average loop of `main.c` (`filterSample`,
`lowPass`).

* A `const SAMPLE *` pointer is a partial map from indices to sample values
  (`SamplePtr`): `p i = none` when `p[i]` lies outside the object the pointer
  points into.  Every read of the C code is a read of this map, so a run that
  reads outside the object evaluates to `none`.
* The output buffer is a total map together with a ghost log of the indices
  stored to, in program order (`OutBuf`); the loop state carries a ghost count
  of the executed iterations.
* `solaStateAt k` is the state of the driver loop after `k` executed iterations;
  the run of the loop is the state after `iterations skip N` of them
  (`solaLoop_eq_stateAt`).
* `int` / `int32_t` arithmetic that could leave the 32-bit range is wrapped
  (`wrap32`); a store of an `int` into a `SAMPLE` is wrapped to 16 bits
  (`wrap16`).
* The `float` arithmetic of the correlation score is abstracted by `ScoreArith`.
  `float32Arith` is the arithmetic of the program: binary32 with every conversion,
  product and sum rounded to nearest, ties to even (`round24`).  `exactArith` is the
  idealisation in which scores are exact integers.
* `SEQUENCE_SKIP` is a parameter `skip` of the driver; the shipped value is
  `SEQUENCE_SKIP = 1113`.  The constant expressions `SEQUENCE_SKIP + SEEK_WINDOW`
  and `SEQUENCE_SKIP - OVERLAP` are taken exactly.
-/

namespace Sola

/-! ## Compile-time constants -/

/-- Processing sequence size: `#define SEQUENCE 1600`. -/
def SEQUENCE : Nat := 1600

/-- Overlapping size: `#define OVERLAP 320`. -/
def OVERLAP : Nat := 320

/-- Best overlap offset seeking window: `#define SEEK_WINDOW 240`. -/
def SEEK_WINDOW : Nat := 240

/-- Flat mid-section duration: `#define FLAT_DURATION (SEQUENCE - 2 * (OVERLAP))`. -/
def FLAT_DURATION : Nat := SEQUENCE - 2 * OVERLAP

/-- The macro `((int)((SEQUENCE - OVERLAP) * (TIME_SCALE)))` for a time scale given in
hundredths (`TIME_SCALE = pct / 100`); the cast truncates the product. -/
def sequenceSkip (pct : Nat) : Int := (((SEQUENCE - OVERLAP) * pct / 100 : Nat) : Int)

/-- Shipped configuration: `#define TIME_SCALE 0.87`. -/
def SEQUENCE_SKIP : Int := sequenceSkip 87

/-! ## Machine integers -/

/-- Value of a mathematical integer after reduction to a signed 32-bit `int`. -/
def wrap32 (x : Int) : Int := (x + 2147483648) % 4294967296 - 2147483648

/-- Value of a mathematical integer after conversion to a 16-bit `SAMPLE`. -/
def wrap16 (x : Int) : Int := (x + 32768) % 65536 - 32768

/-- The 16-bit range of a `SAMPLE`. -/
def inRange16 (v : Int) : Prop := -32768 ≤ v ∧ v ≤ 32767

/-- The range of a 32-bit `int`. -/
def inRange32 (v : Int) : Prop := -2147483648 ≤ v ∧ v ≤ 2147483647

instance (v : Int) : Decidable (inRange16 v) := by
  unfold inRange16
  infer_instance

instance (v : Int) : Decidable (inRange32 v) := by
  unfold inRange32
  infer_instance

/-! ## Memory -/

/-- A `const SAMPLE *`: `p i` is the sample `p[i]`, or `none` when index `i` is outside
the object the pointer points into. -/
abbrev SamplePtr := Int → Option Int

/-- Pointer arithmetic `p + k`. -/
def ptrAdd (p : SamplePtr) (k : Int) : SamplePtr := fun i => p (k + i)

/-- A pointer to the first element of an array of exactly `n` samples with contents `f`. -/
def arrayOf (n : Int) (f : Int → Int) : SamplePtr :=
  fun i => if 0 ≤ i ∧ i < n then some (f i) else none

/-- A pointer into memory that is readable at every index. -/
def totalMem (f : Int → Int) : SamplePtr := fun i => some (f i)

/-- Every sample readable through `p` is a 16-bit value. -/
def Samples16 (p : SamplePtr) : Prop := ∀ i v, p i = some v → inRange16 v

/-- All of `p[lo] .. p[hi-1]` can be read. -/
def Readable (p : SamplePtr) (lo hi : Int) : Prop := ∀ i, lo ≤ i → i < hi → (p i).isSome = true

/-- The output buffer: its contents and the ghost log of the indices stored to,
oldest first. -/
structure OutBuf where
  val : Int → Int
  log : List Int

/-- The store `output[i] = v`. -/
def OutBuf.store (b : OutBuf) (i v : Int) : OutBuf :=
  { val := fun k => if k = i then v else b.val k, log := b.log ++ [i] }

/-- The index range `o, o + 1, ..., o + n - 1`, in increasing order. -/
def idxRange (o : Int) (n : Nat) : List Int := (List.range n).map fun (t : Nat) => o + (t : Int)

/-- The loop `for (i = 0; i < n; i ++) body`, threading the state `s`; a failing
iteration aborts the loop. -/
def forLoop {σ : Type} (n : Nat) (body : Nat → σ → Option σ) (s : σ) : Option σ :=
  match n with
  | 0 => some s
  | k + 1 => (forLoop k body s).bind (body k)

/-! ## Score arithmetic -/

/-- The `float` operations used by `seek_best_overlap`: conversion from `int`,
addition, multiplication, the comparison `a > b`, and the literal `-1e30f`. -/
structure ScoreArith (F : Type) where
  ofInt : Int → F
  add : F → F → F
  mul : F → F → F
  gt : F → F → Bool
  sentinel : F

/-- Exact scores, the idealisation in which no `float` operation rounds: conversion, sum
and product are the integer operations, and `-1e30f` is the value of that literal as a
binary32 number.  The arithmetic of the program is `float32Arith`; the two agree as long
as no intermediate value needs more than 24 significant bits (`crosscorr_float32_exact`). -/
def exactArith : ScoreArith Int where
  ofInt := fun x => x
  add := fun a b => a + b
  mul := fun a b => a * b
  gt := fun a b => decide (b < a)
  sentinel := -1000000015047466219876688855040

/-- Number of low-order bits that a magnitude `m` loses when it is kept to the 24
significant bits of a binary32 number: none below `2^24`, else one more than `m / 2` loses.
The first argument bounds the recursion. -/
def ulpExp : Nat → Nat → Nat
  | 0, _ => 0
  | f + 1, m => if m < 16777216 then 0 else ulpExp f (m / 2) + 1

/-- Round to nearest, ties to even, of a magnitude to 24 significant bits.  The bound `104`
on the dropped bits covers every magnitude below `2^128`, the range of the finite binary32
numbers. -/
def roundMag (m : Nat) : Nat :=
  if 2 ^ ulpExp 104 m < 2 * (m % 2 ^ ulpExp 104 m) ∨
      (2 * (m % 2 ^ ulpExp 104 m) = 2 ^ ulpExp 104 m ∧ m / 2 ^ ulpExp 104 m % 2 = 1) then
    (m / 2 ^ ulpExp 104 m + 1) * 2 ^ ulpExp 104 m
  else m / 2 ^ ulpExp 104 m * 2 ^ ulpExp 104 m

/-- The binary32 number nearest to the integer `x` (IEEE 754 round to nearest, ties to
even).  Every `float` value that `seek_best_overlap` handles is an integer: a converted
`int`, a rounded product or a rounded sum of such, or `-1e30f`; with 16-bit samples all of
them are far below `2^128` in magnitude, so that no operation overflows. -/
def round24 (x : Int) : Int :=
  if x < 0 then -((roundMag x.natAbs : Nat) : Int) else ((roundMag x.natAbs : Nat) : Int)

/-- The `float` operations of `seek_best_overlap` as the program performs them, in binary32:
the conversion `(float)` of an `int`, and `*` and `+=` with the result of each operation
rounded to binary32 (each product is rounded before it is added; no wider intermediate
format); `>` compares the values; `-1e30f` is the binary32 value of that literal. -/
def float32Arith : ScoreArith Int where
  ofInt := fun x => round24 x
  add := fun a b => round24 (a + b)
  mul := fun a b => round24 (a * b)
  gt := fun a b => decide (b < a)
  sentinel := -1000000015047466219876688855040

/-! ## `seek_best_overlap` -/

/-- The value `(float)(input_prev[i] * i * (OVERLAP - i))`, the products taken in `int`. -/
def slope {F : Type} (A : ScoreArith F) (v : Int) (i : Nat) : F :=
  A.ofInt (wrap32 (wrap32 (v * (i : Int)) * ((OVERLAP : Int) - (i : Int))))

/-- First loop of `seek_best_overlap`: fills `temp[0 .. OVERLAP)`. -/
def precalc {F : Type} (A : ScoreArith F) (input_prev : SamplePtr) : Option (Nat → F) :=
  forLoop OVERLAP
    (fun i temp => (input_prev (i : Int)).map fun v =>
      fun j => if j = i then slope A v i else temp j)
    (fun _ => A.ofInt 0)

/-- Inner loop of `seek_best_overlap`: `crosscorr` for candidate offset `i`. -/
def crosscorr {F : Type} (A : ScoreArith F) (temp : Nat → F) (input_new : SamplePtr)
    (i : Nat) : Option F :=
  forLoop OVERLAP
    (fun j c => (input_new ((i : Int) + (j : Int))).map fun x =>
      A.add c (A.mul (A.ofInt x) (temp j)))
    (A.ofInt 0)

/-- One pass of the outer loop of `seek_best_overlap` on `(bestcorr, bestoffset)`. -/
def seekStep {F : Type} (A : ScoreArith F) (temp : Nat → F) (input_new : SamplePtr)
    (i : Nat) (st : F × Nat) : Option (F × Nat) :=
  (crosscorr A temp input_new i).map fun c => if A.gt c st.1 = true then (c, i) else st

/-- The function `int seek_best_overlap(const SAMPLE *input_prev, const SAMPLE *input_new)`. -/
def seek_best_overlap {F : Type} (A : ScoreArith F) (input_prev input_new : SamplePtr) :
    Option Nat :=
  (precalc A input_prev).bind fun temp =>
    (forLoop SEEK_WINDOW (seekStep A temp input_new) (A.sentinel, 0)).map Prod.snd

/-- The value of `crosscorr` after the inner loop for candidate offset `i` in a call
`seek_best_overlap(input_prev, input_new)`: the score of offset `i` as the program
computes it. -/
def computedScore {F : Type} (A : ScoreArith F) (input_prev input_new : SamplePtr) (i : Nat) :
    Option F :=
  (precalc A input_prev).bind fun temp => crosscorr A temp input_new i

/-! ## `overlap` -/

/-- The value stored by `overlap` at index `i`:
`(input_prev[i] * (OVERLAP - i) + input_new[i] * i) / OVERLAP` in `int`, converted
to `SAMPLE`. -/
def blend (p n : Int) (i : Nat) : Int :=
  wrap16 (Int.tdiv
    (wrap32 (wrap32 (p * ((OVERLAP : Int) - (i : Int))) + wrap32 (n * (i : Int))))
    (OVERLAP : Int))

/-- The function `void overlap(SAMPLE *output, const SAMPLE *input_prev, const SAMPLE *input_new)`;
`o` is the index in the output buffer that the pointer `output` designates. -/
def overlap (out : OutBuf) (o : Int) (input_prev input_new : SamplePtr) : Option OutBuf :=
  forLoop OVERLAP
    (fun i b => (input_prev (i : Int)).bind fun p => (input_new (i : Int)).map fun n =>
      b.store (o + (i : Int)) (blend p n i))
    out

/-- The call `memcpy(output, src, n * sizeof(SAMPLE))`, with `output` at index `o`. -/
def memcpy (out : OutBuf) (o : Int) (src : SamplePtr) (n : Nat) : Option OutBuf :=
  forLoop n (fun i b => (src (i : Int)).map fun v => b.store (o + (i : Int)) v) out

/-! ## `sola` -/

/-- The local state of `sola`.  The pointers `output`, `input` and `seq_offset` are kept
as indices relative to the values of the arguments `output` and `input` at entry. -/
structure SolaState where
  out : OutBuf
  output : Int
  input : Int
  seq_offset : Int
  num_out_samples : Int
  num_in_samples : Int
  /-- Ghost: the number of completed iterations of the `while` loop. -/
  iters : Nat

/-- The body of the `while` loop of `sola` up to the update of `num_out_samples`; the
last statement, `num_in_samples -= SEQUENCE_SKIP`, is applied by `solaLoop`. -/
def solaBody {F : Type} (A : ScoreArith F) (skip : Int) (mem : SamplePtr) (st : SolaState) :
    Option SolaState :=
  (memcpy st.out st.output (ptrAdd mem st.seq_offset) FLAT_DURATION).bind fun out1 =>
    let prev_offset := st.seq_offset + (FLAT_DURATION : Int)
    let input1 := st.input + (skip - (OVERLAP : Int))
    (seek_best_overlap A (ptrAdd mem prev_offset) (ptrAdd mem input1)).bind fun off =>
      let seq1 := input1 + (off : Int)
      (overlap out1 (st.output + (FLAT_DURATION : Int)) (ptrAdd mem prev_offset)
          (ptrAdd mem seq1)).map fun out2 =>
        { out := out2
          output := st.output + ((SEQUENCE : Int) - (OVERLAP : Int))
          input := input1 + (OVERLAP : Int)
          seq_offset := seq1 + (OVERLAP : Int)
          num_out_samples := wrap32 (st.num_out_samples + ((SEQUENCE : Int) - (OVERLAP : Int)))
          num_in_samples := st.num_in_samples
          iters := st.iters }

/-- The loop `while (num_in_samples > SEQUENCE_SKIP + SEEK_WINDOW) body`.  It terminates
because `num_in_samples` decreases by `skip > 0` in every iteration.  The ghost counter
`iters` is incremented once per executed iteration. -/
def solaLoop {F : Type} (A : ScoreArith F) (skip : Int) (hs : 0 < skip) (mem : SamplePtr)
    (st : SolaState) : Option SolaState :=
  if st.num_in_samples > skip + (SEEK_WINDOW : Int) then
    (solaBody A skip mem st).bind fun st1 =>
      solaLoop A skip hs mem
        { st1 with num_in_samples := st.num_in_samples - skip, iters := st.iters + 1 }
  else some st
termination_by (st.num_in_samples - (skip + (SEEK_WINDOW : Int))).toNat
decreasing_by
  omega

/-- The state of `sola` at entry. -/
def solaInit (output : OutBuf) (num_in_samples : Int) : SolaState :=
  { out := output, output := 0, input := 0, seq_offset := 0,
    num_out_samples := 0, num_in_samples := num_in_samples, iters := 0 }

/-- The state of `sola` when its loop exits. -/
def solaRun {F : Type} (A : ScoreArith F) (skip : Int) (hs : 0 < skip) (output : OutBuf)
    (input : SamplePtr) (num_in_samples : Int) : Option SolaState :=
  solaLoop A skip hs input (solaInit output num_in_samples)

/-- The function `int32_t sola(SAMPLE *output, const SAMPLE *input, int32_t num_in_samples)`,
for a configuration with `SEQUENCE_SKIP = skip`: the final output buffer and the returned
number of output samples. -/
def sola {F : Type} (A : ScoreArith F) (skip : Int) (hs : 0 < skip) (output : OutBuf)
    (input : SamplePtr) (num_in_samples : Int) : Option (OutBuf × Int) :=
  (solaRun A skip hs output input num_in_samples).map fun st => (st.out, st.num_out_samples)

/-- The number of loop iterations `sola` executes. -/
def solaIterations {F : Type} (A : ScoreArith F) (skip : Int) (hs : 0 < skip) (output : OutBuf)
    (input : SamplePtr) (num_in_samples : Int) : Option Nat :=
  (solaRun A skip hs output input num_in_samples).map fun st => st.iters

/-! ## Specification-side definitions -/

/-- The closed form of the number of loop iterations claimed for an input of `N` samples:
`0` when `N <= skip + SEEK_WINDOW`, otherwise `ceil((N - (skip + SEEK_WINDOW)) / skip)`. -/
def iterations (skip N : Int) : Nat :=
  if N > skip + (SEEK_WINDOW : Int) then
    ((N - (skip + (SEEK_WINDOW : Int)) + (skip - 1)) / skip).toNat
  else 0

/-- The exact score of candidate offset `k`:
the sum over `j` in `[0, OVERLAP)` of `new[k + j] * (prev[j] * j * (OVERLAP - j))`. -/
def exactScore (prev new : SamplePtr) (k : Nat) : Int :=
  ∑ j in Finset.range OVERLAP,
    (new ((k : Int) + (j : Int))).getD 0 *
      ((prev (j : Int)).getD 0 * (j : Int) * ((OVERLAP : Int) - (j : Int)))

/-- The value `overlap` stores at index `i`, when both samples can be read. -/
def overlapValue (input_prev input_new : SamplePtr) (i : Nat) : Option Int :=
  (input_prev (i : Int)).bind fun p => (input_new (i : Int)).map fun n => blend p n i

/-- Capacity, in samples, of the buffer `sola_output` that `main.c` passes to `sola`:
`static SAMPLE sola_output[32750]`. -/
def SOLA_OUTPUT_CAPACITY : Int := 32750

/-- Sample contents with a single non-zero sample, at index 1120. -/
def spike : Int → Int := fun i => if i = 1120 then 1 else 0

/-- Constant sample contents. -/
def constSamples (v : Int) : Int → Int := fun _ => v

/-- The all-zero sample contents. -/
def silence : Int → Int := fun _ => 0

/-- An output buffer filled with the value `v`, with nothing stored yet. -/
def filledBuf (v : Int) : OutBuf := { val := fun _ => v, log := [] }

/-- The sum of the magnitudes of the terms of the exact score of candidate offset `k`. -/
def absScore (prev new : SamplePtr) (k : Nat) : Int :=
  ∑ j in Finset.range OVERLAP,
    |(new ((k : Int) + (j : Int))).getD 0 *
      ((prev (j : Int)).getD 0 * (j : Int) * ((OVERLAP : Int) - (j : Int)))|

/-- Contents of a previous tail that is zero except at the indices 1 and 160. -/
def twoTapTail (p1 p160 : Int) : Int → Int :=
  fun i => if i = 1 then p1 else if i = 160 then p160 else 0

/-- Contents of a candidate region that is zero except at the indices 1, 2, 160 and 161. -/
def fourTapRegion (a1 a2 b160 b161 : Int) : Int → Int :=
  fun i => if i = 1 then a1 else if i = 2 then a2 else if i = 160 then b160
    else if i = 161 then b161 else 0

/-- The binary32 score of an offset against the tail `twoTapTail p1 p160`, when the region
holds `y` opposite index 1 of the tail and `x` opposite index 160: the contributions of
the two non-zero entries of `temp`, accumulated in the order of the inner loop. -/
def twoTapScore (p1 p160 y x : Int) : Int :=
  float32Arith.add
    (float32Arith.add (float32Arith.ofInt 0)
      (float32Arith.mul (float32Arith.ofInt y) (slope float32Arith p1 1)))
    (float32Arith.mul (float32Arith.ofInt x) (slope float32Arith p160 160))

/-! ## Iteration-indexed states of the driver loop -/

/-- One executed iteration of the loop of `sola`: the guard, the body and the update of
`num_in_samples`; `none` when the guard is false or a read fails. -/
def solaStep {F : Type} (A : ScoreArith F) (skip : Int) (mem : SamplePtr) (s : SolaState) :
    Option SolaState :=
  if s.num_in_samples > skip + (SEEK_WINDOW : Int) then
    (solaBody A skip mem s).map fun s1 =>
      { s1 with num_in_samples := s.num_in_samples - skip, iters := s.iters + 1 }
  else none

/-- The state of the loop of `sola` after `k` executed iterations, started in `st0`: for
an executed iteration `k` it is the state at the start of that iteration.  It is `none` when
fewer than `k` iterations are executed or a read fails. -/
def solaStateAt {F : Type} (A : ScoreArith F) (skip : Int) (mem : SamplePtr) (st0 : SolaState) :
    Nat → Option SolaState
  | 0 => some st0
  | k + 1 => (solaStateAt A skip mem st0 k).bind (solaStep A skip mem)

/-! ## The moving-average stage of `main.c` -/

/-- The variable `uint8_t filter_order = 2`. -/
def filter_order : Nat := 2

/-- The bound of the filter loop, `while(index_out < 28960)`. -/
def FILTER_LENGTH : Nat := 28960

/-- The value `(uint16_t)(16000-filter_order)` compared with `index_out`. -/
def filterTailStart : Nat := (16000 - filter_order) % 65536

/-- The accumulation `samples_sum = 0; for(int j=0; j<filter_order*2+1; j++)
samples_sum += temp_filt[j];` in `int32_t`, where `temp_filt` holds the samples read from
file position `index_out - filter_order` on. -/
def samplesSum (sample : Nat → Int) (index_out : Nat) : Int :=
  (List.range (filter_order * 2 + 1)).foldl
    (fun acc j => wrap32 (acc + sample (index_out - filter_order + j))) 0

/-- The sample the filter loop writes to `mic_filt.wav` in the pass for `index_out`, as a
function of the samples of `mic.wav` (file reads and writes are taken to succeed).  The last
branch writes the two low-order bytes of `samples_sum / (filter_order*2+1)`. -/
def filterSample (sample : Nat → Int) (index_out : Nat) : Int :=
  if index_out < filter_order then sample index_out
  else if index_out ≥ filterTailStart then sample index_out
  else wrap16 (Int.tdiv (samplesSum sample index_out) ((filter_order * 2 + 1 : Nat) : Int))

/-- The samples written by the filter loop of `main.c`, in order. -/
def lowPass (sample : Nat → Int) : List Int :=
  (List.range FILTER_LENGTH).map (filterSample sample)

/-- Sample contents with a single non-zero sample, `5` at index 20000. -/
def lateSpike : Nat → Int := fun i => if i = 20000 then 5 else 0

/-! ## Loops that store one value per iteration -/

theorem forLoop_succ {σ : Type} (n : Nat) (body : Nat → σ → Option σ) (s : σ) :
    forLoop (n + 1) body s = (forLoop n body s).bind (body n) := rfl

theorem idxRange_succ (o : Int) (n : Nat) :
    idxRange o (n + 1) = idxRange o n ++ [o + (n : Int)] := by
  simp [idxRange, List.range_succ]

theorem idxRange_add (o : Int) (a b : Nat) :
    idxRange o (a + b) = idxRange o a ++ idxRange (o + (a : Int)) b := by
  induction b with
  | zero => simp [idxRange]
  | succ b ih =>
    rw [← Nat.add_assoc, idxRange_succ, ih, idxRange_succ, List.append_assoc]
    congr 2
    push_cast
    ring_nf

theorem mem_idxRange (o : Int) (n : Nat) (k : Int) :
    k ∈ idxRange o n ↔ o ≤ k ∧ k < o + (n : Int) := by
  simp only [idxRange, List.mem_map, List.mem_range]
  constructor
  · rintro ⟨t, ht, rfl⟩
    omega
  · intro h
    exact ⟨(k - o).toNat, by omega, by omega⟩

/-- A loop storing the value `g i` at index `o + i` for `i = 0 .. n - 1` succeeds when every
`g i` is available; it logs exactly the indices `o .. o + n - 1`, leaves every other index
untouched and leaves `g i` at index `o + i`. -/
theorem storeLoop_spec (g : Nat → Option Int) (o : Int) (out : OutBuf) :
    ∀ n : Nat, (∀ i, i < n → (g i).isSome = true) →
      ∃ out1, forLoop n (fun i b => (g i).map fun v => b.store (o + (i : Int)) v) out = some out1 ∧
        out1.log = out.log ++ idxRange o n ∧
        (∀ k, (k < o ∨ o + (n : Int) ≤ k) → out1.val k = out.val k) ∧
        (∀ i, i < n → g i = some (out1.val (o + (i : Int)))) := by
  intro n
  induction n with
  | zero =>
    intro _
    exact ⟨out, rfl, by simp [idxRange], fun _ _ => rfl, fun i hi => absurd hi (Nat.not_lt_zero i)⟩
  | succ n ih =>
    intro h
    obtain ⟨out1, h1, hlog, hframe, hval⟩ := ih (fun i hi => h i (Nat.lt_succ_of_lt hi))
    obtain ⟨v, hv⟩ := Option.isSome_iff_exists.mp (h n (Nat.lt_succ_self n))
    refine ⟨out1.store (o + (n : Int)) v, ?_, ?_, ?_, ?_⟩
    · rw [forLoop_succ, h1]
      simp [hv]
    · simp [OutBuf.store, hlog, idxRange_succ]
    · intro k hk
      have hne : k ≠ o + (n : Int) := by push_cast at hk; omega
      simp only [OutBuf.store, if_neg hne]
      exact hframe k (by push_cast at hk; omega)
    · intro i hi
      by_cases hin : i = n
      · subst hin
        simp [OutBuf.store, hv]
      · have hlt : i < n := by omega
        have hne : o + (i : Int) ≠ o + (n : Int) := by omega
        simp only [OutBuf.store, if_neg hne]
        exact hval i hlt

/-- A store loop that succeeds has logged exactly the indices `o .. o + n - 1`. -/
theorem storeLoop_log (g : Nat → Option Int) (o : Int) (out : OutBuf) :
    ∀ (n : Nat) (out1 : OutBuf),
      forLoop n (fun i b => (g i).map fun v => b.store (o + (i : Int)) v) out = some out1 →
      out1.log = out.log ++ idxRange o n := by
  intro n
  induction n with
  | zero =>
    intro out1 h
    simp only [forLoop, Option.some.injEq] at h
    subst h
    simp [idxRange]
  | succ n ih =>
    intro out1 h
    rw [forLoop_succ] at h
    cases hn : forLoop n (fun i b => (g i).map fun v => b.store (o + (i : Int)) v) out with
    | none =>
      rw [hn] at h
      cases h
    | some out0 =>
      rw [hn] at h
      simp only [Option.some_bind, Option.map_eq_some'] at h
      obtain ⟨v, _, rfl⟩ := h
      simp [OutBuf.store, ih out0 hn, idxRange_succ]

/-- Specification of `memcpy` on a readable source. -/
theorem memcpy_spec (out : OutBuf) (o : Int) (src : SamplePtr) (n : Nat)
    (h : Readable src 0 n) :
    ∃ out1, memcpy out o src n = some out1 ∧
      out1.log = out.log ++ idxRange o n ∧
      (∀ k, (k < o ∨ o + (n : Int) ≤ k) → out1.val k = out.val k) ∧
      (∀ i, i < n → src (i : Int) = some (out1.val (o + (i : Int)))) :=
  storeLoop_spec (fun i => src (i : Int)) o out n (fun i hi => h i (by omega) (by omega))

theorem overlap_eq_storeLoop (out : OutBuf) (o : Int) (input_prev input_new : SamplePtr) :
    overlap out o input_prev input_new =
      forLoop OVERLAP
        (fun i b => (overlapValue input_prev input_new i).map fun v => b.store (o + (i : Int)) v)
        out := by
  unfold overlap overlapValue
  congr 1
  funext i b
  cases input_prev (i : Int) <;> cases input_new (i : Int) <;> rfl

/-- Specification of `overlap` on readable operands. -/
theorem overlap_spec (out : OutBuf) (o : Int) (input_prev input_new : SamplePtr)
    (hp : Readable input_prev 0 OVERLAP) (hn : Readable input_new 0 OVERLAP) :
    ∃ out1, overlap out o input_prev input_new = some out1 ∧
      out1.log = out.log ++ idxRange o OVERLAP ∧
      (∀ k, (k < o ∨ o + (OVERLAP : Int) ≤ k) → out1.val k = out.val k) ∧
      (∀ i, i < OVERLAP → ∃ p n, input_prev (i : Int) = some p ∧ input_new (i : Int) = some n ∧
        out1.val (o + (i : Int)) = blend p n i) := by
  have hg : ∀ i, i < OVERLAP → (overlapValue input_prev input_new i).isSome = true := by
    intro i hi
    obtain ⟨p, hp1⟩ := Option.isSome_iff_exists.mp (hp i (by omega) (by omega))
    obtain ⟨n, hn1⟩ := Option.isSome_iff_exists.mp (hn i (by omega) (by omega))
    simp [overlapValue, hp1, hn1]
  obtain ⟨out1, h1, hlog, hframe, hval⟩ :=
    storeLoop_spec (overlapValue input_prev input_new) o out OVERLAP hg
  refine ⟨out1, by rw [overlap_eq_storeLoop]; exact h1, hlog, hframe, ?_⟩
  intro i hi
  obtain ⟨p, hp1⟩ := Option.isSome_iff_exists.mp (hp i (by omega) (by omega))
  obtain ⟨n, hn1⟩ := Option.isSome_iff_exists.mp (hn i (by omega) (by omega))
  refine ⟨p, n, hp1, hn1, ?_⟩
  have := hval i hi
  simp only [overlapValue, hp1, hn1, Option.some_bind, Option.map_some', Option.some.injEq] at this
  exact this.symm

/-! ## `seek_best_overlap`: the loops succeed on readable operands -/

theorem precalc_loop {F : Type} (A : ScoreArith F) (input_prev : SamplePtr) :
    ∀ n : Nat, Readable input_prev 0 n →
      ∃ temp, forLoop n
          (fun i temp => (input_prev (i : Int)).map fun v =>
            fun j => if j = i then slope A v i else temp j)
          (fun _ => A.ofInt 0) = some temp ∧
        ∀ j, j < n → ∃ v, input_prev (j : Int) = some v ∧ temp j = slope A v j := by
  intro n
  induction n with
  | zero =>
    intro _
    exact ⟨_, rfl, fun j hj => absurd hj (Nat.not_lt_zero j)⟩
  | succ n ih =>
    intro h
    obtain ⟨temp, h1, h2⟩ := ih (fun i h0 hi => h i h0 (by push_cast; omega))
    obtain ⟨v, hv⟩ := Option.isSome_iff_exists.mp (h (n : Int) (by omega) (by push_cast; omega))
    refine ⟨fun j => if j = n then slope A v n else temp j, ?_, ?_⟩
    · rw [forLoop_succ, h1]
      simp [hv]
    · intro j hj
      by_cases hjn : j = n
      · subst hjn
        exact ⟨v, hv, by simp⟩
      · obtain ⟨w, hw1, hw2⟩ := h2 j (by omega)
        exact ⟨w, hw1, by simp [hjn, hw2]⟩

/-- The first loop of `seek_best_overlap` fills `temp[j]` with the slope of `input_prev[j]`. -/
theorem precalc_spec {F : Type} (A : ScoreArith F) (input_prev : SamplePtr)
    (h : Readable input_prev 0 OVERLAP) :
    ∃ temp, precalc A input_prev = some temp ∧
      ∀ j, j < OVERLAP → ∃ v, input_prev (j : Int) = some v ∧ temp j = slope A v j :=
  precalc_loop A input_prev OVERLAP h

theorem crosscorr_loop {F : Type} (A : ScoreArith F) (temp : Nat → F) (input_new : SamplePtr)
    (i : Nat) :
    ∀ n : Nat, (∀ j, j < n → (input_new ((i : Int) + (j : Int))).isSome = true) →
      ∃ c, forLoop n
          (fun j c => (input_new ((i : Int) + (j : Int))).map fun x =>
            A.add c (A.mul (A.ofInt x) (temp j)))
          (A.ofInt 0) = some c := by
  intro n
  induction n with
  | zero => exact fun _ => ⟨_, rfl⟩
  | succ n ih =>
    intro h
    obtain ⟨c, hc⟩ := ih (fun j hj => h j (by omega))
    obtain ⟨x, hx⟩ := Option.isSome_iff_exists.mp (h n (Nat.lt_succ_self n))
    exact ⟨A.add c (A.mul (A.ofInt x) (temp n)), by rw [forLoop_succ, hc]; simp [hx]⟩

/-- The outer loop of `seek_best_overlap` keeps `bestoffset` below the loop counter. -/
theorem seek_loop {F : Type} (A : ScoreArith F) (temp : Nat → F) (input_new : SamplePtr) :
    ∀ n : Nat, (∀ i, i < n → (crosscorr A temp input_new i).isSome = true) →
      ∃ c k, forLoop n (seekStep A temp input_new) (A.sentinel, 0) = some (c, k) ∧
        (k = 0 ∨ k < n) := by
  intro n
  induction n with
  | zero => exact fun _ => ⟨_, _, rfl, Or.inl rfl⟩
  | succ n ih =>
    intro h
    obtain ⟨c, k, h1, hk⟩ := ih (fun i hi => h i (by omega))
    obtain ⟨x, hx⟩ := Option.isSome_iff_exists.mp (h n (Nat.lt_succ_self n))
    by_cases hgt : A.gt x c = true
    · refine ⟨x, n, ?_, Or.inr (Nat.lt_succ_self n)⟩
      rw [forLoop_succ, h1]
      simp [seekStep, hx, hgt]
    · refine ⟨c, k, ?_, ?_⟩
      · rw [forLoop_succ, h1]
        simp [seekStep, hx, hgt]
      · omega

/-- On a readable previous tail and a readable candidate region, `seek_best_overlap`
returns an offset below `SEEK_WINDOW`, whatever the score arithmetic does. -/
theorem seek_spec {F : Type} (A : ScoreArith F) (input_prev input_new : SamplePtr)
    (hp : Readable input_prev 0 OVERLAP)
    (hn : Readable input_new 0 ((SEEK_WINDOW : Int) + (OVERLAP : Int) - 1)) :
    ∃ k, seek_best_overlap A input_prev input_new = some k ∧ k < SEEK_WINDOW := by
  obtain ⟨temp, ht, _⟩ := precalc_spec A input_prev hp
  have hc : ∀ i, i < SEEK_WINDOW → (crosscorr A temp input_new i).isSome = true := by
    intro i hi
    obtain ⟨c, hc⟩ := crosscorr_loop A temp input_new i OVERLAP
      (fun j hj => hn _ (by omega) (by simp only [SEEK_WINDOW, OVERLAP] at *; omega))
    simp [crosscorr, hc]
  obtain ⟨c, k, h1, hk⟩ := seek_loop A temp input_new SEEK_WINDOW hc
  refine ⟨k, ?_, ?_⟩
  · simp [seek_best_overlap, ht, h1]
  · simp only [SEEK_WINDOW] at *
    omega

/-! ## Exact arithmetic -/

theorem wrap32_eq (x : Int) (h : inRange32 x) : wrap32 x = x := by
  unfold wrap32
  unfold inRange32 at h
  omega

theorem wrap16_eq (x : Int) (h : inRange16 x) : wrap16 x = x := by
  unfold wrap16
  unfold inRange16 at h
  omega

/-- The triangular weight `j * (OVERLAP - j)` lies in `[0, 25600]`. -/
theorem weight_bound (j : Nat) (hj : j < OVERLAP) :
    0 ≤ (j : Int) * ((OVERLAP : Int) - (j : Int)) ∧
      (j : Int) * ((OVERLAP : Int) - (j : Int)) ≤ 25600 := by
  simp only [OVERLAP] at *
  have h1 : (0 : Int) ≤ (j : Int) := by omega
  have h2 : (0 : Int) ≤ (320 : Int) - (j : Int) := by omega
  constructor
  · push_cast
    exact mul_nonneg h1 h2
  · push_cast
    nlinarith [sq_nonneg ((j : Int) - 160)]

/-- The weighted previous sample `v * j * (OVERLAP - j)` of a 16-bit `v` has magnitude at
most `32768 * 25600`. -/
theorem weighted_bound (v : Int) (hv : inRange16 v) (j : Nat) (hj : j < OVERLAP) :
    |v * (j : Int) * ((OVERLAP : Int) - (j : Int))| ≤ 838860800 := by
  obtain ⟨hw0, hw1⟩ := weight_bound j hj
  have hv1 : |v| ≤ 32768 := by
    unfold inRange16 at hv
    rw [abs_le]
    omega
  rw [mul_assoc, abs_mul, abs_of_nonneg hw0]
  calc |v| * ((j : Int) * ((OVERLAP : Int) - (j : Int))) ≤ 32768 * 25600 :=
        mul_le_mul hv1 hw1 hw0 (by norm_num)
    _ = 838860800 := by norm_num

theorem slope_exact (v : Int) (hv : inRange16 v) (j : Nat) (hj : j < OVERLAP) :
    slope exactArith v j = v * (j : Int) * ((OVERLAP : Int) - (j : Int)) := by
  have h1 : inRange32 (v * (j : Int)) := by
    unfold inRange16 at hv
    unfold inRange32
    simp only [OVERLAP] at hj
    have hj0 : (0 : Int) ≤ (j : Int) := by omega
    have hj1 : (j : Int) ≤ 319 := by omega
    constructor <;> nlinarith
  have h2 : inRange32 (v * (j : Int) * ((OVERLAP : Int) - (j : Int))) := by
    have := abs_le.mp (weighted_bound v hv j hj)
    unfold inRange32
    omega
  simp only [slope, exactArith]
  rw [wrap32_eq _ h1, wrap32_eq _ h2]

theorem crosscorr_exact_loop (temp : Nat → Int) (input_new : SamplePtr) (i : Nat) :
    ∀ n : Nat, (∀ j, j < n → (input_new ((i : Int) + (j : Int))).isSome = true) →
      forLoop n
          (fun j c => (input_new ((i : Int) + (j : Int))).map fun x =>
            exactArith.add c (exactArith.mul (exactArith.ofInt x) (temp j)))
          (exactArith.ofInt 0) =
        some (∑ j in Finset.range n, (input_new ((i : Int) + (j : Int))).getD 0 * temp j) := by
  intro n
  induction n with
  | zero => exact fun _ => rfl
  | succ n ih =>
    intro h
    obtain ⟨x, hx⟩ := Option.isSome_iff_exists.mp (h n (Nat.lt_succ_self n))
    rw [forLoop_succ, ih (fun j hj => h j (by omega)), Finset.sum_range_succ]
    simp [hx, exactArith]

theorem getD_inRange16 (p : SamplePtr) (h : Samples16 p) (i : Int) : inRange16 ((p i).getD 0) := by
  cases hp : p i with
  | none => simp [inRange16]
  | some v => simpa using h i v hp

/-- With exact arithmetic and 16-bit samples, `crosscorr` is the exact score. -/
theorem crosscorr_exact (temp : Nat → Int) (input_prev input_new : SamplePtr) (i : Nat)
    (hp16 : Samples16 input_prev)
    (ht : ∀ j, j < OVERLAP → ∃ v, input_prev (j : Int) = some v ∧ temp j = slope exactArith v j)
    (hn : ∀ j, j < OVERLAP → (input_new ((i : Int) + (j : Int))).isSome = true) :
    crosscorr exactArith temp input_new i = some (exactScore input_prev input_new i) := by
  unfold crosscorr exactScore
  rw [crosscorr_exact_loop temp input_new i OVERLAP hn]
  congr 1
  apply Finset.sum_congr rfl
  intro j hj
  obtain ⟨v, hv, htj⟩ := ht j (Finset.mem_range.mp hj)
  rw [htj, hv, slope_exact v (hp16 _ v hv) j (Finset.mem_range.mp hj)]
  rfl

/-- Every exact score of 16-bit samples is above the initial value `-1e30f` of `bestcorr`. -/
theorem sentinel_lt_exactScore (input_prev input_new : SamplePtr)
    (hp16 : Samples16 input_prev) (hn16 : Samples16 input_new) (k : Nat) :
    exactArith.sentinel < exactScore input_prev input_new k := by
  have hterm : ∀ j, j ∈ Finset.range OVERLAP → -27487790694400 ≤
      (input_new ((k : Int) + (j : Int))).getD 0 *
        ((input_prev (j : Int)).getD 0 * (j : Int) * ((OVERLAP : Int) - (j : Int))) := by
    intro j hj
    have ha := getD_inRange16 input_new hn16 ((k : Int) + (j : Int))
    have hb := weighted_bound _ (getD_inRange16 input_prev hp16 (j : Int)) j (Finset.mem_range.mp hj)
    have ha1 : |(input_new ((k : Int) + (j : Int))).getD 0| ≤ 32768 := by
      unfold inRange16 at ha
      rw [abs_le]
      omega
    have := abs_le.mp (show |(input_new ((k : Int) + (j : Int))).getD 0 *
        ((input_prev (j : Int)).getD 0 * (j : Int) * ((OVERLAP : Int) - (j : Int)))| ≤
          32768 * 838860800 by
      rw [abs_mul]
      exact mul_le_mul ha1 hb (abs_nonneg _) (by norm_num))
    linarith [this.1]
  have hsum := Finset.card_nsmul_le_sum (Finset.range OVERLAP) _ _ hterm
  simp only [Finset.card_range, OVERLAP, smul_eq_mul, nsmul_eq_mul] at hsum
  unfold exactScore
  simp only [exactArith, OVERLAP]
  norm_num at hsum ⊢
  linarith

/-- Invariant of the outer loop of `seek_best_overlap` when every `crosscorr` is the score
`S i` and every score is above the initial `bestcorr`: after `n >= 1` passes the state is
the first maximum of `S` over `[0, n)`. -/
theorem seek_exact_loop (temp : Nat → Int) (input_new : SamplePtr) (S : Nat → Int)
    (hlo : ∀ i, exactArith.sentinel < S i) :
    ∀ n : Nat, (∀ i, i < n + 1 → crosscorr exactArith temp input_new i = some (S i)) →
      ∃ k, forLoop (n + 1) (seekStep exactArith temp input_new) (exactArith.sentinel, 0) =
          some (S k, k) ∧
        k < n + 1 ∧ (∀ i, i < n + 1 → S i ≤ S k) ∧ (∀ i, i < k → S i < S k) := by
  intro n
  induction n with
  | zero =>
    intro h
    refine ⟨0, ?_, Nat.zero_lt_one, ?_, ?_⟩
    · have h0 : exactArith.gt (S 0) exactArith.sentinel = true := by
        simpa [exactArith] using hlo 0
      rw [forLoop_succ]
      simp only [forLoop, Option.some_bind, seekStep, h 0 Nat.zero_lt_one, Option.map_some']
      rw [if_pos h0]
    · intro i hi
      have : i = 0 := by omega
      subst this
      exact le_refl _
    · intro i hi
      exact absurd hi (Nat.not_lt_zero i)
  | succ n ih =>
    intro h
    obtain ⟨k, h1, hk, hmax, hfirst⟩ := ih (fun i hi => h i (by omega))
    by_cases hgt : S k < S (n + 1)
    · refine ⟨n + 1, ?_, Nat.lt_succ_self _, ?_, ?_⟩
      · have hg : exactArith.gt (S (n + 1)) (S k) = true := by
          simpa [exactArith] using hgt
        rw [forLoop_succ, h1]
        simp only [Option.some_bind, seekStep, h (n + 1) (Nat.lt_succ_self _), Option.map_some']
        rw [if_pos hg]
      · intro i hi
        by_cases hin : i = n + 1
        · subst hin
          exact le_refl _
        · exact le_of_lt (lt_of_le_of_lt (hmax i (by omega)) hgt)
      · intro i hi
        exact lt_of_le_of_lt (hmax i hi) hgt
    · refine ⟨k, ?_, by omega, ?_, hfirst⟩
      · have hg : ¬ exactArith.gt (S (n + 1)) (S k) = true := by
          simpa [exactArith] using hgt
        rw [forLoop_succ, h1]
        simp only [Option.some_bind, seekStep, h (n + 1) (Nat.lt_succ_self _), Option.map_some']
        rw [if_neg hg]
      · intro i hi
        by_cases hin : i = n + 1
        · subst hin
          exact not_lt.mp hgt
        · exact hmax i (by omega)

/-- With exact scores, `seek_best_overlap` returns the first maximum of the exact score over
the offsets `[0, SEEK_WINDOW)`. -/
theorem seek_exact_spec (input_prev input_new : SamplePtr)
    (hp : Readable input_prev 0 OVERLAP)
    (hn : Readable input_new 0 ((SEEK_WINDOW : Int) + (OVERLAP : Int) - 1))
    (hp16 : Samples16 input_prev) (hn16 : Samples16 input_new) :
    ∃ k, seek_best_overlap exactArith input_prev input_new = some k ∧ k < SEEK_WINDOW ∧
      (∀ i, i < SEEK_WINDOW → exactScore input_prev input_new i ≤ exactScore input_prev input_new k) ∧
      (∀ i, i < k → exactScore input_prev input_new i < exactScore input_prev input_new k) := by
  obtain ⟨temp, ht, hslope⟩ := precalc_spec exactArith input_prev hp
  have hc : ∀ i, i < 239 + 1 →
      crosscorr exactArith temp input_new i = some (exactScore input_prev input_new i) := by
    intro i hi
    exact crosscorr_exact temp input_prev input_new i hp16 hslope
      (fun j hj => hn _ (by omega) (by simp only [SEEK_WINDOW, OVERLAP] at *; omega))
  obtain ⟨k, h1, hk, hmax, hfirst⟩ := seek_exact_loop temp input_new
    (exactScore input_prev input_new) (sentinel_lt_exactScore input_prev input_new hp16 hn16) 239 hc
  refine ⟨k, ?_, hk, hmax, hfirst⟩
  have h240 : SEEK_WINDOW = 239 + 1 := rfl
  simp [seek_best_overlap, ht, h240, h1]

/-! ## Binary32 rounding -/

theorem ulpExp_small (f m : Nat) (h : m < 16777216) : ulpExp f m = 0 := by
  cases f with
  | zero => rfl
  | succ f => simp [ulpExp, h]

theorem ulpExp_le_fuel (f : Nat) : ∀ m : Nat, ulpExp f m ≤ f := by
  induction f with
  | zero => exact fun _ => le_refl _
  | succ f ih =>
    intro m
    unfold ulpExp
    split
    · omega
    · have := ih (m / 2)
      omega

/-- The bits dropped by `ulpExp` leave at least 24 significant bits. -/
theorem ulpExp_le (f : Nat) : ∀ m : Nat, 8388608 ≤ m → 8388608 * 2 ^ ulpExp f m ≤ m := by
  induction f with
  | zero =>
    intro m h
    simpa [ulpExp] using h
  | succ f ih =>
    intro m h
    by_cases hm : m < 16777216
    · rw [ulpExp_small _ _ hm]
      simpa using h
    · have h2 := ih (m / 2) (by omega)
      simp only [ulpExp, if_neg hm, pow_succ]
      omega

/-- Unless the recursion bound is reached, `ulpExp` leaves at most 24 significant bits. -/
theorem ulpExp_div_lt (f : Nat) :
    ∀ m : Nat, ulpExp f m < f → m / 2 ^ ulpExp f m < 16777216 := by
  induction f with
  | zero =>
    intro m h
    exact absurd h (Nat.not_lt_zero _)
  | succ f ih =>
    intro m h
    by_cases hm : m < 16777216
    · rw [ulpExp_small _ _ hm]
      simpa using hm
    · simp only [ulpExp, if_neg hm] at h ⊢
      have := ih (m / 2) (by omega)
      rw [pow_succ', ← Nat.div_div_eq_div_mul]
      exact this

/-- A multiple `Q * 2^e` of a power of two with at most 24 significant bits has no non-zero
bit among those that `ulpExp` drops. -/
theorem ulpExp_dvd (f : Nat) :
    ∀ e Q : Nat, (Q ≤ 16777216 ∨ f ≤ e) → 2 ^ ulpExp f (Q * 2 ^ e) ∣ Q * 2 ^ e := by
  induction f with
  | zero =>
    intro e Q _
    simp [ulpExp]
  | succ f ih =>
    intro e Q h
    by_cases hm : Q * 2 ^ e < 16777216
    · rw [ulpExp_small _ _ hm]
      simp
    · simp only [ulpExp, if_neg hm]
      cases e with
      | zero =>
        have hQ : Q = 16777216 := by
          simp only [pow_zero, mul_one] at hm
          omega
        subst hQ
        rw [ulpExp_small _ _ (by norm_num)]
        norm_num
      | succ e =>
        have e1 : Q * 2 ^ (e + 1) / 2 = Q * 2 ^ e := by
          rw [pow_succ, ← mul_assoc, Nat.mul_div_cancel _ (by norm_num)]
        rw [e1, pow_succ, pow_succ, ← mul_assoc]
        exact Nat.mul_dvd_mul (ih e Q (by omega)) (dvd_refl 2)

theorem roundMag_small (m : Nat) (h : m < 16777216) : roundMag m = m := by
  simp [roundMag, ulpExp_small _ _ h, Nat.mod_one]

theorem roundMag_of_dvd (m : Nat) (h : 2 ^ ulpExp 104 m ∣ m) : roundMag m = m := by
  have hr : m % 2 ^ ulpExp 104 m = 0 := Nat.mod_eq_zero_of_dvd h
  have hpos : 0 < 2 ^ ulpExp 104 m := by positivity
  unfold roundMag
  rw [hr, if_neg (by omega)]
  exact Nat.div_mul_cancel h

/-- A rounded magnitude is a binary32 magnitude: rounding it again changes nothing. -/
theorem roundMag_idem (m : Nat) : roundMag (roundMag m) = roundMag m := by
  apply roundMag_of_dvd
  have hQ : ∀ Q, Q ≤ m / 2 ^ ulpExp 104 m + 1 →
      2 ^ ulpExp 104 (Q * 2 ^ ulpExp 104 m) ∣ Q * 2 ^ ulpExp 104 m := by
    intro Q hQ
    apply ulpExp_dvd
    rcases Nat.lt_or_ge (ulpExp 104 m) 104 with h | h
    · have := ulpExp_div_lt 104 m h
      exact Or.inl (by omega)
    · exact Or.inr h
  unfold roundMag
  split
  · exact hQ _ (le_refl _)
  · exact hQ _ (Nat.le_succ _)

/-- The rounding error: `roundMag m` is at most half a spacing `2 ^ ulpExp 104 m` away
from `m`. -/
theorem roundMag_error (m : Nat) :
    2 * roundMag m ≤ 2 * m + 2 ^ ulpExp 104 m ∧
      2 * m ≤ 2 * roundMag m + 2 ^ ulpExp 104 m := by
  have hd := Nat.div_add_mod m (2 ^ ulpExp 104 m)
  have hlt : m % 2 ^ ulpExp 104 m < 2 ^ ulpExp 104 m := Nat.mod_lt _ (by positivity)
  have hc := Nat.mul_comm (2 ^ ulpExp 104 m) (m / 2 ^ ulpExp 104 m)
  unfold roundMag
  split
  · rename_i h
    rw [Nat.add_mul, Nat.one_mul]
    rcases h with h | ⟨h, _⟩ <;> omega
  · rename_i h
    have h1 : ¬ 2 ^ ulpExp 104 m < 2 * (m % 2 ^ ulpExp 104 m) := fun hh => h (Or.inl hh)
    omega

/-- The relative rounding error is at most `2^-24`. -/
theorem roundMag_rel (m : Nat) :
    16777216 * roundMag m ≤ 16777217 * m ∧ 16777215 * m ≤ 16777216 * roundMag m := by
  by_cases hm : m < 16777216
  · rw [roundMag_small m hm]
    omega
  · have h1 := ulpExp_le 104 m (by omega)
    have h2 := roundMag_error m
    omega

/-- An integer below `2^24` in magnitude is a binary32 number. -/
theorem round24_small (x : Int) (h : |x| < 16777216) : round24 x = x := by
  have h1 : x.natAbs < 16777216 := by
    have := abs_lt.mp h
    omega
  unfold round24
  rw [roundMag_small _ h1]
  split <;> omega

theorem round24_zero : round24 0 = 0 := by decide

/-- Sample values of the rounding: ties go to the even significand, the sign is kept, and
`-1e30f` is the rounded `-10^30`. -/
theorem round24_examples :
    round24 16777217 = 16777216 ∧ round24 16777218 = 16777218 ∧
      round24 16777219 = 16777220 ∧ round24 (-16777219) = -16777220 ∧
      round24 27486112998400 = 27486112972800 ∧
      round24 (-1000000000000000000000000000000) = float32Arith.sentinel := by decide

theorem round24_idem (x : Int) : round24 (round24 x) = round24 x := by
  have key : ∀ n : Nat, roundMag n = n →
      round24 ((n : Nat) : Int) = (n : Int) ∧ round24 (-((n : Nat) : Int)) = -(n : Int) := by
    intro n hn
    constructor
    · unfold round24
      rw [if_neg (by omega), Int.natAbs_ofNat, hn]
    · rcases Nat.eq_zero_or_pos n with h0 | h0
      · subst h0
        decide
      · unfold round24
        rw [if_pos (by omega), Int.natAbs_neg, Int.natAbs_ofNat, hn]
  have h := key (roundMag x.natAbs) (roundMag_idem _)
  unfold round24
  split
  · exact h.2
  · exact h.1

theorem abs_round24 (x : Int) : |round24 x| = ((roundMag x.natAbs : Nat) : Int) := by
  unfold round24
  split
  · rw [abs_neg]
    exact abs_of_nonneg (Int.ofNat_nonneg _)
  · exact abs_of_nonneg (Int.ofNat_nonneg _)

/-- Rounding to binary32 enlarges a magnitude by at most the factor `1 + 2^-24`. -/
theorem round24_abs_le (x : Int) : 16777216 * |round24 x| ≤ 16777217 * |x| := by
  rw [abs_round24, Int.abs_eq_natAbs]
  have := (roundMag_rel x.natAbs).1
  omega

/-- Rounding to binary32 moves a value by at most the fraction `2^-24` of its magnitude. -/
theorem round24_error (x : Int) : 16777216 * |round24 x - x| ≤ |x| := by
  have h := roundMag_rel x.natAbs
  rw [Int.abs_eq_natAbs x]
  unfold round24
  split
  · rcases abs_cases (-((roundMag x.natAbs : Nat) : Int) - x) with ⟨h1, _⟩ | ⟨h1, _⟩ <;>
      rw [h1] <;> omega
  · rcases abs_cases (((roundMag x.natAbs : Nat) : Int) - x) with ⟨h1, _⟩ | ⟨h1, _⟩ <;>
      rw [h1] <;> omega

/-! ## The offset search in binary32 -/

/-- Invariant of the outer loop of `seek_best_overlap` for an arithmetic whose `>` is the
order of its values: when `crosscorr` for offset `i` is `S i` and the score of offset 0 is
above the initial `bestcorr`, the state after `n >= 1` passes is the first maximum of `S`
over `[0, n)`. -/
theorem seek_order_loop (A : ScoreArith Int) (hA : ∀ a b, A.gt a b = true ↔ b < a)
    (temp : Nat → Int) (input_new : SamplePtr) (S : Nat → Int) (hlo : A.sentinel < S 0) :
    ∀ n : Nat, (∀ i, i < n + 1 → crosscorr A temp input_new i = some (S i)) →
      ∃ k, forLoop (n + 1) (seekStep A temp input_new) (A.sentinel, 0) = some (S k, k) ∧
        k < n + 1 ∧ (∀ i, i < n + 1 → S i ≤ S k) ∧ (∀ i, i < k → S i < S k) := by
  intro n
  induction n with
  | zero =>
    intro h
    refine ⟨0, ?_, Nat.zero_lt_one, ?_, ?_⟩
    · have h0 : A.gt (S 0) A.sentinel = true := (hA _ _).mpr hlo
      rw [forLoop_succ]
      simp only [forLoop, Option.some_bind, seekStep, h 0 Nat.zero_lt_one, Option.map_some']
      rw [if_pos h0]
    · intro i hi
      have : i = 0 := by omega
      subst this
      exact le_refl _
    · intro i hi
      exact absurd hi (Nat.not_lt_zero i)
  | succ n ih =>
    intro h
    obtain ⟨k, h1, hk, hmax, hfirst⟩ := ih (fun i hi => h i (by omega))
    by_cases hgt : S k < S (n + 1)
    · refine ⟨n + 1, ?_, Nat.lt_succ_self _, ?_, ?_⟩
      · have hg : A.gt (S (n + 1)) (S k) = true := (hA _ _).mpr hgt
        rw [forLoop_succ, h1]
        simp only [Option.some_bind, seekStep, h (n + 1) (Nat.lt_succ_self _), Option.map_some']
        rw [if_pos hg]
      · intro i hi
        by_cases hin : i = n + 1
        · subst hin
          exact le_refl _
        · exact le_of_lt (lt_of_le_of_lt (hmax i (by omega)) hgt)
      · intro i hi
        exact lt_of_le_of_lt (hmax i hi) hgt
    · refine ⟨k, ?_, by omega, ?_, hfirst⟩
      · have hg : ¬ A.gt (S (n + 1)) (S k) = true := fun hh => hgt ((hA _ _).mp hh)
        rw [forLoop_succ, h1]
        simp only [Option.some_bind, seekStep, h (n + 1) (Nat.lt_succ_self _), Option.map_some']
        rw [if_neg hg]
      · intro i hi
        by_cases hin : i = n + 1
        · subst hin
          exact not_lt.mp hgt
        · exact hmax i (by omega)

/-- When the scores `S` of all offsets are known, the result of `seek_best_overlap` is the
offset `k0` that is their first maximum. -/
theorem seek_order_eq (A : ScoreArith Int) (hA : ∀ a b, A.gt a b = true ↔ b < a)
    (input_prev input_new : SamplePtr) (temp : Nat → Int) (S : Nat → Int)
    (ht : precalc A input_prev = some temp) (hlo : A.sentinel < S 0)
    (hS : ∀ i, i < SEEK_WINDOW → crosscorr A temp input_new i = some (S i))
    (k0 : Nat) (hk0 : k0 < SEEK_WINDOW) (hmax : ∀ i, i < SEEK_WINDOW → S i ≤ S k0)
    (hfirst : ∀ i, i < k0 → S i < S k0) :
    seek_best_overlap A input_prev input_new = some k0 := by
  have h240 : SEEK_WINDOW = 239 + 1 := rfl
  obtain ⟨k, h1, hk, hmax1, hfirst1⟩ := seek_order_loop A hA temp input_new S hlo 239
    (fun i hi => hS i (by rw [h240]; exact hi))
  have hkk : k = k0 := by
    rcases Nat.lt_trichotomy k k0 with h | h | h
    · have a := hfirst k h
      have b := hmax1 k0 (by rw [← h240]; exact hk0)
      omega
    · exact h
    · have a := hfirst1 k0 h
      have b := hmax k (by rw [h240]; exact hk)
      omega
  subst hkk
  unfold seek_best_overlap
  rw [ht, Option.some_bind, h240, h1]
  rfl

theorem float32_gt (a b : Int) : float32Arith.gt a b = true ↔ b < a := by
  simp [float32Arith]

/-- In binary32 the slope is the rounded weighted sample. -/
theorem slope_float32 (v : Int) (hv : inRange16 v) (j : Nat) (hj : j < OVERLAP) :
    slope float32Arith v j = round24 (v * (j : Int) * ((OVERLAP : Int) - (j : Int))) := by
  have h : slope float32Arith v j = round24 (slope exactArith v j) := rfl
  rw [h, slope_exact v hv j hj]

theorem slope_float32_bound (v : Int) (hv : inRange16 v) (j : Nat) (hj : j < OVERLAP) :
    |slope float32Arith v j| ≤ 838860850 := by
  rw [slope_float32 v hv j hj]
  have h1 := round24_abs_le (v * (j : Int) * ((OVERLAP : Int) - (j : Int)))
  have h2 := weighted_bound v hv j hj
  linarith

/-- A rounded product of a 16-bit sample and a slope has magnitude at most `2^45`. -/
theorem product_float32_bound (x t : Int) (hx : inRange16 x) (ht : |t| ≤ 838860850) :
    |float32Arith.mul (float32Arith.ofInt x) t| ≤ 35184372088832 := by
  have hx1 : |x| ≤ 32768 := by
    unfold inRange16 at hx
    rw [abs_le]
    omega
  have e : float32Arith.mul (float32Arith.ofInt x) t = round24 (x * t) := by
    show round24 (round24 x * t) = _
    rw [round24_small x (by linarith)]
  rw [e]
  have h1 := round24_abs_le (x * t)
  have h2 : |x * t| ≤ 32768 * 838860850 := by
    rw [abs_mul]
    exact mul_le_mul hx1 ht (abs_nonneg _) (by norm_num)
  linarith

/-- A rounded product of a 16-bit sample `x` and the slope of a 16-bit sample `v` is within
`3276800` of the exact product `x * (v * j * (OVERLAP - j))`. -/
theorem product_float32_error (x v : Int) (hx : inRange16 x) (hv : inRange16 v) (j : Nat)
    (hj : j < OVERLAP) :
    |float32Arith.mul (float32Arith.ofInt x) (slope float32Arith v j) -
      x * (v * (j : Int) * ((OVERLAP : Int) - (j : Int)))| ≤ 3276800 := by
  have hx1 : |x| ≤ 32768 := by
    unfold inRange16 at hx
    rw [abs_le]
    omega
  have e : float32Arith.mul (float32Arith.ofInt x) (slope float32Arith v j) =
      round24 (x * slope float32Arith v j) := by
    show round24 (round24 x * _) = _
    rw [round24_small x (by linarith)]
  have hb := slope_float32_bound v hv j hj
  have h2 : |x * slope float32Arith v j| ≤ 32768 * 838860850 := by
    rw [abs_mul]
    exact mul_le_mul hx1 hb (abs_nonneg _) (by norm_num)
  have h3 := round24_error (x * slope float32Arith v j)
  have h4 : |round24 (x * slope float32Arith v j) - x * slope float32Arith v j| ≤ 1638400 := by
    have hint : ∀ a : Int, 16777216 * a ≤ 32768 * 838860850 → a ≤ 1638400 := by
      intro a ha
      omega
    exact hint _ (le_trans h3 h2)
  have h5 : |slope float32Arith v j - v * (j : Int) * ((OVERLAP : Int) - (j : Int))| ≤ 50 := by
    have h6 := round24_error (v * (j : Int) * ((OVERLAP : Int) - (j : Int)))
    rw [← slope_float32 v hv j hj] at h6
    have h7 := weighted_bound v hv j hj
    linarith
  have h8 : |x * slope float32Arith v j - x * (v * (j : Int) * ((OVERLAP : Int) - (j : Int)))| ≤
      32768 * 50 := by
    rw [← mul_sub, abs_mul]
    exact mul_le_mul hx1 h5 (abs_nonneg _) (by norm_num)
  rw [e]
  have := abs_sub_le (round24 (x * slope float32Arith v j)) (x * slope float32Arith v j)
    (x * (v * (j : Int) * ((OVERLAP : Int) - (j : Int))))
  linarith

/-- The inner loop in binary32 on 16-bit samples: after `n` passes the partial sum has
magnitude at most `2 * n * 2^45` and is within `n * 1345454080` of the exact partial sum. -/
theorem crosscorr_float32_loop (temp : Nat → Int) (input_prev input_new : SamplePtr) (i : Nat)
    (hp16 : Samples16 input_prev) (hn16 : Samples16 input_new)
    (ht : ∀ j, j < OVERLAP →
      ∃ v, input_prev (j : Int) = some v ∧ temp j = slope float32Arith v j) :
    ∀ n : Nat, n ≤ OVERLAP →
      (∀ j, j < n → (input_new ((i : Int) + (j : Int))).isSome = true) →
      ∃ c, forLoop n
          (fun j c => (input_new ((i : Int) + (j : Int))).map fun x =>
            float32Arith.add c (float32Arith.mul (float32Arith.ofInt x) (temp j)))
          (float32Arith.ofInt 0) = some c ∧ |c| ≤ 2 * (n : Int) * 35184372088832 ∧
        |c - ∑ j in Finset.range n, (input_new ((i : Int) + (j : Int))).getD 0 *
          ((input_prev (j : Int)).getD 0 * (j : Int) * ((OVERLAP : Int) - (j : Int)))| ≤
            (n : Int) * 1345454080 := by
  intro n
  induction n with
  | zero =>
    intro _ _
    refine ⟨_, rfl, ?_, ?_⟩
    · show |round24 0| ≤ _
      rw [round24_zero]
      simp
    · show |round24 0 - _| ≤ _
      rw [round24_zero]
      simp
  | succ n ih =>
    intro hn h
    have hn0 : n < OVERLAP := by omega
    obtain ⟨c, hc, hb, he⟩ := ih (by omega) (fun j hj => h j (by omega))
    obtain ⟨x, hx⟩ := Option.isSome_iff_exists.mp (h n (Nat.lt_succ_self n))
    obtain ⟨v, hv, htn⟩ := ht n hn0
    have hm1 : ((n : Nat) : Int) ≤ 319 := by
      simp only [OVERLAP] at hn
      omega
    have hm0 : (0 : Int) ≤ ((n : Nat) : Int) := Int.ofNat_nonneg n
    have hp := product_float32_bound x (temp n) (hn16 _ x hx)
      (by rw [htn]; exact slope_float32_bound v (hp16 _ v hv) n hn0)
    have hpe := product_float32_error x v (hn16 _ x hx) (hp16 _ v hv) n hn0
    rw [← htn] at hpe
    have hr := round24_abs_le (c + float32Arith.mul (float32Arith.ofInt x) (temp n))
    have hre := round24_error (c + float32Arith.mul (float32Arith.ofInt x) (temp n))
    have ha := abs_add c (float32Arith.mul (float32Arith.ofInt x) (temp n))
    refine ⟨float32Arith.add c (float32Arith.mul (float32Arith.ofInt x) (temp n)), ?_, ?_, ?_⟩
    · rw [forLoop_succ, hc]
      simp [hx]
    · show |round24 (c + float32Arith.mul (float32Arith.ofInt x) (temp n))| ≤ _
      push_cast
      linarith
    · rw [Finset.sum_range_succ, hx, hv]
      simp only [Option.getD_some]
      show |round24 (c + float32Arith.mul (float32Arith.ofInt x) (temp n)) - _| ≤ _
      have h1 := abs_le.mp he
      have h2 := abs_le.mp hpe
      have h3 : |round24 (c + float32Arith.mul (float32Arith.ofInt x) (temp n)) -
          (c + float32Arith.mul (float32Arith.ofInt x) (temp n))| ≤ 1342177280 := by
        linarith
      have h4 := abs_le.mp h3
      push_cast
      rw [abs_le]
      constructor <;> linarith [h1.1, h1.2, h2.1, h2.2, h4.1, h4.2]

/-- In binary32, on readable 16-bit operands, `seek_best_overlap` returns the first maximum
of the scores that its inner loop computes, and every computed score is within
`430545305600` of the exact score. -/
theorem seek_float32_spec (input_prev input_new : SamplePtr)
    (hp : Readable input_prev 0 OVERLAP)
    (hn : Readable input_new 0 ((SEEK_WINDOW : Int) + (OVERLAP : Int) - 1))
    (hp16 : Samples16 input_prev) (hn16 : Samples16 input_new) :
    ∃ (temp : Nat → Int) (C : Nat → Int) (k : Nat),
      precalc float32Arith input_prev = some temp ∧
      (∀ j, j < OVERLAP →
        ∃ v, input_prev (j : Int) = some v ∧ temp j = slope float32Arith v j) ∧
      (∀ i, i < SEEK_WINDOW → crosscorr float32Arith temp input_new i = some (C i)) ∧
      (∀ i, i < SEEK_WINDOW → |C i - exactScore input_prev input_new i| ≤ 430545305600) ∧
      seek_best_overlap float32Arith input_prev input_new = some k ∧ k < SEEK_WINDOW ∧
      (∀ i, i < SEEK_WINDOW → C i ≤ C k) ∧ (∀ i, i < k → C i < C k) := by
  obtain ⟨temp, ht, hslope⟩ := precalc_spec float32Arith input_prev hp
  have hex : ∀ i, i < 239 + 1 →
      ∃ c, crosscorr float32Arith temp input_new i = some c ∧ |c| ≤ 22517998136852480 ∧
        |c - exactScore input_prev input_new i| ≤ 430545305600 := by
    intro i hi
    obtain ⟨c, hc, hb, he⟩ := crosscorr_float32_loop temp input_prev input_new i hp16 hn16
      hslope OVERLAP (le_refl _)
      (fun j hj => hn _ (by omega) (by simp only [SEEK_WINDOW, OVERLAP] at *; omega))
    refine ⟨c, hc, ?_, ?_⟩
    · simpa [OVERLAP] using hb
    · unfold exactScore
      have e : ((OVERLAP : Nat) : Int) * 1345454080 = 430545305600 := by
        simp [OVERLAP]
      rw [← e]
      exact he
  have hC : ∀ i, i < 239 + 1 → crosscorr float32Arith temp input_new i =
      some ((crosscorr float32Arith temp input_new i).getD 0) := by
    intro i hi
    obtain ⟨c, hc, _⟩ := hex i hi
    rw [hc]
    rfl
  have hlo : float32Arith.sentinel < (crosscorr float32Arith temp input_new 0).getD 0 := by
    obtain ⟨c, hc, hb, _⟩ := hex 0 (by omega)
    rw [hc]
    have := (abs_le.mp hb).1
    show (-1000000015047466219876688855040 : Int) < c
    linarith
  obtain ⟨k, h1, hk, hmax, hfirst⟩ := seek_order_loop float32Arith float32_gt temp input_new
    (fun i => (crosscorr float32Arith temp input_new i).getD 0) hlo 239 hC
  have h240 : SEEK_WINDOW = 239 + 1 := rfl
  refine ⟨temp, fun i => (crosscorr float32Arith temp input_new i).getD 0, k, ht, hslope,
    hC, ?_, ?_, hk, hmax, hfirst⟩
  · intro i hi
    obtain ⟨c, hc, _, he⟩ := hex i hi
    show |(crosscorr float32Arith temp input_new i).getD 0 - _| ≤ _
    rw [hc]
    exact he
  · unfold seek_best_overlap
    rw [ht, Option.some_bind, h240, h1]
    rfl

/-- In binary32 no operation of the inner loop rounds when the magnitudes of the terms of
the exact score add up to less than `2^24`: the computed score is the exact score. -/
theorem crosscorr_float32_exact (temp : Nat → Int) (input_prev input_new : SamplePtr) (i : Nat)
    (hp16 : Samples16 input_prev) (hn16 : Samples16 input_new)
    (ht : ∀ j, j < OVERLAP →
      ∃ v, input_prev (j : Int) = some v ∧ temp j = slope float32Arith v j)
    (hn : ∀ j, j < OVERLAP → (input_new ((i : Int) + (j : Int))).isSome = true)
    (hsmall : absScore input_prev input_new i < 16777216) :
    crosscorr float32Arith temp input_new i = some (exactScore input_prev input_new i) := by
  have hpart : ∀ n : Nat, n ≤ OVERLAP →
      |∑ j in Finset.range n, (input_new ((i : Int) + (j : Int))).getD 0 *
        ((input_prev (j : Int)).getD 0 * (j : Int) * ((OVERLAP : Int) - (j : Int)))| <
          16777216 := by
    intro n hn
    refine lt_of_le_of_lt (le_trans (Finset.abs_sum_le_sum_abs _ _) ?_) hsmall
    exact Finset.sum_le_sum_of_subset_of_nonneg (Finset.range_subset.mpr hn)
      (fun _ _ _ => abs_nonneg _)
  have hone : ∀ j : Nat, j < OVERLAP →
      |(input_new ((i : Int) + (j : Int))).getD 0 *
        ((input_prev (j : Int)).getD 0 * (j : Int) * ((OVERLAP : Int) - (j : Int)))| <
          16777216 := by
    intro j hj
    refine lt_of_le_of_lt ?_ hsmall
    exact Finset.single_le_sum (f := fun j : Nat =>
      |(input_new ((i : Int) + (j : Int))).getD 0 *
        ((input_prev (j : Int)).getD 0 * (j : Int) * ((OVERLAP : Int) - (j : Int)))|)
      (fun _ _ => abs_nonneg _) (Finset.mem_range.mpr hj)
  have key : ∀ n : Nat, n ≤ OVERLAP →
      forLoop n
          (fun j c => (input_new ((i : Int) + (j : Int))).map fun x =>
            float32Arith.add c (float32Arith.mul (float32Arith.ofInt x) (temp j)))
          (float32Arith.ofInt 0) =
        some (∑ j in Finset.range n, (input_new ((i : Int) + (j : Int))).getD 0 *
          ((input_prev (j : Int)).getD 0 * (j : Int) * ((OVERLAP : Int) - (j : Int)))) := by
    intro n
    induction n with
    | zero =>
      intro _
      simp only [forLoop, Finset.range_zero, Finset.sum_empty]
      exact congrArg some round24_zero
    | succ n ih =>
      intro hn1
      have hn0 : n < OVERLAP := by omega
      obtain ⟨x, hx⟩ := Option.isSome_iff_exists.mp (hn n hn0)
      obtain ⟨v, hv, htn⟩ := ht n hn0
      have hx16 := hn16 _ x hx
      have hterm := hone n hn0
      have hsum := hpart (n + 1) hn1
      rw [Finset.sum_range_succ] at hsum ⊢
      rw [hx, hv] at hterm hsum ⊢
      simp only [Option.getD_some] at hterm hsum ⊢
      rw [forLoop_succ, ih (by omega)]
      simp only [Option.some_bind, hx, Option.map_some']
      congr 1
      show round24 (_ + round24 (round24 x * temp n)) = _
      have e1 : round24 x = x := by
        unfold inRange16 at hx16
        apply round24_small
        rw [abs_lt]
        omega
      have e2 : round24 (x * temp n) = x * (v * (n : Int) * ((OVERLAP : Int) - (n : Int))) := by
        rw [htn, slope_float32 v (hp16 _ v hv) n hn0]
        by_cases hx0 : x = 0
        · subst hx0
          simp [round24_zero]
        · have hx1 : 1 ≤ |x| := Int.one_le_abs hx0
          have hw : |v * (n : Int) * ((OVERLAP : Int) - (n : Int))| < 16777216 := by
            rw [abs_mul] at hterm
            nlinarith [abs_nonneg (v * (n : Int) * ((OVERLAP : Int) - (n : Int)))]
          rw [round24_small _ hw, round24_small _ hterm]
      rw [e1, e2, round24_small _ hsum]
  unfold crosscorr exactScore
  exact key OVERLAP (le_refl _)

/-- The inner loop in binary32 when `temp` is zero except at `j1 < j2`: the score is the
rounded sum of the two rounded products. -/
theorem crosscorr_float32_two (temp : Nat → Int) (input_new : SamplePtr) (i j1 j2 : Nat)
    (h12 : j1 < j2) (h2 : j2 < OVERLAP)
    (hz : ∀ j, j < OVERLAP → j ≠ j1 → j ≠ j2 → temp j = 0)
    (hr : ∀ j, j < OVERLAP → (input_new ((i : Int) + (j : Int))).isSome = true)
    (y x : Int)
    (hy : input_new ((i : Int) + (j1 : Int)) = some y)
    (hx : input_new ((i : Int) + (j2 : Int)) = some x) :
    crosscorr float32Arith temp input_new i =
      some (float32Arith.add
        (float32Arith.add (float32Arith.ofInt 0)
          (float32Arith.mul (float32Arith.ofInt y) (temp j1)))
        (float32Arith.mul (float32Arith.ofInt x) (temp j2))) := by
  have key : ∀ n : Nat, n ≤ OVERLAP →
      forLoop n
          (fun j c => (input_new ((i : Int) + (j : Int))).map fun x =>
            float32Arith.add c (float32Arith.mul (float32Arith.ofInt x) (temp j)))
          (float32Arith.ofInt 0) =
        some (if n ≤ j1 then 0
          else if n ≤ j2 then round24 (0 + round24 (round24 y * temp j1))
          else round24 (round24 (0 + round24 (round24 y * temp j1)) +
            round24 (round24 x * temp j2))) := by
    intro n
    induction n with
    | zero =>
      intro _
      simp only [forLoop, Nat.zero_le, if_true]
      exact congrArg some round24_zero
    | succ n ih =>
      intro hn
      obtain ⟨v, hv⟩ := Option.isSome_iff_exists.mp (hr n (by omega))
      rw [forLoop_succ, ih (by omega)]
      simp only [Option.some_bind, hv, Option.map_some']
      show some (round24 (_ + round24 (round24 v * temp n))) = _
      by_cases e1 : n = j1
      · subst e1
        rw [hy] at hv
        simp only [Option.some.injEq] at hv
        subst hv
        rw [if_pos (le_refl _), if_neg (show ¬ n + 1 ≤ n by omega),
          if_pos (show n + 1 ≤ j2 by omega)]
      · by_cases e2 : n = j2
        · subst e2
          rw [hx] at hv
          simp only [Option.some.injEq] at hv
          subst hv
          rw [if_neg (show ¬ n ≤ j1 by omega), if_pos (le_refl _),
            if_neg (show ¬ n + 1 ≤ j1 by omega), if_neg (show ¬ n + 1 ≤ n by omega)]
        · rw [hz n (by omega) e1 e2, mul_zero, round24_zero, add_zero]
          congr 1
          by_cases c1 : n ≤ j1
          · rw [if_pos c1, if_pos (show n + 1 ≤ j1 by omega), round24_zero]
          · rw [if_neg c1, if_neg (show ¬ n + 1 ≤ j1 by omega)]
            by_cases c2 : n ≤ j2
            · rw [if_pos c2, if_pos (show n + 1 ≤ j2 by omega), round24_idem]
            · rw [if_neg c2, if_neg (show ¬ n + 1 ≤ j2 by omega), round24_idem]
  have := key OVERLAP (le_refl _)
  rw [if_neg (show ¬ OVERLAP ≤ j1 by omega), if_neg (show ¬ OVERLAP ≤ j2 by omega)] at this
  rw [crosscorr, this]
  show _ = some (round24 (round24 (round24 0 + _) + _))
  rw [round24_zero]
  rfl

/-! ## The blend of `overlap` -/

/-- Truncating division by `OVERLAP` in terms of floor division. -/
theorem tdiv_overlap_cases (a : Int) :
    (0 ≤ a ∧ Int.tdiv a (OVERLAP : Int) = a / 320) ∨
      (a < 0 ∧ Int.tdiv a (OVERLAP : Int) = -((-a) / 320)) := by
  simp only [OVERLAP, Nat.cast_ofNat]
  by_cases h : 0 ≤ a
  · exact Or.inl ⟨h, Int.tdiv_eq_ediv h (by norm_num)⟩
  · refine Or.inr ⟨by omega, ?_⟩
    have h1 : Int.tdiv (-a) 320 = (-a) / 320 := Int.tdiv_eq_ediv (by omega) (by norm_num)
    rw [← h1, Int.neg_tdiv, neg_neg]

/-- The two products and the sum computed by `overlap` for 16-bit samples stay inside the
32-bit range, and the numerator lies between `320 * min` and `320 * max` of the samples. -/
theorem blend_numerator (p n : Int) (hp : inRange16 p) (hn : inRange16 n) (i : Nat)
    (hi : i < OVERLAP) :
    inRange32 (p * ((OVERLAP : Int) - (i : Int))) ∧ inRange32 (n * (i : Int)) ∧
      inRange32 (p * ((OVERLAP : Int) - (i : Int)) + n * (i : Int)) ∧
      320 * min p n ≤ p * ((OVERLAP : Int) - (i : Int)) + n * (i : Int) ∧
      p * ((OVERLAP : Int) - (i : Int)) + n * (i : Int) ≤ 320 * max p n := by
  unfold inRange16 at hp hn
  unfold inRange32
  simp only [OVERLAP] at *
  have hi0 : (0 : Int) ≤ (i : Int) := by omega
  have hi1 : (0 : Int) ≤ 320 - (i : Int) := by omega
  have hmin1 : min p n ≤ p := min_le_left _ _
  have hmin2 : min p n ≤ n := min_le_right _ _
  have hmax1 : p ≤ max p n := le_max_left _ _
  have hmax2 : n ≤ max p n := le_max_right _ _
  have a1 := mul_le_mul_of_nonneg_right hp.1 hi1
  have a2 := mul_le_mul_of_nonneg_right hp.2 hi1
  have b1 := mul_le_mul_of_nonneg_right hn.1 hi0
  have b2 := mul_le_mul_of_nonneg_right hn.2 hi0
  have c1 := mul_le_mul_of_nonneg_right hmin1 hi1
  have c2 := mul_le_mul_of_nonneg_right hmin2 hi0
  have d1 := mul_le_mul_of_nonneg_right hmax1 hi1
  have d2 := mul_le_mul_of_nonneg_right hmax2 hi0
  push_cast
  refine ⟨⟨?_, ?_⟩, ⟨?_, ?_⟩, ⟨?_, ?_⟩, ?_, ?_⟩ <;> linarith

/-- For 16-bit samples no conversion in `blend` changes a value: the stored sample is the
truncated quotient of the exact numerator, and it lies between the two samples. -/
theorem blend_exact (p n : Int) (hp : inRange16 p) (hn : inRange16 n) (i : Nat)
    (hi : i < OVERLAP) :
    blend p n i = Int.tdiv (p * ((OVERLAP : Int) - (i : Int)) + n * (i : Int)) (OVERLAP : Int) ∧
      min p n ≤ blend p n i ∧ blend p n i ≤ max p n := by
  obtain ⟨h1, h2, h3, hlo, hhi⟩ := blend_numerator p n hp hn i hi
  have hq : min p n ≤ Int.tdiv (p * ((OVERLAP : Int) - (i : Int)) + n * (i : Int)) (OVERLAP : Int) ∧
      Int.tdiv (p * ((OVERLAP : Int) - (i : Int)) + n * (i : Int)) (OVERLAP : Int) ≤ max p n := by
    rcases tdiv_overlap_cases (p * ((OVERLAP : Int) - (i : Int)) + n * (i : Int)) with
      ⟨h0, he⟩ | ⟨h0, he⟩
    · rw [he]
      have : 0 ≤ max p n := by
        by_contra hneg
        omega
      omega
    · rw [he]
      have : min p n < 0 := by
        by_contra hneg
        omega
      omega
  have h16 : inRange16
      (Int.tdiv (p * ((OVERLAP : Int) - (i : Int)) + n * (i : Int)) (OVERLAP : Int)) := by
    unfold inRange16 at *
    have hmin : -32768 ≤ min p n := le_min hp.1 hn.1
    have hmax : max p n ≤ 32767 := max_le hp.2 hn.2
    omega
  have he : blend p n i =
      Int.tdiv (p * ((OVERLAP : Int) - (i : Int)) + n * (i : Int)) (OVERLAP : Int) := by
    unfold blend
    rw [wrap32_eq _ h1, wrap32_eq _ h2, wrap32_eq _ h3, wrap16_eq _ h16]
  rw [he]
  exact ⟨rfl, hq⟩

/-! ## The driver loop -/

theorem readable_ptrAdd (mem : SamplePtr) (lo hi k : Int) (n : Int) (h : Readable mem lo hi)
    (h1 : lo ≤ k) (h2 : k + n ≤ hi) : Readable (ptrAdd mem k) 0 n := by
  intro i hi0 hin
  exact h (k + i) (by omega) (by omega)

/-- One iteration of the loop of `sola`, on memory readable over the ranges it touches. -/
theorem solaBody_spec {F : Type} (A : ScoreArith F) (skip : Int) (mem : SamplePtr)
    (lo hi : Int) (hmem : Readable mem lo hi) (st : SolaState)
    (h1 : lo ≤ st.seq_offset) (h2 : lo ≤ st.input + skip - 320)
    (h3 : st.seq_offset + 1280 ≤ hi) (h4 : st.input + skip + 239 ≤ hi) :
    ∃ st1 off, solaBody A skip mem st = some st1 ∧ off < SEEK_WINDOW ∧
      seek_best_overlap A (ptrAdd mem (st.seq_offset + 960))
        (ptrAdd mem (st.input + (skip - 320))) = some off ∧
      st1.output = st.output + 1280 ∧
      st1.input = st.input + skip ∧
      st1.seq_offset = st.input + skip + (off : Int) ∧
      st1.num_out_samples = wrap32 (st.num_out_samples + 1280) ∧
      st1.num_in_samples = st.num_in_samples ∧
      st1.iters = st.iters ∧
      st1.out.log = st.out.log ++ idxRange st.output 1280 ∧
      (∀ k, (k < st.output ∨ st.output + 1280 ≤ k) → st1.out.val k = st.out.val k) ∧
      (∀ t : Nat, t < 960 →
        mem (st.seq_offset + (t : Int)) = some (st1.out.val (st.output + (t : Int)))) ∧
      (∀ i : Nat, i < 320 → ∃ p n, mem (st.seq_offset + 960 + (i : Int)) = some p ∧
        mem (st.input + (skip - 320) + (off : Int) + (i : Int)) = some n ∧
        st1.out.val (st.output + 960 + (i : Int)) = blend p n i) := by
  have hsrc : Readable (ptrAdd mem st.seq_offset) 0 (FLAT_DURATION : Nat) :=
    readable_ptrAdd mem lo hi _ _ hmem h1 (by simp only [FLAT_DURATION, SEQUENCE, OVERLAP]; omega)
  obtain ⟨out1, hm, hlog1, hframe1, hval1⟩ :=
    memcpy_spec st.out st.output (ptrAdd mem st.seq_offset) FLAT_DURATION hsrc
  have hprev : Readable (ptrAdd mem (st.seq_offset + 960)) 0 (OVERLAP : Nat) :=
    readable_ptrAdd mem lo hi _ _ hmem (by omega) (by simp only [OVERLAP]; omega)
  have hnew : Readable (ptrAdd mem (st.input + (skip - 320))) 0
      ((SEEK_WINDOW : Int) + (OVERLAP : Int) - 1) :=
    readable_ptrAdd mem lo hi _ _ hmem (by omega) (by simp only [SEEK_WINDOW, OVERLAP]; omega)
  obtain ⟨off, hseek, hoff⟩ := seek_spec A _ _ hprev hnew
  have hhead : Readable (ptrAdd mem (st.input + (skip - 320) + (off : Int))) 0 (OVERLAP : Nat) :=
    readable_ptrAdd mem lo hi _ _ hmem (by omega)
      (by simp only [SEEK_WINDOW, OVERLAP] at *; omega)
  obtain ⟨out2, ho, hlog2, hframe2, hval2⟩ :=
    overlap_spec out1 (st.output + 960) _ _ hprev hhead
  refine ⟨{ out := out2
            output := st.output + ((SEQUENCE : Int) - (OVERLAP : Int))
            input := st.input + (skip - (OVERLAP : Int)) + (OVERLAP : Int)
            seq_offset := st.input + (skip - (OVERLAP : Int)) + (off : Int) + (OVERLAP : Int)
            num_out_samples := wrap32 (st.num_out_samples + ((SEQUENCE : Int) - (OVERLAP : Int)))
            num_in_samples := st.num_in_samples
            iters := st.iters },
    off, ?_, hoff, hseek, ?_, ?_, ?_, ?_, ?_, ?_, ?_, ?_, ?_, ?_⟩
  · simp only [solaBody]
    rw [hm]
    simp only [Option.some_bind]
    have e1 : ((FLAT_DURATION : Nat) : Int) = 960 := by simp [FLAT_DURATION, SEQUENCE, OVERLAP]
    have e2 : ((OVERLAP : Nat) : Int) = 320 := by simp [OVERLAP]
    rw [e1, e2, hseek]
    simp only [Option.some_bind]
    rw [ho]
    rfl
  · simp only [SEQUENCE, OVERLAP, Nat.cast_ofNat]
    omega
  · simp only [OVERLAP, Nat.cast_ofNat]
    omega
  · simp only [OVERLAP, Nat.cast_ofNat]
    omega
  · simp only [SEQUENCE, OVERLAP, Nat.cast_ofNat]
    norm_num
  · rfl
  · rfl
  · show out2.log = _
    rw [hlog2, hlog1]
    have e : (1280 : Nat) = FLAT_DURATION + OVERLAP := by simp [FLAT_DURATION, SEQUENCE, OVERLAP]
    rw [e, idxRange_add, List.append_assoc]
    simp [FLAT_DURATION, SEQUENCE, OVERLAP]
  · intro k hk
    show out2.val k = _
    rw [hframe2 k (by simp only [OVERLAP]; omega),
      hframe1 k (by simp only [FLAT_DURATION, SEQUENCE, OVERLAP]; omega)]
  · intro t ht
    show _ = some (out2.val _)
    rw [hframe2 _ (by omega)]
    have := hval1 t (by simp only [FLAT_DURATION, SEQUENCE, OVERLAP]; omega)
    simpa [ptrAdd] using this
  · intro i hi
    obtain ⟨p, n, hp, hn, hv⟩ := hval2 i (by simp only [OVERLAP]; omega)
    refine ⟨p, n, ?_, ?_, hv⟩
    · simpa [ptrAdd] using hp
    · simpa [ptrAdd] using hn

/-- Every executed iteration of the loop of `sola` stores to the 960 indices from its output
cursor (flat copy), then to the following 320 indices (blend), and advances the cursor
by 1280. -/
theorem solaBody_log {F : Type} (A : ScoreArith F) (skip : Int) (mem : SamplePtr)
    (st st1 : SolaState) (h : solaBody A skip mem st = some st1) :
    st1.output = st.output + 1280 ∧
      st1.out.log = st.out.log ++ (idxRange st.output 960 ++ idxRange (st.output + 960) 320) := by
  simp only [solaBody, Option.bind_eq_some, Option.map_eq_some'] at h
  obtain ⟨out1, hm, off, _, out2, ho, rfl⟩ := h
  have l1 := storeLoop_log _ _ _ _ _ hm
  rw [overlap_eq_storeLoop] at ho
  have l2 := storeLoop_log _ _ _ _ _ ho
  constructor
  · simp [SEQUENCE, OVERLAP]
  · show out2.log = _
    rw [l2, l1, List.append_assoc]
    simp [FLAT_DURATION, SEQUENCE, OVERLAP]

theorem solaLoop_exit {F : Type} (A : ScoreArith F) (skip : Int) (hs : 0 < skip)
    (mem : SamplePtr) (st : SolaState)
    (h : ¬ st.num_in_samples > skip + (SEEK_WINDOW : Int)) :
    solaLoop A skip hs mem st = some st := by
  rw [solaLoop, if_neg h]

theorem solaLoop_step {F : Type} (A : ScoreArith F) (skip : Int) (hs : 0 < skip)
    (mem : SamplePtr) (st st1 : SolaState)
    (h : st.num_in_samples > skip + (SEEK_WINDOW : Int))
    (hb : solaBody A skip mem st = some st1) :
    solaLoop A skip hs mem st =
      solaLoop A skip hs mem
        { st1 with num_in_samples := st.num_in_samples - skip, iters := st.iters + 1 } := by
  rw [solaLoop, if_pos h, hb]
  rfl

theorem solaLoop_fail {F : Type} (A : ScoreArith F) (skip : Int) (hs : 0 < skip)
    (mem : SamplePtr) (st : SolaState)
    (h : st.num_in_samples > skip + (SEEK_WINDOW : Int))
    (hb : solaBody A skip mem st = none) :
    solaLoop A skip hs mem st = none := by
  rw [solaLoop, if_pos h, hb]
  rfl

/-! ## The iteration count -/

theorem iterations_of_not_guard (skip N : Int) (h : ¬ N > skip + (SEEK_WINDOW : Int)) :
    iterations skip N = 0 := by
  unfold iterations
  rw [if_neg h]

theorem iterations_step (skip N : Int) (hs : 0 < skip) (h : N > skip + (SEEK_WINDOW : Int)) :
    iterations skip N = iterations skip (N - skip) + 1 := by
  have hy : 0 ≤ N - skip - (skip + (SEEK_WINDOW : Int)) + (skip - 1) := by omega
  have e1 : N - (skip + (SEEK_WINDOW : Int)) + (skip - 1) =
      (N - skip - (skip + (SEEK_WINDOW : Int)) + (skip - 1)) + 1 * skip := by ring
  have hq : 0 ≤ (N - skip - (skip + (SEEK_WINDOW : Int)) + (skip - 1)) / skip :=
    Int.ediv_nonneg hy (le_of_lt hs)
  have hN : iterations skip N =
      ((N - skip - (skip + (SEEK_WINDOW : Int)) + (skip - 1)) / skip + 1).toNat := by
    unfold iterations
    rw [if_pos h, e1, Int.add_mul_ediv_right _ _ (ne_of_gt hs)]
  rw [hN]
  unfold iterations
  by_cases h2 : N - skip > skip + (SEEK_WINDOW : Int)
  · rw [if_pos h2]
    omega
  · rw [if_neg h2]
    have hlt : N - skip - (skip + (SEEK_WINDOW : Int)) + (skip - 1) < skip := by omega
    rw [Int.ediv_eq_zero_of_lt hy hlt]
    rfl

theorem guard_of_iterations_succ (skip N : Int) (K : Nat) (h : iterations skip N = K + 1) :
    N > skip + (SEEK_WINDOW : Int) := by
  by_contra hn
  rw [iterations_of_not_guard skip N hn] at h
  omega

theorem wrap32_add_wrap32 (a b : Int) : wrap32 (wrap32 a + b) = wrap32 (a + b) := by
  unfold wrap32
  omega

theorem wrap32_inRange (x : Int) : inRange32 (wrap32 x) := by
  unfold wrap32 inRange32
  omega

/-- The loop of `sola` run from a state whose remaining-length counter allows `K` more
iterations, on memory readable over `[lo, hi)`: it succeeds when the reads of these `K`
iterations fit into `[lo, hi)`. -/
theorem solaLoop_spec {F : Type} (A : ScoreArith F) (skip : Int) (hs : 0 < skip)
    (mem : SamplePtr) (lo hi : Int) (hmem : Readable mem lo hi) :
    ∀ (K : Nat) (st : SolaState), iterations skip st.num_in_samples = K →
      inRange32 st.num_out_samples →
      (K = 0 ∨ (lo ≤ st.input ∧ lo ≤ st.input + skip - 320 ∧
        st.input ≤ st.seq_offset ∧ st.seq_offset ≤ st.input + 239 ∧
        st.input + ((K : Int) - 1) * skip + 1519 ≤ hi ∧
        st.input + (K : Int) * skip + 239 ≤ hi)) →
      ∃ st1, solaLoop A skip hs mem st = some st1 ∧
        st1.num_out_samples = wrap32 (st.num_out_samples + 1280 * (K : Int)) ∧
        st1.output = st.output + 1280 * (K : Int) ∧
        st1.out.log = st.out.log ++ idxRange st.output (1280 * K) ∧
        (∀ k, (k < st.output ∨ st.output + 1280 * (K : Int) ≤ k) →
          st1.out.val k = st.out.val k) ∧
        st1.iters = st.iters + K := by
  intro K
  induction K with
  | zero =>
    intro st hK hout _
    have hg : ¬ st.num_in_samples > skip + (SEEK_WINDOW : Int) := by
      intro hg
      rw [iterations_step skip _ hs hg] at hK
      omega
    refine ⟨st, solaLoop_exit A skip hs mem st hg, ?_, ?_, ?_, ?_, rfl⟩
    · simp [wrap32_eq _ hout]
    · simp
    · simp [idxRange]
    · intro k _
      rfl
  | succ K ih =>
    intro st hK hout hr
    have hg := guard_of_iterations_succ skip _ K hK
    have hK1 : iterations skip (st.num_in_samples - skip) = K := by
      have := iterations_step skip _ hs hg
      omega
    rcases hr with hr | ⟨r1, r2, r3, r4, r5, r6⟩
    · omega
    have hKs : 0 ≤ (K : Int) * skip := mul_nonneg (by omega) (le_of_lt hs)
    have e5 : (((K + 1 : Nat) : Int) - 1) * skip = (K : Int) * skip := by
      push_cast
      ring
    have e6 : ((K + 1 : Nat) : Int) * skip = (K : Int) * skip + skip := by
      push_cast
      ring
    rw [e5] at r5
    rw [e6] at r6
    obtain ⟨st1, off, hb, hoff, _, b1, b2, b3, b4, _, _, b6, b7, _, _⟩ :=
      solaBody_spec A skip mem lo hi hmem st (by omega) r2 (by omega) (by omega)
    simp only [SEEK_WINDOW] at hoff
    have hr1 : K = 0 ∨ (lo ≤ st1.input ∧ lo ≤ st1.input + skip - 320 ∧
        st1.input ≤ st1.seq_offset ∧ st1.seq_offset ≤ st1.input + 239 ∧
        st1.input + ((K : Int) - 1) * skip + 1519 ≤ hi ∧
        st1.input + (K : Int) * skip + 239 ≤ hi) := by
      right
      have e7 : ((K : Int) - 1) * skip = (K : Int) * skip - skip := by ring
      rw [b2, b3, e7]
      refine ⟨by omega, by omega, by omega, by omega, by omega, by omega⟩
    obtain ⟨st2, hl, c1, c2, c3, c4, c5⟩ :=
      ih { st1 with num_in_samples := st.num_in_samples - skip, iters := st.iters + 1 } hK1
        (by rw [b4]; exact wrap32_inRange _) hr1
    refine ⟨st2, ?_, ?_, ?_, ?_, ?_, ?_⟩
    · rw [solaLoop_step A skip hs mem st st1 hg hb]
      exact hl
    · rw [c1]
      show wrap32 (st1.num_out_samples + _) = _
      rw [b4, wrap32_add_wrap32]
      have e : st.num_out_samples + 1280 + 1280 * (K : Int) =
          st.num_out_samples + 1280 * ((K + 1 : Nat) : Int) := by
        push_cast
        ring
      rw [e]
    · rw [c2]
      show st1.output + _ = _
      rw [b1]
      push_cast
      ring
    · rw [c3]
      show st1.out.log ++ idxRange st1.output _ = _
      have e : 1280 * (K + 1) = 1280 + 1280 * K := by ring
      rw [b6, List.append_assoc, e, idxRange_add, b1]
      rfl
    · intro k hk
      have hk1 : k < st.output ∨ st.output + 1280 + 1280 * (K : Int) ≤ k := by
        push_cast at hk
        omega
      rw [c4 k (by show k < st1.output ∨ st1.output + _ ≤ k; rw [b1]; omega)]
      show st1.out.val k = _
      exact b7 k (by omega)
    · rw [c5]
      show st.iters + 1 + K = _
      omega

theorem SEQUENCE_SKIP_eq : SEQUENCE_SKIP = 1113 := by decide

theorem SEQUENCE_SKIP_pos : 0 < SEQUENCE_SKIP := by decide

/-- The closed form is a ceiling: `(K - 1) * skip < N - (skip + SEEK_WINDOW) <= K * skip`. -/
theorem iterations_ceil (skip N : Int) (hs : 0 < skip) (h : N > skip + (SEEK_WINDOW : Int)) :
    ((iterations skip N : Int) - 1) * skip < N - (skip + (SEEK_WINDOW : Int)) ∧
      N - (skip + (SEEK_WINDOW : Int)) ≤ (iterations skip N : Int) * skip := by
  have hx : 0 ≤ N - (skip + (SEEK_WINDOW : Int)) + (skip - 1) := by omega
  have hq : 0 ≤ (N - (skip + (SEEK_WINDOW : Int)) + (skip - 1)) / skip :=
    Int.ediv_nonneg hx (le_of_lt hs)
  have hK : (iterations skip N : Int) = (N - (skip + (SEEK_WINDOW : Int)) + (skip - 1)) / skip := by
    unfold iterations
    rw [if_pos h, Int.toNat_of_nonneg hq]
  have h1 := Int.ediv_mul_le (N - (skip + (SEEK_WINDOW : Int)) + (skip - 1)) (ne_of_gt hs)
  have h2 := Int.lt_ediv_add_one_mul_self (N - (skip + (SEEK_WINDOW : Int)) + (skip - 1)) hs
  rw [← hK] at h1 h2
  constructor
  · linarith
  · linarith

/-- The function `sola` on memory readable over `[lo, hi)`, when the reads of its
`iterations skip N` loop iterations fit into `[lo, hi)`. -/
theorem sola_spec {F : Type} (A : ScoreArith F) (skip : Int) (hs : 0 < skip)
    (mem : SamplePtr) (lo hi : Int) (hmem : Readable mem lo hi) (out : OutBuf) (N : Int)
    (hr : iterations skip N = 0 ∨ (lo ≤ 0 ∧ lo ≤ skip - 320 ∧
      ((iterations skip N : Int) - 1) * skip + 1519 ≤ hi ∧
      (iterations skip N : Int) * skip + 239 ≤ hi)) :
    ∃ out1, sola A skip hs out mem N = some (out1, wrap32 (1280 * (iterations skip N : Int))) ∧
      solaIterations A skip hs out mem N = some (iterations skip N) ∧
      out1.log = out.log ++ idxRange 0 (1280 * iterations skip N) ∧
      (∀ k, (k < 0 ∨ 1280 * (iterations skip N : Int) ≤ k) → out1.val k = out.val k) := by
  obtain ⟨st1, hl, c1, _, c3, c4, c5⟩ := solaLoop_spec A skip hs mem lo hi hmem
    (iterations skip N) (solaInit out N) rfl (by unfold inRange32; simp [solaInit])
    (by
      rcases hr with hr | ⟨r1, r2, r3, r4⟩
      · exact Or.inl hr
      · exact Or.inr ⟨r1, by simpa [solaInit] using r2, le_refl _, by simp [solaInit],
          by simpa [solaInit] using r3, by simpa [solaInit] using r4⟩)
  refine ⟨st1.out, ?_, ?_, ?_, ?_⟩
  · unfold sola solaRun
    rw [hl]
    simp only [Option.map_some', c1, solaInit, zero_add]
  · unfold solaIterations solaRun
    rw [hl]
    simp only [Option.map_some', c5, solaInit, zero_add]
  · simpa [solaInit] using c3
  · intro k hk
    exact c4 k (by simpa [solaInit] using hk)

/-- With skip `s` the reads of `sola` stay below `N + max 0 (1278 - s)`. -/
theorem sola_spec_of_extent {F : Type} (A : ScoreArith F) (skip : Int) (hs : 0 < skip)
    (mem : SamplePtr) (lo hi : Int) (hmem : Readable mem lo hi) (out : OutBuf) (N : Int)
    (hlo0 : lo ≤ 0) (hlo : lo ≤ skip - 320) (hhi : N ≤ hi) (hhi1 : N + (1278 - skip) ≤ hi) :
    ∃ out1, sola A skip hs out mem N = some (out1, wrap32 (1280 * (iterations skip N : Int))) ∧
      solaIterations A skip hs out mem N = some (iterations skip N) ∧
      out1.log = out.log ++ idxRange 0 (1280 * iterations skip N) ∧
      (∀ k, (k < 0 ∨ 1280 * (iterations skip N : Int) ≤ k) → out1.val k = out.val k) := by
  apply sola_spec A skip hs mem lo hi hmem out N
  by_cases hg : N > skip + (SEEK_WINDOW : Int)
  · right
    obtain ⟨h1, _⟩ := iterations_ceil skip N hs hg
    simp only [SEEK_WINDOW, Nat.cast_ofNat] at h1
    have e : (iterations skip N : Int) * skip = ((iterations skip N : Int) - 1) * skip + skip := by
      ring
    rw [e]
    refine ⟨hlo0, hlo, by omega, by omega⟩
  · exact Or.inl (iterations_of_not_guard skip N hg)

theorem readable_totalMem (f : Int → Int) (lo hi : Int) : Readable (totalMem f) lo hi :=
  fun _ _ _ => rfl

theorem readable_arrayOf (n : Int) (f : Int → Int) : Readable (arrayOf n f) 0 n := by
  intro i h0 h1
  simp [arrayOf, h0, h1]

/-- Bounds on the iteration count for the shipped skip, in linear form. -/
theorem iterations_shipped (N : Int) :
    (N ≤ 1353 → iterations SEQUENCE_SKIP N = 0) ∧
      (1353 < N → ((iterations SEQUENCE_SKIP N : Int) - 1) * 1113 < N - 1353 ∧
        N - 1353 ≤ (iterations SEQUENCE_SKIP N : Int) * 1113) := by
  constructor
  · intro h
    apply iterations_of_not_guard
    rw [SEQUENCE_SKIP_eq]
    simp only [SEEK_WINDOW, Nat.cast_ofNat]
    omega
  · intro h
    have hg : N > SEQUENCE_SKIP + (SEEK_WINDOW : Int) := by
      rw [SEQUENCE_SKIP_eq]
      simp only [SEEK_WINDOW, Nat.cast_ofNat]
      omega
    have := iterations_ceil SEQUENCE_SKIP N SEQUENCE_SKIP_pos hg
    generalize (iterations SEQUENCE_SKIP N : Int) = K at this ⊢
    rw [SEQUENCE_SKIP_eq] at this
    simp only [SEEK_WINDOW, Nat.cast_ofNat] at this
    omega

/-- The run of `sola` with the shipped constants on a buffer readable up to index
`N + 164`. -/
theorem sola_shipped {F : Type} (A : ScoreArith F) (mem : SamplePtr) (out : OutBuf) (N : Int)
    (hmem : Readable mem 0 (N + 165)) :
    ∃ out1, sola A SEQUENCE_SKIP SEQUENCE_SKIP_pos out mem N =
        some (out1, wrap32 (1280 * (iterations SEQUENCE_SKIP N : Int))) ∧
      solaIterations A SEQUENCE_SKIP SEQUENCE_SKIP_pos out mem N =
        some (iterations SEQUENCE_SKIP N) ∧
      out1.log = out.log ++ idxRange 0 (1280 * iterations SEQUENCE_SKIP N) ∧
      (∀ k, (k < 0 ∨ 1280 * (iterations SEQUENCE_SKIP N : Int) ≤ k) → out1.val k = out.val k) :=
  sola_spec_of_extent A SEQUENCE_SKIP SEQUENCE_SKIP_pos mem 0 (N + 165) hmem out N (le_refl _)
    (by rw [SEQUENCE_SKIP_eq]; norm_num) (by omega) (by rw [SEQUENCE_SKIP_eq]; omega)

/-- For `N <= 1867304826` the output length `1280 * K` fits the `int32_t` accumulator. -/
theorem length_fits (N : Int) (hN : N ≤ 1867304826) :
    wrap32 (1280 * (iterations SEQUENCE_SKIP N : Int)) = 1280 * (iterations SEQUENCE_SKIP N : Int) := by
  apply wrap32_eq
  unfold inRange32
  obtain ⟨h0, h1⟩ := iterations_shipped N
  by_cases h : N ≤ 1353
  · rw [h0 h]
    simp
  · have := h1 (by omega)
    omega

/-- C1 (amended): for every input length `N <= 1867304826` and every input buffer readable
up to index `N + 164`, whatever the sample values and whatever the score arithmetic (hence
whatever offsets `seek_best_overlap` chooses), `sola` with the shipped constants executes
`K` loop iterations and returns exactly `1280 * K`, where `K = 0` when `N <= 1353` and
`K = ceil((N - 1353) / 1113)` when `N > 1353`. -/
theorem C1_sola_length {F : Type} (A : ScoreArith F) (mem : SamplePtr) (out : OutBuf) (N : Int)
    (hN : N ≤ 1867304826) (hmem : Readable mem 0 (N + 165)) :
    (∃ out1, sola A SEQUENCE_SKIP SEQUENCE_SKIP_pos out mem N =
        some (out1, 1280 * (iterations SEQUENCE_SKIP N : Int))) ∧
      solaIterations A SEQUENCE_SKIP SEQUENCE_SKIP_pos out mem N =
        some (iterations SEQUENCE_SKIP N) ∧
      (N ≤ 1353 → iterations SEQUENCE_SKIP N = 0) ∧
      (1353 < N → ((iterations SEQUENCE_SKIP N : Int) - 1) * 1113 < N - 1353 ∧
        N - 1353 ≤ (iterations SEQUENCE_SKIP N : Int) * 1113) := by
  obtain ⟨out1, h1, h2, _, _⟩ := sola_shipped A mem out N hmem
  rw [length_fits N hN] at h1
  exact ⟨⟨out1, h1⟩, h2, iterations_shipped N⟩

/-- Witness for C1: 28960 silent samples in a buffer of 32750 samples. -/
theorem C1_sola_length_witness :
    (∃ out1, sola exactArith SEQUENCE_SKIP SEQUENCE_SKIP_pos (filledBuf 0)
        (arrayOf 32750 silence) 28960 =
        some (out1, 1280 * (iterations SEQUENCE_SKIP 28960 : Int))) ∧
      solaIterations exactArith SEQUENCE_SKIP SEQUENCE_SKIP_pos (filledBuf 0)
        (arrayOf 32750 silence) 28960 = some (iterations SEQUENCE_SKIP 28960) ∧
      ((28960 : Int) ≤ 1353 → iterations SEQUENCE_SKIP 28960 = 0) ∧
      ((1353 : Int) < 28960 → ((iterations SEQUENCE_SKIP 28960 : Int) - 1) * 1113 < 28960 - 1353 ∧
        (28960 : Int) - 1353 ≤ (iterations SEQUENCE_SKIP 28960 : Int) * 1113) :=
  C1_sola_length exactArith (arrayOf 32750 silence) (filledBuf 0) 28960 (by decide)
    (fun i h0 h1 => readable_arrayOf 32750 silence i h0 (by omega))

/-- C1 (counterexample to the claim as stated): for `N = 1867304827` the loop runs
`K = 1677722` times, `1280 * K = 2147484160` exceeds the `int32_t` range, and the value
returned is `-2147483136`. -/
theorem C1_counterexample :
    solaIterations exactArith SEQUENCE_SKIP SEQUENCE_SKIP_pos (filledBuf 0) (totalMem silence)
        1867304827 = some 1677722 ∧
      (sola exactArith SEQUENCE_SKIP SEQUENCE_SKIP_pos (filledBuf 0) (totalMem silence)
        1867304827).map Prod.snd = some (-2147483136) ∧
      (-2147483136 : Int) ≠ 1280 * 1677722 := by
  have hK : iterations SEQUENCE_SKIP 1867304827 = 1677722 := by decide
  obtain ⟨out1, h1, h2, _, _⟩ := sola_shipped exactArith (totalMem silence) (filledBuf 0)
    1867304827 (readable_totalMem silence 0 _)
  refine ⟨?_, ?_, by decide⟩
  · rw [h2, hK]
  · rw [h1, hK]
    simp only [Option.map_some']
    decide

/-! ## C2: the stores of `sola` -/

/-- The indices `0 .. 1280 * K - 1` in order are, block by block, the 960 indices of a flat
copy followed by the 320 indices of a blend. -/
theorem idxRange_blocks (K : Nat) :
    idxRange 0 (1280 * K) =
      (List.range K).flatMap fun k =>
        idxRange (1280 * (k : Int)) 960 ++ idxRange (1280 * (k : Int) + 960) 320 := by
  induction K with
  | zero => simp [idxRange]
  | succ K ih =>
    have e : 1280 * (K + 1) = 1280 * K + (960 + 320) := by ring
    rw [e, idxRange_add, idxRange_add, ih, List.range_succ, List.flatMap_append]
    simp

theorem idxRange_nodup (o : Int) (n : Nat) : (idxRange o n).Nodup := by
  unfold idxRange
  apply List.Nodup.map _ (List.nodup_range n)
  intro a b h
  simp only at h
  omega

/-- When the loop runs at least once, the first 960 output samples are the first 960 input
samples. -/
theorem sola_first_flat {F : Type} (A : ScoreArith F) (skip : Int) (hs : 0 < skip)
    (mem : SamplePtr) (lo hi : Int) (hmem : Readable mem lo hi) (out : OutBuf) (N : Int)
    (hg : N > skip + (SEEK_WINDOW : Int))
    (hr : lo ≤ 0 ∧ lo ≤ skip - 320 ∧
      ((iterations skip N : Int) - 1) * skip + 1519 ≤ hi ∧
      (iterations skip N : Int) * skip + 239 ≤ hi) :
    ∃ out1 L, sola A skip hs out mem N = some (out1, L) ∧
      ∀ t : Nat, t < 960 → mem (t : Int) = some (out1.val (t : Int)) := by
  obtain ⟨r1, r2, r3, r4⟩ := hr
  have hstep := iterations_step skip N hs hg
  have hK0 : 0 ≤ (iterations skip (N - skip) : Int) * skip :=
    mul_nonneg (by omega) (le_of_lt hs)
  have e3 : ((iterations skip N : Int) - 1) * skip = (iterations skip (N - skip) : Int) * skip := by
    rw [hstep]
    push_cast
    ring
  have e4 : (iterations skip N : Int) * skip = (iterations skip (N - skip) : Int) * skip + skip := by
    rw [hstep]
    push_cast
    ring
  rw [e3] at r3
  rw [e4] at r4
  obtain ⟨st1, off, hb, hoff, _, b1, b2, b3, b4, _, _, _, _, b8, _⟩ :=
    solaBody_spec A skip mem lo hi hmem (solaInit out N)
      (by simp [solaInit]; omega) (by simp [solaInit]; omega)
      (by simp [solaInit]; omega) (by simp [solaInit]; omega)
  simp only [SEEK_WINDOW] at hoff
  simp only [solaInit] at b1 b2 b3 b4 b8
  obtain ⟨st2, hl, _, _, _, c4, _⟩ := solaLoop_spec A skip hs mem lo hi hmem
    (iterations skip (N - skip))
    { st1 with num_in_samples := N - skip, iters := 0 + 1 } rfl
    (by show inRange32 st1.num_out_samples; rw [b4]; exact wrap32_inRange _)
    (by
      right
      have e7 : ((iterations skip (N - skip) : Int) - 1) * skip =
          (iterations skip (N - skip) : Int) * skip - skip := by ring
      show lo ≤ st1.input ∧ lo ≤ st1.input + skip - 320 ∧ st1.input ≤ st1.seq_offset ∧
        st1.seq_offset ≤ st1.input + 239 ∧ st1.input + _ + 1519 ≤ hi ∧ st1.input + _ + 239 ≤ hi
      rw [b2, b3, e7]
      refine ⟨by omega, by omega, by omega, by omega, by omega, by omega⟩)
  refine ⟨st2.out, st2.num_out_samples, ?_, ?_⟩
  · unfold sola solaRun
    rw [solaLoop_step A skip hs mem (solaInit out N) st1 (by simpa [solaInit] using hg) hb]
    simp only [solaInit]
    rw [hl]
    rfl
  · intro t ht
    have := b8 t ht
    simp only [zero_add] at this
    rw [c4 (t : Int) (by left; show (t : Int) < st1.output; rw [b1]; omega)]
    exact this

/-- C2 (amended): for every input length `N <= 1867304826`, every input buffer readable up
to index `N + 164` and every output buffer, `sola` returns `L = 1280 * K`; every output index
`>= L` (and every index below 0) still holds its original value; the stores performed are,
in program order, exactly the indices `0, 1, ..., L - 1`, i.e. iteration `k` stores to the 960
indices from `1280 * k` (flat copy) and then to the 320 indices from `1280 * k + 960`
(blend); no index is stored to twice and the stored indices are exactly `[0, L)`.  Every
executed iteration stores to the 1280 indices from its output cursor, 960 flat-copied
samples followed by 320 blended samples, and advances the cursor by 1280. -/
theorem C2_sola_writes {F : Type} (A : ScoreArith F) (mem : SamplePtr) (out : OutBuf) (N : Int)
    (hN : N ≤ 1867304826) (hmem : Readable mem 0 (N + 165)) :
    ∃ out1 L, sola A SEQUENCE_SKIP SEQUENCE_SKIP_pos out mem N = some (out1, L) ∧
      L = 1280 * (iterations SEQUENCE_SKIP N : Int) ∧
      (∀ k, L ≤ k → out1.val k = out.val k) ∧
      (∀ k, k < 0 → out1.val k = out.val k) ∧
      out1.log = out.log ++ idxRange 0 (1280 * iterations SEQUENCE_SKIP N) ∧
      idxRange 0 (1280 * iterations SEQUENCE_SKIP N) =
        ((List.range (iterations SEQUENCE_SKIP N)).flatMap fun k =>
          idxRange (1280 * (k : Int)) 960 ++ idxRange (1280 * (k : Int) + 960) 320) ∧
      (idxRange 0 (1280 * iterations SEQUENCE_SKIP N)).Nodup ∧
      (∀ k, k ∈ idxRange 0 (1280 * iterations SEQUENCE_SKIP N) ↔ 0 ≤ k ∧ k < L) ∧
      (∀ st st1, solaBody A SEQUENCE_SKIP mem st = some st1 →
        st1.output = st.output + 1280 ∧
          st1.out.log =
            st.out.log ++ (idxRange st.output 960 ++ idxRange (st.output + 960) 320)) := by
  obtain ⟨out1, h1, _, hlog, hframe⟩ := sola_shipped A mem out N hmem
  rw [length_fits N hN] at h1
  refine ⟨out1, _, h1, rfl, fun k hk => hframe k (Or.inr hk), fun k hk => hframe k (Or.inl hk),
    hlog, idxRange_blocks _, idxRange_nodup _ _, ?_,
    fun st st1 h => solaBody_log A SEQUENCE_SKIP mem st st1 h⟩
  intro k
  rw [mem_idxRange]
  push_cast
  omega

/-- Witness for C2: 28960 silent samples in a buffer of 32750 samples, output filled
with `-1`. -/
theorem C2_sola_writes_witness :
    ∃ out1 L, sola exactArith SEQUENCE_SKIP SEQUENCE_SKIP_pos (filledBuf (-1))
        (arrayOf 32750 silence) 28960 = some (out1, L) ∧
      L = 1280 * (iterations SEQUENCE_SKIP 28960 : Int) ∧
      (∀ k, L ≤ k → out1.val k = (filledBuf (-1)).val k) ∧
      (∀ k, k < 0 → out1.val k = (filledBuf (-1)).val k) ∧
      out1.log = (filledBuf (-1)).log ++ idxRange 0 (1280 * iterations SEQUENCE_SKIP 28960) ∧
      idxRange 0 (1280 * iterations SEQUENCE_SKIP 28960) =
        ((List.range (iterations SEQUENCE_SKIP 28960)).flatMap fun k =>
          idxRange (1280 * (k : Int)) 960 ++ idxRange (1280 * (k : Int) + 960) 320) ∧
      (idxRange 0 (1280 * iterations SEQUENCE_SKIP 28960)).Nodup ∧
      (∀ k, k ∈ idxRange 0 (1280 * iterations SEQUENCE_SKIP 28960) ↔ 0 ≤ k ∧ k < L) ∧
      (∀ st st1, solaBody exactArith SEQUENCE_SKIP (arrayOf 32750 silence) st = some st1 →
        st1.output = st.output + 1280 ∧
          st1.out.log =
            st.out.log ++ (idxRange st.output 960 ++ idxRange (st.output + 960) 320)) :=
  C2_sola_writes exactArith (arrayOf 32750 silence) (filledBuf (-1)) 28960 (by decide)
    (fun i h0 h1 => readable_arrayOf 32750 silence i h0 (by omega))

/-- C2 (counterexample to the claim as stated): for `N = 1867304827` silent samples and an
output buffer filled with `-1`, `sola` returns `L = -2147483136`; index `0 >= L` does not
hold its original value `-1` any more, it holds the input sample `0`. -/
theorem C2_counterexample :
    ∃ out1, sola exactArith SEQUENCE_SKIP SEQUENCE_SKIP_pos (filledBuf (-1)) (totalMem silence)
        1867304827 = some (out1, -2147483136) ∧
      (-2147483136 : Int) ≤ 0 ∧ out1.val 0 = 0 ∧ (filledBuf (-1)).val 0 = -1 := by
  have hK : iterations SEQUENCE_SKIP 1867304827 = 1677722 := by decide
  obtain ⟨out1, h1, _, _, _⟩ := sola_shipped exactArith (totalMem silence) (filledBuf (-1))
    1867304827 (readable_totalMem silence 0 _)
  obtain ⟨out2, L2, h2, hflat⟩ := sola_first_flat exactArith SEQUENCE_SKIP SEQUENCE_SKIP_pos
    (totalMem silence) 0 (1867304827 + 165) (readable_totalMem silence 0 _) (filledBuf (-1))
    1867304827 (by decide) (by rw [hK]; decide)
  rw [h1] at h2
  simp only [Option.some.injEq, Prod.mk.injEq] at h2
  obtain ⟨ho, _⟩ := h2
  subst ho
  have hw : wrap32 (1280 * ((1677722 : Nat) : Int)) = -2147483136 := by decide
  refine ⟨out1, ?_, by decide, ?_, rfl⟩
  · rw [h1, hK, hw]
  · have := hflat 0 (by decide)
    simp only [totalMem, silence, Nat.cast_zero, Option.some.injEq] at this
    exact this.symm

/-- C3: for every input whose length `N` is below `SEQUENCE_SKIP + SEEK_WINDOW = 1353`
(including `N = 0` and negative `N`), and whatever memory the input pointer designates,
`sola` returns 0 without signalling an error, executes no loop iteration and leaves the
output buffer exactly as it was (no store is performed). -/
theorem C3_degenerate_input {F : Type} (A : ScoreArith F) (mem : SamplePtr) (out : OutBuf)
    (N : Int) (hN : N < SEQUENCE_SKIP + (SEEK_WINDOW : Int)) :
    sola A SEQUENCE_SKIP SEQUENCE_SKIP_pos out mem N = some (out, 0) ∧
      solaIterations A SEQUENCE_SKIP SEQUENCE_SKIP_pos out mem N = some 0 ∧
      SEQUENCE_SKIP + (SEEK_WINDOW : Int) = 1353 := by
  have hl : solaLoop A SEQUENCE_SKIP SEQUENCE_SKIP_pos mem (solaInit out N) =
      some (solaInit out N) :=
    solaLoop_exit A SEQUENCE_SKIP SEQUENCE_SKIP_pos mem (solaInit out N)
      (by simp only [solaInit]; omega)
  refine ⟨?_, ?_, by decide⟩
  · unfold sola solaRun
    rw [hl]
    rfl
  · unfold solaIterations solaRun
    rw [hl]
    rfl

/-- Witness for C3: an empty input (`N = 0`, no readable sample at all). -/
theorem C3_degenerate_input_witness :
    sola exactArith SEQUENCE_SKIP SEQUENCE_SKIP_pos (filledBuf (-1)) (arrayOf 0 silence) 0 =
        some (filledBuf (-1), 0) ∧
      solaIterations exactArith SEQUENCE_SKIP SEQUENCE_SKIP_pos (filledBuf (-1))
        (arrayOf 0 silence) 0 = some 0 ∧
      SEQUENCE_SKIP + (SEEK_WINDOW : Int) = 1353 :=
  C3_degenerate_input exactArith (arrayOf 0 silence) (filledBuf (-1)) 0 (by decide)

/-! ## C4: reads of the previous tail beyond the input -/

theorem forLoop_none {σ : Type} (body : Nat → σ → Option σ) (s : σ) (i : Nat)
    (h : ∀ s1, body i s1 = none) : ∀ n : Nat, i < n → forLoop n body s = none := by
  intro n
  induction n with
  | zero => exact fun hi => absurd hi (Nat.not_lt_zero i)
  | succ n ih =>
    intro hi
    rw [forLoop_succ]
    by_cases hin : i = n
    · subst hin
      cases forLoop i body s with
      | none => rfl
      | some s1 => exact h s1
    · rw [ih (by omega)]
      rfl

/-- When a sample of the previous tail cannot be read, `seek_best_overlap` fails. -/
theorem seek_none {F : Type} (A : ScoreArith F) (input_prev input_new : SamplePtr) (i : Nat)
    (hi : i < OVERLAP) (h : input_prev (i : Int) = none) :
    seek_best_overlap A input_prev input_new = none := by
  unfold seek_best_overlap precalc
  rw [forLoop_none _ _ i (fun s1 => by simp [h]) OVERLAP hi]
  rfl

/-- When a sample of the previous tail cannot be read, the loop body fails. -/
theorem solaBody_none {F : Type} (A : ScoreArith F) (skip : Int) (mem : SamplePtr)
    (st : SolaState) (i : Nat) (hi : i < OVERLAP)
    (h : mem (st.seq_offset + (FLAT_DURATION : Int) + (i : Int)) = none) :
    solaBody A skip mem st = none := by
  unfold solaBody
  cases memcpy st.out st.output (ptrAdd mem st.seq_offset) FLAT_DURATION with
  | none => rfl
  | some out1 =>
    simp only [Option.some_bind]
    rw [seek_none A _ _ i hi (by simpa [ptrAdd] using h)]
    rfl

/-- The exact scores of the first iteration on the `spike` input: only offset 167 scores. -/
theorem spike_score (i : Nat) (hi : i < SEEK_WINDOW) :
    exactScore (ptrAdd (arrayOf 2467 spike) 960) (ptrAdd (arrayOf 2467 spike) 793) i =
      if i = 167 then 25600 else 0 := by
  unfold exactScore
  simp only [SEEK_WINDOW] at hi
  rw [Finset.sum_eq_single 160]
  · have h1 : (0 : Int) ≤ 793 + ((i : Int) + ((160 : Nat) : Int)) ∧
        793 + ((i : Int) + ((160 : Nat) : Int)) < 2467 := by omega
    simp only [ptrAdd, arrayOf, h1, spike]
    by_cases h : i = 167
    · subst h
      simp [OVERLAP]
    · have : ¬ (793 + ((i : Int) + 160) = 1120) := by omega
      simp [this, h]
  · intro j hj hne
    have hj1 : j < 320 := by simpa [OVERLAP] using hj
    have h2 : (0 : Int) ≤ 960 + (j : Int) ∧ 960 + (j : Int) < 2467 := by omega
    have h3 : ¬ (960 + (j : Int) = 1120) := by omega
    simp [ptrAdd, arrayOf, h2, spike, h3]
  · intro h
    simp [OVERLAP] at h

theorem samples16_spike (n k : Int) : Samples16 (ptrAdd (arrayOf n spike) k) := by
  intro i v h
  simp only [ptrAdd, arrayOf] at h
  split at h
  · simp only [Option.some.injEq] at h
    subst h
    unfold spike inRange16
    split <;> omega
  · cases h

/-- In the first iteration on the `spike` input the search selects offset 167. -/
theorem spike_seek :
    seek_best_overlap exactArith (ptrAdd (arrayOf 2467 spike) 960)
      (ptrAdd (arrayOf 2467 spike) 793) = some 167 := by
  obtain ⟨k, hk, hlt, hmax, _⟩ := seek_exact_spec (ptrAdd (arrayOf 2467 spike) 960)
    (ptrAdd (arrayOf 2467 spike) 793)
    (readable_ptrAdd _ 0 2467 _ _ (readable_arrayOf 2467 spike) (by omega)
      (by simp only [OVERLAP]; omega))
    (readable_ptrAdd _ 0 2467 _ _ (readable_arrayOf 2467 spike) (by omega)
      (by simp only [SEEK_WINDOW, OVERLAP]; omega))
    (samples16_spike _ _) (samples16_spike _ _)
  have h := hmax 167 (by decide)
  rw [spike_score 167 (by decide), spike_score k hlt] at h
  by_cases hk1 : k = 167
  · rw [hk, hk1]
  · rw [if_neg hk1] at h
    simp at h

/-- C4 (failing input): on an input array of exactly `N = 2467` samples that are zero except
`input[1120] = 1`, with exact scores, the first iteration selects offset 167, so the second
iteration starts at selected cursor 1280 with `1354 > 1353` samples remaining; its previous
tail is `input[2240 .. 2559]`, and the read of `input[2467]` is outside `[0, N)`: the run hits
the out-of-range branch. -/
theorem C4_read_beyond_input :
    seek_best_overlap exactArith (ptrAdd (arrayOf 2467 spike) 960)
        (ptrAdd (arrayOf 2467 spike) 793) = some 167 ∧
      arrayOf 2467 spike 2467 = none ∧
      sola exactArith SEQUENCE_SKIP SEQUENCE_SKIP_pos (filledBuf 0) (arrayOf 2467 spike) 2467 =
        none := by
  refine ⟨spike_seek, by decide, ?_⟩
  obtain ⟨st1, off, hb, _, hseek, _, _, b3, _, _, _, _, _, _, _⟩ :=
    solaBody_spec exactArith SEQUENCE_SKIP (arrayOf 2467 spike) 0 2467
      (readable_arrayOf 2467 spike) (solaInit (filledBuf 0) 2467)
      (by simp [solaInit]) (by simp [solaInit, SEQUENCE_SKIP_eq])
      (by simp [solaInit]) (by simp [solaInit, SEQUENCE_SKIP_eq])
  have e1 : (solaInit (filledBuf 0) 2467).seq_offset + 960 = 960 := by simp [solaInit]
  have e2 : (solaInit (filledBuf 0) 2467).input + (SEQUENCE_SKIP - 320) = 793 := by
    simp [solaInit, SEQUENCE_SKIP_eq]
  rw [e1, e2, spike_seek] at hseek
  simp only [Option.some.injEq] at hseek
  subst hseek
  have hseq : st1.seq_offset = 1280 := by
    rw [b3]
    simp [solaInit, SEQUENCE_SKIP_eq]
  unfold sola solaRun
  rw [solaLoop_step exactArith SEQUENCE_SKIP SEQUENCE_SKIP_pos _ _ st1
    (by simp [solaInit, SEQUENCE_SKIP_eq, SEEK_WINDOW]) hb]
  rw [solaLoop_fail exactArith SEQUENCE_SKIP SEQUENCE_SKIP_pos _ _
    (by simp [solaInit, SEQUENCE_SKIP_eq, SEEK_WINDOW])
    (solaBody_none exactArith SEQUENCE_SKIP _ _ 227 (by decide)
      (by
        show arrayOf 2467 spike (st1.seq_offset + _ + _) = none
        rw [hseq]
        decide))]
  rfl

/-- On the `spike` input the terms of every exact score of the first iteration add up to at
most 25600 in magnitude, so that binary32 computes these scores exactly. -/
theorem spike_absScore (i : Nat) (hi : i < SEEK_WINDOW) :
    absScore (ptrAdd (arrayOf 2467 spike) 960) (ptrAdd (arrayOf 2467 spike) 793) i <
      16777216 := by
  unfold absScore
  simp only [SEEK_WINDOW] at hi
  rw [Finset.sum_eq_single 160]
  · have h1 : (0 : Int) ≤ 793 + ((i : Int) + ((160 : Nat) : Int)) ∧
        793 + ((i : Int) + ((160 : Nat) : Int)) < 2467 := by omega
    simp only [ptrAdd, arrayOf, h1, spike]
    by_cases h : i = 167
    · subst h
      simp [OVERLAP]
    · have : ¬ (793 + ((i : Int) + 160) = 1120) := by omega
      simp [this]
  · intro j hj hne
    have hj1 : j < 320 := by simpa [OVERLAP] using hj
    have h2 : (0 : Int) ≤ 960 + (j : Int) ∧ 960 + (j : Int) < 2467 := by omega
    have h3 : ¬ (960 + (j : Int) = 1120) := by omega
    simp [ptrAdd, arrayOf, h2, spike, h3]
  · intro h
    simp [OVERLAP] at h

/-- In binary32, too, the search of the first iteration on the `spike` input selects
offset 167. -/
theorem spike_seek_float32 :
    seek_best_overlap float32Arith (ptrAdd (arrayOf 2467 spike) 960)
      (ptrAdd (arrayOf 2467 spike) 793) = some 167 := by
  have hn : Readable (ptrAdd (arrayOf 2467 spike) 793) 0
      ((SEEK_WINDOW : Int) + (OVERLAP : Int) - 1) :=
    readable_ptrAdd _ 0 2467 _ _ (readable_arrayOf 2467 spike) (by omega)
      (by simp only [SEEK_WINDOW, OVERLAP]; omega)
  obtain ⟨temp, C, k, _, hslope, hC, _, hk, hlt, hmax, _⟩ :=
    seek_float32_spec (ptrAdd (arrayOf 2467 spike) 960) (ptrAdd (arrayOf 2467 spike) 793)
      (readable_ptrAdd _ 0 2467 _ _ (readable_arrayOf 2467 spike) (by omega)
        (by simp only [OVERLAP]; omega))
      hn (samples16_spike _ _) (samples16_spike _ _)
  have hCe : ∀ i, i < SEEK_WINDOW →
      C i = if i = 167 then 25600 else 0 := by
    intro i hi
    have h1 := crosscorr_float32_exact temp _ _ i (samples16_spike _ _) (samples16_spike _ _)
      hslope
      (fun j hj => hn _ (by omega) (by simp only [SEEK_WINDOW, OVERLAP] at *; omega))
      (spike_absScore i hi)
    rw [hC i hi, spike_score i hi] at h1
    exact Option.some.inj h1
  have h := hmax 167 (by decide)
  rw [hCe 167 (by decide), hCe k hlt] at h
  by_cases hk1 : k = 167
  · rw [hk, hk1]
  · rw [if_neg hk1] at h
    simp at h

/-- Whatever the score arithmetic, a run on the `spike` input of 2467 samples whose first
iteration selects offset 167 reads `input[2467]` in its second iteration. -/
theorem spike_sola_none {F : Type} (A : ScoreArith F)
    (h167 : seek_best_overlap A (ptrAdd (arrayOf 2467 spike) 960)
      (ptrAdd (arrayOf 2467 spike) 793) = some 167) :
    sola A SEQUENCE_SKIP SEQUENCE_SKIP_pos (filledBuf 0) (arrayOf 2467 spike) 2467 = none := by
  obtain ⟨st1, off, hb, _, hseek, _, _, b3, _, _, _, _, _, _, _⟩ :=
    solaBody_spec A SEQUENCE_SKIP (arrayOf 2467 spike) 0 2467
      (readable_arrayOf 2467 spike) (solaInit (filledBuf 0) 2467)
      (by simp [solaInit]) (by simp [solaInit, SEQUENCE_SKIP_eq])
      (by simp [solaInit]) (by simp [solaInit, SEQUENCE_SKIP_eq])
  have e1 : (solaInit (filledBuf 0) 2467).seq_offset + 960 = 960 := by simp [solaInit]
  have e2 : (solaInit (filledBuf 0) 2467).input + (SEQUENCE_SKIP - 320) = 793 := by
    simp [solaInit, SEQUENCE_SKIP_eq]
  rw [e1, e2, h167] at hseek
  simp only [Option.some.injEq] at hseek
  subst hseek
  have hseq : st1.seq_offset = 1280 := by
    rw [b3]
    simp [solaInit, SEQUENCE_SKIP_eq]
  unfold sola solaRun
  rw [solaLoop_step A SEQUENCE_SKIP SEQUENCE_SKIP_pos _ _ st1
    (by simp [solaInit, SEQUENCE_SKIP_eq, SEEK_WINDOW]) hb]
  rw [solaLoop_fail A SEQUENCE_SKIP SEQUENCE_SKIP_pos _ _
    (by simp [solaInit, SEQUENCE_SKIP_eq, SEEK_WINDOW])
    (solaBody_none A SEQUENCE_SKIP _ _ 227 (by decide)
      (by
        show arrayOf 2467 spike (st1.seq_offset + _ + _) = none
        rw [hseq]
        decide))]
  rfl

/-- The out-of-range read on the `spike` input does not depend on the idealisation of exact
scores: the run in binary32 hits it as well. -/
theorem spike_read_beyond_float32 :
    sola float32Arith SEQUENCE_SKIP SEQUENCE_SKIP_pos (filledBuf 0) (arrayOf 2467 spike) 2467 =
      none :=
  spike_sola_none float32Arith spike_seek_float32

/-! ## C5, C6: the offset search -/

theorem samples16_const (n : Int) (v : Int) (hv : inRange16 v) :
    Samples16 (arrayOf n (constSamples v)) := by
  intro i w h
  simp only [arrayOf, constSamples] at h
  split at h
  · simp only [Option.some.injEq] at h
    subst h
    exact hv
  · cases h

/-- C5: for every previous tail of 320 readable samples and every candidate region of at
least `240 + 320 - 1` readable samples, `seek_best_overlap` returns an offset `k` with
`0 <= k < 240 = SEEK_WINDOW`, whatever the sample values and whatever the score arithmetic
(conversion, sum, product and comparison of `float`s) does. -/
theorem C5_seek_offset_in_window {F : Type} (A : ScoreArith F)
    (input_prev input_new : SamplePtr)
    (hp : Readable input_prev 0 320) (hn : Readable input_new 0 (240 + 320 - 1)) :
    ∃ k, seek_best_overlap A input_prev input_new = some k ∧ k < SEEK_WINDOW ∧
      SEEK_WINDOW = 240 := by
  obtain ⟨k, h1, h2⟩ := seek_spec A input_prev input_new
    (by simpa [OVERLAP] using hp) (by simpa [SEEK_WINDOW, OVERLAP] using hn)
  exact ⟨k, h1, h2, rfl⟩

/-- Witness for C5: a silent tail of 320 samples and a silent region of 559 samples. -/
theorem C5_seek_offset_in_window_witness :
    ∃ k, seek_best_overlap exactArith (arrayOf 320 silence) (arrayOf 559 silence) = some k ∧
      k < SEEK_WINDOW ∧ SEEK_WINDOW = 240 :=
  C5_seek_offset_in_window exactArith (arrayOf 320 silence) (arrayOf 559 silence)
    (readable_arrayOf 320 silence) (readable_arrayOf 559 silence)

theorem samples16_twoTapTail (n p1 p160 : Int) (h1 : inRange16 p1) (h160 : inRange16 p160) :
    Samples16 (arrayOf n (twoTapTail p1 p160)) := by
  intro i v h
  simp only [arrayOf] at h
  split at h
  · simp only [Option.some.injEq] at h
    subst h
    unfold twoTapTail
    split_ifs
    · exact h1
    · exact h160
    · decide
  · cases h

theorem samples16_fourTapRegion (n a1 a2 b160 b161 : Int) (h1 : inRange16 a1)
    (h2 : inRange16 a2) (h160 : inRange16 b160) (h161 : inRange16 b161) :
    Samples16 (arrayOf n (fourTapRegion a1 a2 b160 b161)) := by
  intro i v h
  simp only [arrayOf] at h
  split at h
  · simp only [Option.some.injEq] at h
    subst h
    unfold fourTapRegion
    split_ifs
    · exact h1
    · exact h2
    · exact h160
    · exact h161
    · decide
  · cases h

/-- The samples of a region `fourTapRegion` opposite the indices 1 and 160 of the tail, over
all offsets: the pair is that of offset 0, 1, 159 or 160, or both samples are zero. -/
theorem fourTap_forall (a1 a2 b160 b161 : Int) (Q : Int → Int → Prop)
    (h0 : Q (fourTapRegion a1 a2 b160 b161 1) (fourTapRegion a1 a2 b160 b161 160))
    (h1 : Q (fourTapRegion a1 a2 b160 b161 2) (fourTapRegion a1 a2 b160 b161 161))
    (h159 : Q (fourTapRegion a1 a2 b160 b161 160) (fourTapRegion a1 a2 b160 b161 319))
    (h160 : Q (fourTapRegion a1 a2 b160 b161 161) (fourTapRegion a1 a2 b160 b161 320))
    (hz : Q 0 0) (i : Nat) :
    Q (fourTapRegion a1 a2 b160 b161 ((i : Int) + 1))
      (fourTapRegion a1 a2 b160 b161 ((i : Int) + 160)) := by
  by_cases e0 : i = 0
  · subst e0
    exact h0
  by_cases e1 : i = 1
  · subst e1
    exact h1
  by_cases e159 : i = 159
  · subst e159
    exact h159
  by_cases e160 : i = 160
  · subst e160
    exact h160
  have z1 : fourTapRegion a1 a2 b160 b161 ((i : Int) + 1) = 0 := by
    unfold fourTapRegion
    rw [if_neg (by omega), if_neg (by omega), if_neg (by omega), if_neg (by omega)]
  have z2 : fourTapRegion a1 a2 b160 b161 ((i : Int) + 160) = 0 := by
    unfold fourTapRegion
    rw [if_neg (by omega), if_neg (by omega), if_neg (by omega), if_neg (by omega)]
  rw [z1, z2]
  exact hz

/-- The `temp` array of a tail `twoTapTail p1 p160` in binary32. -/
theorem twoTap_temp (p1 p160 : Int) (temp : Nat → Int)
    (ht : ∀ j, j < OVERLAP → ∃ v, arrayOf 320 (twoTapTail p1 p160) (j : Int) = some v ∧
      temp j = slope float32Arith v j) :
    temp 1 = slope float32Arith p1 1 ∧ temp 160 = slope float32Arith p160 160 ∧
      ∀ j, j < OVERLAP → j ≠ 1 → j ≠ 160 → temp j = 0 := by
  refine ⟨?_, ?_, ?_⟩
  · obtain ⟨v, hv, e⟩ := ht 1 (by decide)
    have h : arrayOf 320 (twoTapTail p1 p160) ((1 : Nat) : Int) = some p1 := by
      simp [arrayOf, twoTapTail]
    rw [h] at hv
    rw [e, ← Option.some.inj hv]
  · obtain ⟨v, hv, e⟩ := ht 160 (by decide)
    have h : arrayOf 320 (twoTapTail p1 p160) ((160 : Nat) : Int) = some p160 := by
      simp [arrayOf, twoTapTail]
    rw [h] at hv
    rw [e, ← Option.some.inj hv]
  · intro j hj h1 h160
    obtain ⟨v, hv, e⟩ := ht j hj
    have : v = 0 := by
      simp only [OVERLAP] at hj
      have hb : (0 : Int) ≤ (j : Int) ∧ (j : Int) < 320 := by omega
      have n1 : ¬ (j : Int) = 1 := by omega
      have n2 : ¬ (j : Int) = 160 := by omega
      simp only [arrayOf, hb, twoTapTail, n1, n2, and_self, if_true, if_false,
        Option.some.injEq] at hv
      exact hv.symm
    rw [e, this, slope_float32 0 (by decide) j hj]
    simp [round24_zero]

/-- The binary32 score of offset `i` of a tail `twoTapTail` against a region
`fourTapRegion`. -/
theorem twoTap_computed (p1 p160 a1 a2 b160 b161 : Int) (temp : Nat → Int)
    (ht : ∀ j, j < OVERLAP → ∃ v, arrayOf 320 (twoTapTail p1 p160) (j : Int) = some v ∧
      temp j = slope float32Arith v j) (i : Nat) (hi : i < SEEK_WINDOW) :
    crosscorr float32Arith temp (arrayOf 559 (fourTapRegion a1 a2 b160 b161)) i =
      some (twoTapScore p1 p160 (fourTapRegion a1 a2 b160 b161 ((i : Int) + 1))
        (fourTapRegion a1 a2 b160 b161 ((i : Int) + 160))) := by
  obtain ⟨t1, t160, tz⟩ := twoTap_temp p1 p160 temp ht
  simp only [SEEK_WINDOW] at hi
  have rd : ∀ k : Int, 0 ≤ k → k < 559 → arrayOf 559 (fourTapRegion a1 a2 b160 b161) k =
      some (fourTapRegion a1 a2 b160 b161 k) := by
    intro k h0 h1
    simp [arrayOf, h0, h1]
  have hr : ∀ j, j < OVERLAP →
      (arrayOf 559 (fourTapRegion a1 a2 b160 b161) ((i : Int) + (j : Int))).isSome = true := by
    intro j hj
    simp only [OVERLAP] at hj
    rw [rd _ (by omega) (by omega)]
    rfl
  rw [crosscorr_float32_two temp _ i 1 160 (by decide) (by decide) tz hr _ _
    (rd _ (by omega) (by omega)) (rd _ (by omega) (by omega)), t1, t160]
  rfl

/-- The binary32 search on a tail `twoTapTail` and a region `fourTapRegion` returns the offset
`k0` that is the first maximum of `twoTapScore`. -/
theorem twoTap_seek (p1 p160 a1 a2 b160 b161 : Int) (k0 : Nat) (hk0 : k0 < SEEK_WINDOW)
    (hlo : float32Arith.sentinel <
      twoTapScore p1 p160 (fourTapRegion a1 a2 b160 b161 (((0 : Nat) : Int) + 1))
        (fourTapRegion a1 a2 b160 b161 (((0 : Nat) : Int) + 160)))
    (hmax : ∀ i : Nat, i < SEEK_WINDOW →
      twoTapScore p1 p160 (fourTapRegion a1 a2 b160 b161 ((i : Int) + 1))
          (fourTapRegion a1 a2 b160 b161 ((i : Int) + 160)) ≤
        twoTapScore p1 p160 (fourTapRegion a1 a2 b160 b161 ((k0 : Int) + 1))
          (fourTapRegion a1 a2 b160 b161 ((k0 : Int) + 160)))
    (hfirst : ∀ i : Nat, i < k0 →
      twoTapScore p1 p160 (fourTapRegion a1 a2 b160 b161 ((i : Int) + 1))
          (fourTapRegion a1 a2 b160 b161 ((i : Int) + 160)) <
        twoTapScore p1 p160 (fourTapRegion a1 a2 b160 b161 ((k0 : Int) + 1))
          (fourTapRegion a1 a2 b160 b161 ((k0 : Int) + 160))) :
    seek_best_overlap float32Arith (arrayOf 320 (twoTapTail p1 p160))
      (arrayOf 559 (fourTapRegion a1 a2 b160 b161)) = some k0 := by
  obtain ⟨temp, ht, hslope⟩ := precalc_spec float32Arith (arrayOf 320 (twoTapTail p1 p160))
    (readable_arrayOf 320 _)
  exact seek_order_eq float32Arith float32_gt _ _ temp
    (fun i : Nat => twoTapScore p1 p160 (fourTapRegion a1 a2 b160 b161 ((i : Int) + 1))
      (fourTapRegion a1 a2 b160 b161 ((i : Int) + 160)))
    ht hlo (fun i hi => twoTap_computed p1 p160 a1 a2 b160 b161 temp hslope i hi)
    k0 hk0 hmax hfirst

/-- The exact score of offset `i` of a tail `twoTapTail` against a region `fourTapRegion`. -/
theorem twoTap_exact (p1 p160 a1 a2 b160 b161 : Int) (i : Nat) (hi : i < SEEK_WINDOW) :
    exactScore (arrayOf 320 (twoTapTail p1 p160))
        (arrayOf 559 (fourTapRegion a1 a2 b160 b161)) i =
      fourTapRegion a1 a2 b160 b161 ((i : Int) + 1) * (p1 * 319) +
        fourTapRegion a1 a2 b160 b161 ((i : Int) + 160) * (p160 * 25600) := by
  simp only [SEEK_WINDOW] at hi
  have hz : ∀ c : Nat, c ∈ Finset.range OVERLAP → c ≠ 1 ∧ c ≠ 160 →
      ((arrayOf 559 (fourTapRegion a1 a2 b160 b161) ((i : Int) + (c : Int))).getD 0 *
        ((arrayOf 320 (twoTapTail p1 p160) (c : Int)).getD 0 * (c : Int) *
          ((OVERLAP : Int) - (c : Int)))) = 0 := by
    intro c hc hne
    have hc1 : c < 320 := by simpa [OVERLAP] using hc
    have hb : (0 : Int) ≤ (c : Int) ∧ (c : Int) < 320 := by omega
    have n1 : ¬ (c : Int) = 1 := by omega
    have n2 : ¬ (c : Int) = 160 := by omega
    simp [arrayOf, hb, twoTapTail, n1, n2]
  unfold exactScore
  rw [Finset.sum_eq_add 1 160 (by decide) hz (by simp [OVERLAP]) (by simp [OVERLAP])]
  have b1 : (0 : Int) ≤ (i : Int) + ((1 : Nat) : Int) ∧
      (i : Int) + ((1 : Nat) : Int) < 559 := by omega
  have b2 : (0 : Int) ≤ (i : Int) + ((160 : Nat) : Int) ∧
      (i : Int) + ((160 : Nat) : Int) < 559 := by omega
  have e1 : twoTapTail p1 p160 ((1 : Nat) : Int) = p1 := by simp [twoTapTail]
  have e160 : twoTapTail p1 p160 ((160 : Nat) : Int) = p160 := by simp [twoTapTail]
  have c1 : (0 : Int) ≤ ((1 : Nat) : Int) ∧ ((1 : Nat) : Int) < 320 := by omega
  have c160 : (0 : Int) ≤ ((160 : Nat) : Int) ∧ ((160 : Nat) : Int) < 320 := by omega
  simp only [arrayOf, b1, b2, c1, c160, and_self, if_true, Option.getD_some, e1, e160, OVERLAP]
  push_cast
  ring

/-- C6 (amended): on a readable previous tail of 320 and a readable candidate region of
`240 + 320 - 1` 16-bit samples, with the scores taken as `seek_best_overlap` computes them in
binary32 (`C i` is the value of `crosscorr` after the inner loop for offset `i`, every
conversion, product and partial sum rounded to nearest), the function returns the smallest
offset `k` in `[0, 240)` that attains the maximum computed score: `C i <= C k` for every `i`
in `[0, 240)` and `C i < C k` for every `i < k`; of two offsets `k1 < k2` with identical
computed scores the result is never `k2`.  The computed score of an offset `i` is its exact
score `score(i) = sum over j in [0, 320) of new[i + j] * (prev[j] * j * (320 - j))` whenever
the magnitudes of the terms of that sum add up to less than `2^24`; in general it is within
`430545305600` of it, so that `score(i) <= score(k) + 861090611200` for every `i` in
`[0, 240)`. -/
theorem C6_seek_first_computed_maximum (input_prev input_new : SamplePtr)
    (hp : Readable input_prev 0 320) (hn : Readable input_new 0 (240 + 320 - 1))
    (hp16 : Samples16 input_prev) (hn16 : Samples16 input_new) :
    ∃ (C : Nat → Int) (k : Nat),
      (∀ i, i < 240 → computedScore float32Arith input_prev input_new i = some (C i)) ∧
      seek_best_overlap float32Arith input_prev input_new = some k ∧ k < 240 ∧
      (∀ i, i < 240 → C i ≤ C k) ∧ (∀ i, i < k → C i < C k) ∧
      (∀ k1 k2, k1 < k2 → k2 < 240 → C k1 = C k2 → k ≠ k2) ∧
      (∀ i, i < 240 → absScore input_prev input_new i < 16777216 →
        C i = exactScore input_prev input_new i) ∧
      (∀ i, i < 240 → |C i - exactScore input_prev input_new i| ≤ 430545305600) ∧
      (∀ i, i < 240 →
        exactScore input_prev input_new i ≤
          exactScore input_prev input_new k + 861090611200) := by
  obtain ⟨temp, C, k, ht, hslope, hC, herr, hk, hlt, hmax, hfirst⟩ :=
    seek_float32_spec input_prev input_new
      (by simpa [OVERLAP] using hp) (by simpa [SEEK_WINDOW, OVERLAP] using hn) hp16 hn16
  refine ⟨C, k, ?_, hk, hlt, hmax, hfirst, ?_, ?_, herr, ?_⟩
  · intro i hi
    simp only [computedScore, ht, Option.some_bind]
    exact hC i hi
  · intro k1 k2 h12 _ heq hkk
    subst hkk
    have := hfirst k1 h12
    omega
  · intro i hi hsmall
    have h1 := crosscorr_float32_exact temp input_prev input_new i hp16 hn16 hslope
      (fun j hj => hn _ (by omega) (by simp only [OVERLAP] at hj; omega)) hsmall
    rw [hC i hi] at h1
    exact Option.some.inj h1
  · intro i hi
    have h1 := abs_le.mp (herr i hi)
    have h2 := abs_le.mp (herr k hlt)
    have h3 := hmax i hi
    linarith [h1.1, h2.2]

/-- Witness for C6: the tail that is zero except `prev[1] = 1`, `prev[160] = 32767` and the
region that is zero except `new[2] = 1`, `new[160] = new[161] = 32767`. -/
theorem C6_seek_first_computed_maximum_witness :
    ∃ (C : Nat → Int) (k : Nat),
      (∀ i, i < 240 → computedScore float32Arith (arrayOf 320 (twoTapTail 1 32767))
        (arrayOf 559 (fourTapRegion 0 1 32767 32767)) i = some (C i)) ∧
      seek_best_overlap float32Arith (arrayOf 320 (twoTapTail 1 32767))
        (arrayOf 559 (fourTapRegion 0 1 32767 32767)) = some k ∧ k < 240 ∧
      (∀ i, i < 240 → C i ≤ C k) ∧ (∀ i, i < k → C i < C k) ∧
      (∀ k1 k2, k1 < k2 → k2 < 240 → C k1 = C k2 → k ≠ k2) ∧
      (∀ i, i < 240 → absScore (arrayOf 320 (twoTapTail 1 32767))
          (arrayOf 559 (fourTapRegion 0 1 32767 32767)) i < 16777216 →
        C i = exactScore (arrayOf 320 (twoTapTail 1 32767))
          (arrayOf 559 (fourTapRegion 0 1 32767 32767)) i) ∧
      (∀ i, i < 240 → |C i - exactScore (arrayOf 320 (twoTapTail 1 32767))
        (arrayOf 559 (fourTapRegion 0 1 32767 32767)) i| ≤ 430545305600) ∧
      (∀ i, i < 240 →
        exactScore (arrayOf 320 (twoTapTail 1 32767))
            (arrayOf 559 (fourTapRegion 0 1 32767 32767)) i ≤
          exactScore (arrayOf 320 (twoTapTail 1 32767))
            (arrayOf 559 (fourTapRegion 0 1 32767 32767)) k + 861090611200) :=
  C6_seek_first_computed_maximum (arrayOf 320 (twoTapTail 1 32767))
    (arrayOf 559 (fourTapRegion 0 1 32767 32767))
    (readable_arrayOf 320 _) (readable_arrayOf 559 _)
    (samples16_twoTapTail 320 1 32767 (by decide) (by decide))
    (samples16_fourTapRegion 559 0 1 32767 32767 (by decide) (by decide) (by decide)
      (by decide))

/-- C6 (counterexample to the claim as stated): two pairs of 16-bit operands on which the
result of `seek_best_overlap`, computed in binary32, is not the first maximum of the exact
scores.
(1) Tail zero except `prev[1] = 1`, `prev[160] = 32767`; region zero except `new[2] = 1`,
`new[160] = new[161] = 32767`: the exact scores of offsets 0 and 1 are `27486112998400` and
`27486112998719`, offset 1 is the exact maximum, both computed scores are `27486112972800`,
and the function returns 0.
(2) Tail zero except `prev[1] = 25600`, `prev[160] = 319`; region zero except
`new[1] = 4222`, `new[2] = 2`, `new[160] = 28545`, `new[161] = 32765`: offsets 0 and 1 have
the identical exact score `267588428800`, which is the exact maximum, the computed scores
are `267588419584` and `267588435968`, and the function returns 1, the larger of the two. -/
theorem C6_counterexample :
    (Samples16 (arrayOf 320 (twoTapTail 1 32767)) ∧
      Samples16 (arrayOf 559 (fourTapRegion 0 1 32767 32767)) ∧
      seek_best_overlap float32Arith (arrayOf 320 (twoTapTail 1 32767))
        (arrayOf 559 (fourTapRegion 0 1 32767 32767)) = some 0 ∧
      exactScore (arrayOf 320 (twoTapTail 1 32767))
        (arrayOf 559 (fourTapRegion 0 1 32767 32767)) 0 = 27486112998400 ∧
      exactScore (arrayOf 320 (twoTapTail 1 32767))
        (arrayOf 559 (fourTapRegion 0 1 32767 32767)) 1 = 27486112998719 ∧
      (∀ i, i < 240 → exactScore (arrayOf 320 (twoTapTail 1 32767))
        (arrayOf 559 (fourTapRegion 0 1 32767 32767)) i ≤ 27486112998719) ∧
      computedScore float32Arith (arrayOf 320 (twoTapTail 1 32767))
        (arrayOf 559 (fourTapRegion 0 1 32767 32767)) 0 = some 27486112972800 ∧
      computedScore float32Arith (arrayOf 320 (twoTapTail 1 32767))
        (arrayOf 559 (fourTapRegion 0 1 32767 32767)) 1 = some 27486112972800) ∧
    (Samples16 (arrayOf 320 (twoTapTail 25600 319)) ∧
      Samples16 (arrayOf 559 (fourTapRegion 4222 2 28545 32765)) ∧
      seek_best_overlap float32Arith (arrayOf 320 (twoTapTail 25600 319))
        (arrayOf 559 (fourTapRegion 4222 2 28545 32765)) = some 1 ∧
      exactScore (arrayOf 320 (twoTapTail 25600 319))
        (arrayOf 559 (fourTapRegion 4222 2 28545 32765)) 0 = 267588428800 ∧
      exactScore (arrayOf 320 (twoTapTail 25600 319))
        (arrayOf 559 (fourTapRegion 4222 2 28545 32765)) 1 = 267588428800 ∧
      (∀ i, i < 240 → exactScore (arrayOf 320 (twoTapTail 25600 319))
        (arrayOf 559 (fourTapRegion 4222 2 28545 32765)) i ≤ 267588428800) ∧
      computedScore float32Arith (arrayOf 320 (twoTapTail 25600 319))
        (arrayOf 559 (fourTapRegion 4222 2 28545 32765)) 0 = some 267588419584 ∧
      computedScore float32Arith (arrayOf 320 (twoTapTail 25600 319))
        (arrayOf 559 (fourTapRegion 4222 2 28545 32765)) 1 = some 267588435968) := by
  have hcomp : ∀ (p1 p160 a1 a2 b160 b161 : Int) (i : Nat), i < SEEK_WINDOW →
      computedScore float32Arith (arrayOf 320 (twoTapTail p1 p160))
          (arrayOf 559 (fourTapRegion a1 a2 b160 b161)) i =
        some (twoTapScore p1 p160 (fourTapRegion a1 a2 b160 b161 ((i : Int) + 1))
          (fourTapRegion a1 a2 b160 b161 ((i : Int) + 160))) := by
    intro p1 p160 a1 a2 b160 b161 i hi
    obtain ⟨temp, ht, hslope⟩ := precalc_spec float32Arith (arrayOf 320 (twoTapTail p1 p160))
      (readable_arrayOf 320 _)
    simp only [computedScore, ht, Option.some_bind]
    exact twoTap_computed p1 p160 a1 a2 b160 b161 temp hslope i hi
  refine ⟨⟨samples16_twoTapTail 320 1 32767 (by decide) (by decide),
      samples16_fourTapRegion 559 0 1 32767 32767 (by decide) (by decide) (by decide)
        (by decide),
      twoTap_seek 1 32767 0 1 32767 32767 0 (by decide) (by decide)
        (fun i _ => fourTap_forall 0 1 32767 32767
          (fun y x => twoTapScore 1 32767 y x ≤ twoTapScore 1 32767
            (fourTapRegion 0 1 32767 32767 (((0 : Nat) : Int) + 1))
            (fourTapRegion 0 1 32767 32767 (((0 : Nat) : Int) + 160)))
          (by decide) (by decide) (by decide) (by decide) (by decide) i)
        (fun i hi => absurd hi (Nat.not_lt_zero i)),
      ?_, ?_, ?_, ?_, ?_⟩,
    ⟨samples16_twoTapTail 320 25600 319 (by decide) (by decide),
      samples16_fourTapRegion 559 4222 2 28545 32765 (by decide) (by decide) (by decide)
        (by decide),
      twoTap_seek 25600 319 4222 2 28545 32765 1 (by decide) (by decide)
        (fun i _ => fourTap_forall 4222 2 28545 32765
          (fun y x => twoTapScore 25600 319 y x ≤ twoTapScore 25600 319
            (fourTapRegion 4222 2 28545 32765 (((1 : Nat) : Int) + 1))
            (fourTapRegion 4222 2 28545 32765 (((1 : Nat) : Int) + 160)))
          (by decide) (by decide) (by decide) (by decide) (by decide) i)
        (fun i hi => by
          have : i = 0 := by omega
          subst this
          decide),
      ?_, ?_, ?_, ?_, ?_⟩⟩
  · rw [twoTap_exact 1 32767 0 1 32767 32767 0 (by decide)]
    decide
  · rw [twoTap_exact 1 32767 0 1 32767 32767 1 (by decide)]
    decide
  · intro i hi
    rw [twoTap_exact 1 32767 0 1 32767 32767 i hi]
    exact fourTap_forall 0 1 32767 32767
      (fun y x => y * (1 * 319) + x * (32767 * 25600) ≤ 27486112998719)
      (by decide) (by decide) (by decide) (by decide) (by decide) i
  · rw [hcomp 1 32767 0 1 32767 32767 0 (by decide)]
    decide
  · rw [hcomp 1 32767 0 1 32767 32767 1 (by decide)]
    decide
  · rw [twoTap_exact 25600 319 4222 2 28545 32765 0 (by decide)]
    decide
  · rw [twoTap_exact 25600 319 4222 2 28545 32765 1 (by decide)]
    decide
  · intro i hi
    rw [twoTap_exact 25600 319 4222 2 28545 32765 i hi]
    exact fourTap_forall 4222 2 28545 32765
      (fun y x => y * (25600 * 319) + x * (319 * 25600) ≤ 267588428800)
      (by decide) (by decide) (by decide) (by decide) (by decide) i
  · rw [hcomp 25600 319 4222 2 28545 32765 0 (by decide)]
    decide
  · rw [hcomp 25600 319 4222 2 28545 32765 1 (by decide)]
    decide

/-! ## C7, C8: the blend -/

/-- C7: for every pair of readable 16-bit sequences `prev` and `new` of 320 samples and every
index `i` in `[0, 320)`, `overlap` stores
`output[i] = (prev[i] * (320 - i) + new[i] * i) / 320`, where `/` truncates toward zero (the
stored quotient `q` satisfies `0 <= 320 * q <= num` for a numerator `num >= 0`,
`num <= 320 * q <= 0` for `num <= 0`, and `|num - 320 * q| < 320`), and both products and
their sum lie in the 32-bit `int` range. -/
theorem C7_overlap_formula (out : OutBuf) (o : Int) (input_prev input_new : SamplePtr)
    (hp : Readable input_prev 0 320) (hn : Readable input_new 0 320)
    (hp16 : Samples16 input_prev) (hn16 : Samples16 input_new) :
    ∃ out1, overlap out o input_prev input_new = some out1 ∧
      ∀ i : Nat, i < 320 → ∃ p n, input_prev (i : Int) = some p ∧ input_new (i : Int) = some n ∧
        out1.val (o + (i : Int)) = Int.tdiv (p * (320 - (i : Int)) + n * (i : Int)) 320 ∧
        inRange32 (p * (320 - (i : Int))) ∧ inRange32 (n * (i : Int)) ∧
        inRange32 (p * (320 - (i : Int)) + n * (i : Int)) ∧
        (0 ≤ p * (320 - (i : Int)) + n * (i : Int) →
          0 ≤ 320 * out1.val (o + (i : Int)) ∧
            320 * out1.val (o + (i : Int)) ≤ p * (320 - (i : Int)) + n * (i : Int)) ∧
        (p * (320 - (i : Int)) + n * (i : Int) ≤ 0 →
          p * (320 - (i : Int)) + n * (i : Int) ≤ 320 * out1.val (o + (i : Int)) ∧
            320 * out1.val (o + (i : Int)) ≤ 0) ∧
        |p * (320 - (i : Int)) + n * (i : Int) - 320 * out1.val (o + (i : Int))| < 320 := by
  obtain ⟨out1, h1, _, _, hval⟩ := overlap_spec out o input_prev input_new
    (by simpa [OVERLAP] using hp) (by simpa [OVERLAP] using hn)
  refine ⟨out1, h1, ?_⟩
  intro i hi
  obtain ⟨p, n, hp1, hn1, hv⟩ := hval i (by simpa [OVERLAP] using hi)
  have hiO : i < OVERLAP := by simpa [OVERLAP] using hi
  obtain ⟨r1, r2, r3, _, _⟩ := blend_numerator p n (hp16 _ p hp1) (hn16 _ n hn1) i hiO
  obtain ⟨e, _, _⟩ := blend_exact p n (hp16 _ p hp1) (hn16 _ n hn1) i hiO
  have hO : ((OVERLAP : Nat) : Int) = 320 := by simp [OVERLAP]
  rw [hO] at r1 r3 e
  rw [e] at hv
  refine ⟨p, n, hp1, hn1, ?_, r1, r2, r3, ?_⟩
  · rw [hv]
  · rw [hv]
    rcases tdiv_overlap_cases (p * (320 - (i : Int)) + n * (i : Int)) with ⟨h0, he⟩ | ⟨h0, he⟩
    · rw [hO] at he
      rw [he, abs_lt]
      refine ⟨fun _ => ?_, fun _ => ?_, ?_⟩ <;> omega
    · rw [hO] at he
      rw [he, abs_lt]
      refine ⟨fun _ => ?_, fun _ => ?_, ?_⟩ <;> omega

/-- Witness for C7: blending the constant sequences `-1` and `0`. -/
theorem C7_overlap_formula_witness :
    ∃ out1, overlap (filledBuf 0) 0 (arrayOf 320 (constSamples (-1)))
        (arrayOf 320 (constSamples 0)) = some out1 ∧
      ∀ i : Nat, i < 320 → ∃ p n, arrayOf 320 (constSamples (-1)) (i : Int) = some p ∧
        arrayOf 320 (constSamples 0) (i : Int) = some n ∧
        out1.val (0 + (i : Int)) = Int.tdiv (p * (320 - (i : Int)) + n * (i : Int)) 320 ∧
        inRange32 (p * (320 - (i : Int))) ∧ inRange32 (n * (i : Int)) ∧
        inRange32 (p * (320 - (i : Int)) + n * (i : Int)) ∧
        (0 ≤ p * (320 - (i : Int)) + n * (i : Int) →
          0 ≤ 320 * out1.val (0 + (i : Int)) ∧
            320 * out1.val (0 + (i : Int)) ≤ p * (320 - (i : Int)) + n * (i : Int)) ∧
        (p * (320 - (i : Int)) + n * (i : Int) ≤ 0 →
          p * (320 - (i : Int)) + n * (i : Int) ≤ 320 * out1.val (0 + (i : Int)) ∧
            320 * out1.val (0 + (i : Int)) ≤ 0) ∧
        |p * (320 - (i : Int)) + n * (i : Int) - 320 * out1.val (0 + (i : Int))| < 320 :=
  C7_overlap_formula (filledBuf 0) 0 (arrayOf 320 (constSamples (-1)))
    (arrayOf 320 (constSamples 0)) (readable_arrayOf 320 _) (readable_arrayOf 320 _)
    (samples16_const 320 (-1) (by decide)) (samples16_const 320 0 (by decide))

/-- C8 (amended): the blend written by `overlap` is fully-previous at `i = 0`,
`output[0] = prev[0]`, and at `i = 319` it is
`output[319] = (prev[319] + new[319] * 319) / 320` (truncating): the previous sample still
has weight 1/320 there. -/
theorem C8_crossfade_endpoints (out : OutBuf) (o : Int) (input_prev input_new : SamplePtr)
    (hp : Readable input_prev 0 320) (hn : Readable input_new 0 320)
    (hp16 : Samples16 input_prev) (hn16 : Samples16 input_new) :
    ∃ out1, overlap out o input_prev input_new = some out1 ∧
      input_prev 0 = some (out1.val o) ∧
      ∃ p n, input_prev 319 = some p ∧ input_new 319 = some n ∧
        out1.val (o + 319) = Int.tdiv (p + n * 319) 320 := by
  obtain ⟨out1, h1, _, _, hval⟩ := overlap_spec out o input_prev input_new
    (by simpa [OVERLAP] using hp) (by simpa [OVERLAP] using hn)
  refine ⟨out1, h1, ?_, ?_⟩
  · obtain ⟨p, n, hp1, hn1, hv⟩ := hval 0 (by decide)
    obtain ⟨e, _, _⟩ := blend_exact p n (hp16 _ p hp1) (hn16 _ n hn1) 0 (by decide)
    simp only [Nat.cast_zero, add_zero] at hp1 hv
    rw [hp1, hv, e]
    have : p * (((OVERLAP : Nat) : Int) - ((0 : Nat) : Int)) + n * ((0 : Nat) : Int) = p * 320 := by
      simp [OVERLAP]
    rw [this]
    simp [OVERLAP, Int.mul_tdiv_cancel]
  · obtain ⟨p, n, hp1, hn1, hv⟩ := hval 319 (by decide)
    obtain ⟨e, _, _⟩ := blend_exact p n (hp16 _ p hp1) (hn16 _ n hn1) 319 (by decide)
    refine ⟨p, n, by simpa using hp1, by simpa using hn1, ?_⟩
    have hv1 : out1.val (o + 319) = blend p n 319 := by simpa using hv
    rw [hv1, e]
    have : p * (((OVERLAP : Nat) : Int) - ((319 : Nat) : Int)) + n * ((319 : Nat) : Int) =
        p + n * 319 := by
      simp [OVERLAP]
    rw [this]
    simp [OVERLAP]

/-- Witness for C8 (amended): blending the constant sequences `320` and `0`. -/
theorem C8_crossfade_endpoints_witness :
    ∃ out1, overlap (filledBuf 0) 0 (arrayOf 320 (constSamples 320))
        (arrayOf 320 (constSamples 0)) = some out1 ∧
      arrayOf 320 (constSamples 320) 0 = some (out1.val 0) ∧
      ∃ p n, arrayOf 320 (constSamples 320) 319 = some p ∧
        arrayOf 320 (constSamples 0) 319 = some n ∧
        out1.val (0 + 319) = Int.tdiv (p + n * 319) 320 :=
  C8_crossfade_endpoints (filledBuf 0) 0 (arrayOf 320 (constSamples 320))
    (arrayOf 320 (constSamples 0)) (readable_arrayOf 320 _) (readable_arrayOf 320 _)
    (samples16_const 320 320 (by decide)) (samples16_const 320 0 (by decide))

/-- C8 (counterexample to the claim as stated): with `prev[319] = 320` and `new[319] = 0`,
`overlap` stores `output[319] = 1`, not `new[319] = 0`. -/
theorem C8_counterexample :
    ∃ out1, overlap (filledBuf 0) 0 (arrayOf 320 (constSamples 320))
        (arrayOf 320 (constSamples 0)) = some out1 ∧
      out1.val 319 = 1 ∧ arrayOf 320 (constSamples 0) 319 = some 0 := by
  obtain ⟨out1, h1, _, _, hval⟩ := overlap_spec (filledBuf 0) 0
    (arrayOf 320 (constSamples 320)) (arrayOf 320 (constSamples 0))
    (by simpa [OVERLAP] using readable_arrayOf 320 (constSamples 320))
    (by simpa [OVERLAP] using readable_arrayOf 320 (constSamples 0))
  refine ⟨out1, h1, ?_, by decide⟩
  obtain ⟨p, n, hp1, hn1, hv⟩ := hval 319 (by decide)
  have hp2 : p = 320 := by
    simp [arrayOf, constSamples] at hp1
    exact hp1.symm
  have hn2 : n = 0 := by
    simp [arrayOf, constSamples] at hn1
    exact hn1.symm
  subst hp2 hn2
  have hv1 : out1.val 319 = blend 320 0 319 := by simpa using hv
  rw [hv1]
  decide

/-! ## C9: monotonicity in the skip -/

/-- A larger skip never needs more iterations. -/
theorem iterations_antitone (s1 s2 N : Int) (h1 : 0 < s1) (h12 : s1 ≤ s2) :
    iterations s2 N ≤ iterations s1 N := by
  by_cases hg : N > s2 + (SEEK_WINDOW : Int)
  · have hg1 : N > s1 + (SEEK_WINDOW : Int) := by omega
    obtain ⟨a, _⟩ := iterations_ceil s2 N (lt_of_lt_of_le h1 h12) hg
    obtain ⟨_, b⟩ := iterations_ceil s1 N h1 hg1
    have hK : 0 ≤ (iterations s1 N : Int) + 1 := by omega
    have hm : ((iterations s1 N : Int) + 1) * s1 ≤ ((iterations s1 N : Int) + 1) * s2 :=
      mul_le_mul_of_nonneg_left h12 hK
    have hlt : (iterations s2 N : Int) * s2 < ((iterations s1 N : Int) + 1) * s2 := by
      have e1 : ((iterations s2 N : Int) - 1) * s2 = (iterations s2 N : Int) * s2 - s2 := by ring
      have e2 : ((iterations s1 N : Int) + 1) * s1 = (iterations s1 N : Int) * s1 + s1 := by ring
      rw [e1] at a
      rw [e2] at hm
      omega
    have := lt_of_mul_lt_mul_right hlt (le_of_lt (lt_of_lt_of_le h1 h12))
    omega
  · rw [iterations_of_not_guard s2 N hg]
    exact Nat.zero_le _

/-- C9 (amended): for every input length `N`, every two skips `1 <= s1 <= s2`, and every
input buffer readable from index `min 0 (s1 - 320)` up to index `max N (N + 1278 - s1) - 1`,
provided the output length `1280 * K(s1)` for the smaller skip fits the `int32_t` return value,
`sola` returns for `s2` a length less than or equal to the length it returns for `s1`. -/
theorem C9_monotone_in_skip {F : Type} (A : ScoreArith F) (mem : SamplePtr) (out : OutBuf)
    (N s1 s2 : Int) (h1 : 1 ≤ s1) (h12 : s1 ≤ s2)
    (hmem : Readable mem (min 0 (s1 - 320)) (max N (N + 1278 - s1)))
    (hfit : 1280 * (iterations s1 N : Int) ≤ 2147483647) :
    ∃ o1 L1 o2 L2,
      sola A s1 (lt_of_lt_of_le Int.zero_lt_one h1) out mem N = some (o1, L1) ∧
      sola A s2 (lt_of_lt_of_le Int.zero_lt_one (le_trans h1 h12)) out mem N = some (o2, L2) ∧
      L2 ≤ L1 := by
  have hlo0 : min 0 (s1 - 320) ≤ 0 := min_le_left _ _
  have hlo1 : min 0 (s1 - 320) ≤ s1 - 320 := min_le_right _ _
  have hhi0 : N ≤ max N (N + 1278 - s1) := le_max_left _ _
  have hhi1 : N + 1278 - s1 ≤ max N (N + 1278 - s1) := le_max_right _ _
  obtain ⟨o1, r1, _, _, _⟩ := sola_spec_of_extent A s1 (lt_of_lt_of_le Int.zero_lt_one h1)
    mem _ _ hmem out N hlo0 hlo1 hhi0 (by omega)
  obtain ⟨o2, r2, _, _, _⟩ := sola_spec_of_extent A s2
    (lt_of_lt_of_le Int.zero_lt_one (le_trans h1 h12))
    mem _ _ hmem out N hlo0 (by omega) hhi0 (by omega)
  have hmono := iterations_antitone s1 s2 N (by omega) h12
  have w1 : wrap32 (1280 * (iterations s1 N : Int)) = 1280 * (iterations s1 N : Int) :=
    wrap32_eq _ (by unfold inRange32; omega)
  have w2 : wrap32 (1280 * (iterations s2 N : Int)) = 1280 * (iterations s2 N : Int) :=
    wrap32_eq _ (by unfold inRange32; omega)
  rw [w1] at r1
  rw [w2] at r2
  exact ⟨o1, _, o2, _, r1, r2, by omega⟩

theorem one_le_1113 : (1 : Int) ≤ 1113 := by decide

theorem le_1113_1664 : (1113 : Int) ≤ 1664 := by decide

/-- Witness for C9: skips 1113 and 1664 on 28960 silent samples in a buffer of 32750
samples. -/
theorem C9_monotone_in_skip_witness :
    ∃ o1 L1 o2 L2,
      sola exactArith 1113 (lt_of_lt_of_le Int.zero_lt_one one_le_1113) (filledBuf 0)
        (arrayOf 32750 silence) 28960 = some (o1, L1) ∧
      sola exactArith 1664
        (lt_of_lt_of_le Int.zero_lt_one (le_trans one_le_1113 le_1113_1664)) (filledBuf 0)
        (arrayOf 32750 silence) 28960 = some (o2, L2) ∧
      L2 ≤ L1 :=
  C9_monotone_in_skip exactArith (arrayOf 32750 silence) (filledBuf 0) 28960 1113 1664
    one_le_1113 le_1113_1664
    (fun i h0 h1 => readable_arrayOf 32750 silence i (by simpa using h0) (by simp at h1; omega))
    (by decide)

/-- C9 (counterexample to the claim as stated): for `N = 1867304827` and the skips
`s1 = 1113 <= s2 = 1280` (time-scale factors 0.87 and 1.00), `sola` returns
`-2147483136` for `s1` and the larger value `1867303680` for `s2`. -/
theorem C9_counterexample :
    (sola exactArith (sequenceSkip 87) (by decide) (filledBuf 0) (totalMem silence)
        1867304827).map Prod.snd = some (-2147483136) ∧
      (sola exactArith (sequenceSkip 100) (by decide) (filledBuf 0) (totalMem silence)
        1867304827).map Prod.snd = some 1867303680 ∧
      sequenceSkip 87 ≤ sequenceSkip 100 ∧ (-2147483136 : Int) < 1867303680 := by
  have hK1 : iterations (sequenceSkip 87) 1867304827 = 1677722 := by decide
  have hK2 : iterations (sequenceSkip 100) 1867304827 = 1458831 := by decide
  have hw1 : wrap32 (1280 * ((1677722 : Nat) : Int)) = -2147483136 := by decide
  have hw2 : wrap32 (1280 * ((1458831 : Nat) : Int)) = 1867303680 := by decide
  obtain ⟨o1, r1, _, _, _⟩ := sola_spec_of_extent exactArith (sequenceSkip 87) (by decide)
    (totalMem silence) (-320) (1867304827 + 1278) (readable_totalMem silence _ _)
    (filledBuf 0) 1867304827 (by decide) (by decide) (by decide) (by decide)
  obtain ⟨o2, r2, _, _, _⟩ := sola_spec_of_extent exactArith (sequenceSkip 100) (by decide)
    (totalMem silence) (-320) (1867304827 + 1278) (readable_totalMem silence _ _)
    (filledBuf 0) 1867304827 (by decide) (by decide) (by decide) (by decide)
  rw [hK1, hw1] at r1
  rw [hK2, hw2] at r2
  refine ⟨?_, ?_, by decide, by decide⟩
  · rw [r1]
    rfl
  · rw [r2]
    rfl

/-! ## C10: the reference run -/

/-- C10: with the shipped `TIME_SCALE = 0.87` (`SEQUENCE_SKIP = 1113`), for every input array
of exactly 28960 samples, whatever its contents and the score arithmetic, `sola` executes 25
loop iterations and returns 32000; this exceeds the input length 28960 and does not exceed
the capacity 32750 of `sola_output`, and every store goes to an index in `[0, 32000)`. -/
theorem C10_reference_run {F : Type} (A : ScoreArith F) (f : Int → Int) (out : OutBuf) :
    SEQUENCE_SKIP = 1113 ∧
      (∃ out1, sola A SEQUENCE_SKIP SEQUENCE_SKIP_pos out (arrayOf 28960 f) 28960 =
          some (out1, 32000) ∧
        out1.log = out.log ++ idxRange 0 32000) ∧
      solaIterations A SEQUENCE_SKIP SEQUENCE_SKIP_pos out (arrayOf 28960 f) 28960 = some 25 ∧
      (28960 : Int) < 32000 ∧ (32000 : Int) ≤ SOLA_OUTPUT_CAPACITY := by
  have hK : iterations SEQUENCE_SKIP 28960 = 25 := by decide
  obtain ⟨out1, r1, r2, r3, _⟩ := sola_spec A SEQUENCE_SKIP SEQUENCE_SKIP_pos (arrayOf 28960 f)
    0 28960 (readable_arrayOf 28960 f) out 28960
    (Or.inr (by rw [hK]; decide))
  rw [hK] at r1 r2 r3
  have hw : wrap32 (1280 * ((25 : Nat) : Int)) = 32000 := by decide
  rw [hw] at r1
  exact ⟨by decide, ⟨out1, r1, r3⟩, r2, by decide, by decide⟩

/-! ## C11, C12, C13: output length against input length -/

theorem sequenceSkip_130_pos : 0 < sequenceSkip 130 := by decide

theorem sequenceSkip_100_pos : 0 < sequenceSkip 100 := by decide

/-- C11: with `TIME_SCALE = 1.30` (`SEQUENCE_SKIP = (int)(1280 * 1.30) = 1664`), for every
input array of exactly 28960 samples, whatever its contents and the score arithmetic, `sola`
executes 17 loop iterations and returns 21760, which is less than the input length 28960. -/
theorem C11_reference_run_faster {F : Type} (A : ScoreArith F) (f : Int → Int) (out : OutBuf) :
    sequenceSkip 130 = 1664 ∧
      (∃ out1, sola A (sequenceSkip 130) sequenceSkip_130_pos out (arrayOf 28960 f) 28960 =
        some (out1, 21760)) ∧
      solaIterations A (sequenceSkip 130) sequenceSkip_130_pos out (arrayOf 28960 f) 28960 =
        some 17 ∧
      (21760 : Int) < 28960 := by
  have hK : iterations (sequenceSkip 130) 28960 = 17 := by decide
  obtain ⟨out1, r1, r2, _, _⟩ := sola_spec A (sequenceSkip 130) sequenceSkip_130_pos
    (arrayOf 28960 f) 0 28960 (readable_arrayOf 28960 f) out 28960
    (Or.inr (by rw [hK]; decide))
  rw [hK] at r1 r2
  have hw : wrap32 (1280 * ((17 : Nat) : Int)) = 21760 := by decide
  rw [hw] at r1
  exact ⟨by decide, ⟨out1, r1⟩, r2, by decide⟩

/-- C12: with `time_scale_factor = 1.0` (`SEQUENCE_SKIP = 1280`), for every input length
`N >= 0` (an `int32_t`) and every input array of exactly `N` samples, the output length `L`
returned by `sola` is within one processing window of `N`: `|N - L| <= 1600`. -/
theorem C12_unit_scale {F : Type} (A : ScoreArith F) (f : Int → Int) (out : OutBuf) (N : Int)
    (h0 : 0 ≤ N) (h32 : N ≤ 2147483647) :
    sequenceSkip 100 = 1280 ∧
      ∃ out1 L, sola A (sequenceSkip 100) sequenceSkip_100_pos out (arrayOf N f) N =
          some (out1, L) ∧
        |N - L| ≤ (SEQUENCE : Int) ∧ (SEQUENCE : Int) = 1600 := by
  have hs : sequenceSkip 100 = 1280 := by decide
  obtain ⟨out1, r1, _, _, _⟩ := sola_spec_of_extent A (sequenceSkip 100) sequenceSkip_100_pos
    (arrayOf N f) 0 N (readable_arrayOf N f) out N (le_refl _) (by rw [hs]; norm_num)
    (le_refl _) (by rw [hs]; omega)
  have hb : 0 ≤ 1280 * (iterations (sequenceSkip 100) N : Int) ∧
      N - 1520 ≤ 1280 * (iterations (sequenceSkip 100) N : Int) ∧
      1280 * (iterations (sequenceSkip 100) N : Int) ≤ N := by
    by_cases hg : N > sequenceSkip 100 + (SEEK_WINDOW : Int)
    · have hc := iterations_ceil (sequenceSkip 100) N sequenceSkip_100_pos hg
      generalize (iterations (sequenceSkip 100) N : Int) = K at hc ⊢
      rw [hs] at hc
      simp only [SEEK_WINDOW, Nat.cast_ofNat] at hc
      omega
    · rw [iterations_of_not_guard _ _ hg]
      rw [hs] at hg
      simp only [SEEK_WINDOW, Nat.cast_ofNat] at hg
      simp only [Nat.cast_zero, mul_zero]
      omega
  have hw : wrap32 (1280 * (iterations (sequenceSkip 100) N : Int)) =
      1280 * (iterations (sequenceSkip 100) N : Int) :=
    wrap32_eq _ (by unfold inRange32; omega)
  rw [hw] at r1
  refine ⟨hs, out1, _, r1, ?_, by decide⟩
  rw [abs_le]
  simp only [SEQUENCE, Nat.cast_ofNat]
  omega

/-- Witness for C12: 28960 silent samples. -/
theorem C12_unit_scale_witness :
    sequenceSkip 100 = 1280 ∧
      ∃ out1 L, sola exactArith (sequenceSkip 100) sequenceSkip_100_pos (filledBuf 0)
          (arrayOf 28960 silence) 28960 = some (out1, L) ∧
        |28960 - L| ≤ (SEQUENCE : Int) ∧ (SEQUENCE : Int) = 1600 :=
  C12_unit_scale exactArith silence (filledBuf 0) 28960 (by decide) (by decide)

/-- C13 (amended): with `TIME_SCALE = 0.87` (`SEQUENCE_SKIP = 1113`) and an input buffer
readable up to index `N + 164`, the output length `L` returned by `sola` satisfies
`L <= ceil(N * 100 / 87) + 1600` for every input length `0 <= N <= 3032052`, and for every
`0 <= N <= 1867304826` it satisfies `L <= N * 1280 / 1113` (the input length scaled by
`(SEQUENCE - OVERLAP) / SEQUENCE_SKIP`), in exact integer arithmetic. -/
theorem C13_capacity_bound {F : Type} (A : ScoreArith F) (mem : SamplePtr) (out : OutBuf)
    (N : Int) (h0 : 0 ≤ N) (hN : N ≤ 1867304826) (hmem : Readable mem 0 (N + 165)) :
    ∃ out1 L, sola A SEQUENCE_SKIP SEQUENCE_SKIP_pos out mem N = some (out1, L) ∧
      (N ≤ 3032052 → L ≤ (N * 100 + 86) / 87 + 1600) ∧
      1113 * L ≤ 1280 * N := by
  obtain ⟨out1, h1, _, _, _⟩ := sola_shipped A mem out N hmem
  rw [length_fits N hN] at h1
  refine ⟨out1, _, h1, ?_, ?_⟩
  · intro hN1
    obtain ⟨hz, hc⟩ := iterations_shipped N
    by_cases h : N ≤ 1353
    · rw [hz h]
      simp only [Nat.cast_zero, mul_zero]
      omega
    · have := hc (by omega)
      omega
  · obtain ⟨hz, hc⟩ := iterations_shipped N
    by_cases h : N ≤ 1353
    · rw [hz h]
      simp only [Nat.cast_zero, mul_zero]
      omega
    · have := hc (by omega)
      omega

/-- Witness for C13: 28960 silent samples in a buffer of 32750 samples. -/
theorem C13_capacity_bound_witness :
    ∃ out1 L, sola exactArith SEQUENCE_SKIP SEQUENCE_SKIP_pos (filledBuf 0)
        (arrayOf 32750 silence) 28960 = some (out1, L) ∧
      ((28960 : Int) ≤ 3032052 → L ≤ (28960 * 100 + 86) / 87 + 1600) ∧
      1113 * L ≤ 1280 * 28960 :=
  C13_capacity_bound exactArith (arrayOf 32750 silence) (filledBuf 0) 28960 (by decide)
    (by decide) (fun i h0 h1 => readable_arrayOf 32750 silence i h0 (by omega))

/-- C13 (counterexample to the claim as stated): for `N = 3032053` the loop runs 2724 times
and `sola` returns `L = 3486720`, while `ceil(N * 100 / 87) + 1600 = 3486719`. -/
theorem C13_counterexample :
    (sola exactArith SEQUENCE_SKIP SEQUENCE_SKIP_pos (filledBuf 0) (totalMem silence)
        3032053).map Prod.snd = some 3486720 ∧
      ((3032053 : Int) * 100 + 86) / 87 + 1600 = 3486719 ∧
      (3486719 : Int) < 3486720 := by
  have hK : iterations SEQUENCE_SKIP 3032053 = 2724 := by decide
  have hw : wrap32 (1280 * ((2724 : Nat) : Int)) = 3486720 := by decide
  obtain ⟨out1, h1, _, _, _⟩ := sola_shipped exactArith (totalMem silence) (filledBuf 0)
    3032053 (readable_totalMem silence 0 _)
  rw [hK, hw] at h1
  refine ⟨?_, by decide, by decide⟩
  rw [h1]
  rfl

/-! ## Inversion: what a successful loop has done -/

/-- An invariant of the loop body holds after a loop that succeeds. -/
theorem forLoop_inv {σ : Type} (P : Nat → σ → Prop) (body : Nat → σ → Option σ) (s0 : σ)
    (h0 : P 0 s0) (hstep : ∀ i s s1, P i s → body i s = some s1 → P (i + 1) s1) :
    ∀ (n : Nat) (s : σ), forLoop n body s0 = some s → P n s := by
  intro n
  induction n with
  | zero =>
    intro s h
    simp only [forLoop, Option.some.injEq] at h
    subst h
    exact h0
  | succ n ih =>
    intro s h
    rw [forLoop_succ] at h
    cases hn : forLoop n body s0 with
    | none =>
      rw [hn] at h
      cases h
    | some s1 =>
      rw [hn] at h
      exact hstep n s1 s (ih s1 hn) h

/-- A store loop that succeeds could read every value, and has the effect described by
`storeLoop_spec`. -/
theorem storeLoop_inv (g : Nat → Option Int) (o : Int) (out out1 : OutBuf) (n : Nat)
    (h : forLoop n (fun i b => (g i).map fun v => b.store (o + (i : Int)) v) out = some out1) :
    out1.log = out.log ++ idxRange o n ∧
      (∀ k, (k < o ∨ o + (n : Int) ≤ k) → out1.val k = out.val k) ∧
      (∀ i, i < n → g i = some (out1.val (o + (i : Int)))) := by
  have hsome : ∀ i, i < n → (g i).isSome = true := by
    apply forLoop_inv (fun m _ => ∀ i, i < m → (g i).isSome = true) _ out
      (fun i hi => absurd hi (Nat.not_lt_zero i)) _ n out1 h
    intro m b b1 hP hb i hi
    by_cases him : i = m
    · subst him
      cases hg : g i with
      | none => simp [hg] at hb
      | some v => rfl
    · exact hP i (by omega)
  obtain ⟨out2, h2, r⟩ := storeLoop_spec g o out n hsome
  rw [h] at h2
  simp only [Option.some.injEq] at h2
  subst h2
  exact r

/-- A successful `seek_best_overlap` returns an offset below `SEEK_WINDOW`. -/
theorem seek_lt {F : Type} (A : ScoreArith F) (input_prev input_new : SamplePtr) (k : Nat)
    (h : seek_best_overlap A input_prev input_new = some k) : k < SEEK_WINDOW := by
  simp only [seek_best_overlap, Option.bind_eq_some, Option.map_eq_some'] at h
  obtain ⟨temp, _, st, hl, rfl⟩ := h
  have := forLoop_inv (fun m (st : F × Nat) => st.2 = 0 ∨ st.2 < m)
    (seekStep A temp input_new) (A.sentinel, 0) (Or.inl rfl)
    (by
      intro i s s1 hP hb
      simp only [seekStep, Option.map_eq_some'] at hb
      obtain ⟨c, _, rfl⟩ := hb
      split
      · exact Or.inr (Nat.lt_succ_self i)
      · rcases hP with hP | hP
        · exact Or.inl hP
        · exact Or.inr (by omega))
    SEEK_WINDOW st hl
  simp only [SEEK_WINDOW] at this ⊢
  omega

/-- What an iteration of the loop of `sola` that succeeds has done. -/
theorem solaBody_inv {F : Type} (A : ScoreArith F) (skip : Int) (mem : SamplePtr)
    (st st1 : SolaState) (h : solaBody A skip mem st = some st1) :
    ∃ off, off < SEEK_WINDOW ∧
      seek_best_overlap A (ptrAdd mem (st.seq_offset + 960))
        (ptrAdd mem (st.input + (skip - 320))) = some off ∧
      st1.output = st.output + 1280 ∧
      st1.input = st.input + skip ∧
      st1.seq_offset = st.input + skip + (off : Int) ∧
      st1.num_out_samples = wrap32 (st.num_out_samples + 1280) ∧
      st1.num_in_samples = st.num_in_samples ∧
      st1.iters = st.iters ∧
      (∀ k, (k < st.output ∨ st.output + 1280 ≤ k) → st1.out.val k = st.out.val k) ∧
      (∀ t : Nat, t < 960 →
        mem (st.seq_offset + (t : Int)) = some (st1.out.val (st.output + (t : Int)))) ∧
      (∀ i : Nat, i < 320 → ∃ p n, mem (st.seq_offset + 960 + (i : Int)) = some p ∧
        mem (st.input + (skip - 320) + (off : Int) + (i : Int)) = some n ∧
        st1.out.val (st.output + 960 + (i : Int)) = blend p n i) := by
  have e1 : ((FLAT_DURATION : Nat) : Int) = 960 := by simp [FLAT_DURATION, SEQUENCE, OVERLAP]
  have e2 : ((OVERLAP : Nat) : Int) = 320 := by simp [OVERLAP]
  have e3 : ((SEQUENCE : Nat) : Int) = 1600 := by simp [SEQUENCE]
  simp only [solaBody, Option.bind_eq_some, Option.map_eq_some', e1, e2, e3] at h
  obtain ⟨out1, hm, off, hseek, out2, ho, rfl⟩ := h
  obtain ⟨_, hframe1, hval1⟩ := storeLoop_inv _ _ _ _ _ hm
  rw [overlap_eq_storeLoop] at ho
  obtain ⟨_, hframe2, hval2⟩ := storeLoop_inv _ _ _ _ _ ho
  rw [e1] at hframe1
  rw [e2] at hframe2
  refine ⟨off, seek_lt A _ _ off hseek, hseek, ?_, ?_, ?_, ?_, rfl, rfl, ?_, ?_, ?_⟩
  · show st.output + (1600 - 320) = _
    omega
  · show st.input + (skip - 320) + 320 = _
    omega
  · show st.input + (skip - 320) + (off : Int) + 320 = _
    omega
  · show wrap32 (st.num_out_samples + (1600 - 320)) = _
    norm_num
  · intro k hk
    show out2.val k = _
    rw [hframe2 k (by omega), hframe1 k (by omega)]
  · intro t ht
    show _ = some (out2.val _)
    rw [hframe2 _ (by omega)]
    have := hval1 t (by simp only [FLAT_DURATION, SEQUENCE, OVERLAP]; omega)
    simpa [ptrAdd] using this
  · intro i hi
    have := hval2 i (by simp only [OVERLAP]; omega)
    simp only [overlapValue, ptrAdd] at this
    cases hp : mem (st.seq_offset + 960 + (i : Int)) with
    | none => simp [hp] at this
    | some p =>
      cases hn : mem (st.input + (skip - 320) + (off : Int) + (i : Int)) with
      | none => simp [hp, hn] at this
      | some n =>
        refine ⟨p, n, rfl, rfl, ?_⟩
        simp only [hp, hn, Option.some_bind, Option.map_some', Option.some.injEq] at this
        exact this.symm

/-! ## Iteration-indexed states -/

theorem solaStep_inv {F : Type} (A : ScoreArith F) (skip : Int) (mem : SamplePtr)
    (s s2 : SolaState) (h : solaStep A skip mem s = some s2) :
    s.num_in_samples > skip + (SEEK_WINDOW : Int) ∧
      ∃ s1, solaBody A skip mem s = some s1 ∧
        s2 = { s1 with num_in_samples := s.num_in_samples - skip, iters := s.iters + 1 } := by
  unfold solaStep at h
  split at h
  · rename_i hg
    simp only [Option.map_eq_some'] at h
    obtain ⟨s1, h1, rfl⟩ := h
    exact ⟨hg, s1, h1, rfl⟩
  · cases h

/-- While the guard holds, the loop is one step followed by the loop. -/
theorem solaLoop_eq_step {F : Type} (A : ScoreArith F) (skip : Int) (hs : 0 < skip)
    (mem : SamplePtr) (st : SolaState) (h : st.num_in_samples > skip + (SEEK_WINDOW : Int)) :
    solaLoop A skip hs mem st = (solaStep A skip mem st).bind (solaLoop A skip hs mem) := by
  rw [solaLoop, if_pos h]
  unfold solaStep
  rw [if_pos h]
  cases solaBody A skip mem st <;> rfl

theorem solaStateAt_succ {F : Type} (A : ScoreArith F) (skip : Int) (mem : SamplePtr)
    (st0 : SolaState) (k : Nat) :
    solaStateAt A skip mem st0 (k + 1) =
      (solaStateAt A skip mem st0 k).bind (solaStep A skip mem) := rfl

theorem solaStateAt_succ_inv {F : Type} (A : ScoreArith F) (skip : Int) (mem : SamplePtr)
    (st0 s2 : SolaState) (k : Nat) (h : solaStateAt A skip mem st0 (k + 1) = some s2) :
    ∃ s, solaStateAt A skip mem st0 k = some s ∧ solaStep A skip mem s = some s2 := by
  rw [solaStateAt_succ] at h
  simpa [Option.bind_eq_some] using h

/-- Every state reached after `j <= k` iterations exists when the state after `k` does. -/
theorem solaStateAt_le {F : Type} (A : ScoreArith F) (skip : Int) (mem : SamplePtr)
    (st0 : SolaState) :
    ∀ (k : Nat) (s : SolaState), solaStateAt A skip mem st0 k = some s →
      ∀ j, j ≤ k → ∃ sj, solaStateAt A skip mem st0 j = some sj := by
  intro k
  induction k with
  | zero =>
    intro s h j hj
    have : j = 0 := by omega
    subst this
    exact ⟨s, h⟩
  | succ k ih =>
    intro s h j hj
    by_cases hjk : j = k + 1
    · subst hjk
      exact ⟨s, h⟩
    · obtain ⟨s0, h0, _⟩ := solaStateAt_succ_inv A skip mem st0 s k h
      exact ih s0 h0 j (by omega)

/-- The run of the loop passes through every state `solaStateAt` reaches. -/
theorem solaLoop_stateAt {F : Type} (A : ScoreArith F) (skip : Int) (hs : 0 < skip)
    (mem : SamplePtr) (st0 : SolaState) :
    ∀ (k : Nat) (s : SolaState), solaStateAt A skip mem st0 k = some s →
      solaLoop A skip hs mem st0 = solaLoop A skip hs mem s := by
  intro k
  induction k with
  | zero =>
    intro s h
    simp only [solaStateAt, Option.some.injEq] at h
    rw [h]
  | succ k ih =>
    intro s2 h
    obtain ⟨s, h0, hstep⟩ := solaStateAt_succ_inv A skip mem st0 s2 k h
    obtain ⟨hg, _⟩ := solaStep_inv A skip mem s s2 hstep
    rw [ih s h0, solaLoop_eq_step A skip hs mem s hg, hstep]
    rfl

/-- The cursors and counters of the state after `k` iterations. -/
theorem solaStateAt_inv {F : Type} (A : ScoreArith F) (skip : Int) (mem : SamplePtr)
    (st0 : SolaState) :
    ∀ (k : Nat) (s : SolaState), solaStateAt A skip mem st0 k = some s →
      s.input = st0.input + (k : Int) * skip ∧
      s.num_in_samples = st0.num_in_samples - (k : Int) * skip ∧
      s.iters = st0.iters + k ∧
      s.output = st0.output + 1280 * (k : Int) ∧
      (0 < k → s.input ≤ s.seq_offset ∧ s.seq_offset < s.input + 240) ∧
      (∀ i, i < st0.output → s.out.val i = st0.out.val i) := by
  intro k
  induction k with
  | zero =>
    intro s h
    simp only [solaStateAt, Option.some.injEq] at h
    subst h
    refine ⟨by simp, by simp, rfl, by simp, fun h => absurd h (Nat.lt_irrefl 0), fun _ _ => rfl⟩
  | succ k ih =>
    intro s2 h
    obtain ⟨s, h0, hstep⟩ := solaStateAt_succ_inv A skip mem st0 s2 k h
    obtain ⟨a1, a2, a3, a4, _, a6⟩ := ih s h0
    obtain ⟨_, s1, hb, rfl⟩ := solaStep_inv A skip mem s s2 hstep
    obtain ⟨off, hoff, _, b1, b2, b3, _, _, _, b7, _, _⟩ := solaBody_inv A skip mem s s1 hb
    simp only [SEEK_WINDOW] at hoff
    have e : ((k + 1 : Nat) : Int) * skip = (k : Int) * skip + skip := by
      push_cast
      ring
    refine ⟨?_, ?_, ?_, ?_, ?_, ?_⟩
    · show s1.input = _
      rw [b2, a1, e]
      ring
    · show s.num_in_samples - skip = _
      rw [a2, e]
      ring
    · show s.iters + 1 = _
      omega
    · show s1.output = _
      rw [b1, a4]
      push_cast
      ring
    · intro _
      show s1.input ≤ s1.seq_offset ∧ s1.seq_offset < s1.input + 240
      rw [b2, b3]
      omega
    · intro i hi
      show s1.out.val i = _
      rw [b7 i (by left; rw [a4]; omega)]
      exact a6 i hi

/-- The guard holds after `k` iterations exactly when `k` is below the closed-form count. -/
theorem guard_iff_lt_iterations (skip N : Int) (hs : 0 < skip) (k : Nat) :
    N - (k : Int) * skip > skip + (SEEK_WINDOW : Int) ↔ k < iterations skip N := by
  have hk0 : 0 ≤ (k : Int) * skip := mul_nonneg (by omega) (le_of_lt hs)
  constructor
  · intro h
    have hg : N > skip + (SEEK_WINDOW : Int) := by omega
    obtain ⟨_, h2⟩ := iterations_ceil skip N hs hg
    have hlt : (k : Int) * skip < (iterations skip N : Int) * skip := by omega
    have := lt_of_mul_lt_mul_right hlt (le_of_lt hs)
    omega
  · intro h
    have hg : N > skip + (SEEK_WINDOW : Int) := by
      by_contra hn
      rw [iterations_of_not_guard skip N hn] at h
      omega
    obtain ⟨h1, _⟩ := iterations_ceil skip N hs hg
    have hle : (k : Int) * skip ≤ ((iterations skip N : Int) - 1) * skip :=
      mul_le_mul_of_nonneg_right (by omega) (le_of_lt hs)
    omega

/-- The loop of `sola` is the state after exactly `iterations skip N` iterations: it
executes that many iterations and no more (and fails exactly when one of them fails). -/
theorem solaLoop_eq_stateAt {F : Type} (A : ScoreArith F) (skip : Int) (hs : 0 < skip)
    (mem : SamplePtr) (st0 : SolaState) :
    solaLoop A skip hs mem st0 =
      solaStateAt A skip mem st0 (iterations skip st0.num_in_samples) := by
  have hfail : ∀ k : Nat, k ≤ iterations skip st0.num_in_samples →
      solaStateAt A skip mem st0 k = none → solaLoop A skip hs mem st0 = none := by
    intro k
    induction k with
    | zero =>
      intro _ h
      simp [solaStateAt] at h
    | succ k ih =>
      intro hk h
      rw [solaStateAt_succ] at h
      cases h0 : solaStateAt A skip mem st0 k with
      | none => exact ih (by omega) h0
      | some s =>
        rw [h0] at h
        simp only [Option.some_bind] at h
        obtain ⟨_, a2, _, _, _, _⟩ := solaStateAt_inv A skip mem st0 k s h0
        have hg : s.num_in_samples > skip + (SEEK_WINDOW : Int) := by
          rw [a2]
          exact (guard_iff_lt_iterations skip _ hs k).mpr (by omega)
        rw [solaLoop_stateAt A skip hs mem st0 k s h0, solaLoop_eq_step A skip hs mem s hg, h]
        rfl
  cases hK : solaStateAt A skip mem st0 (iterations skip st0.num_in_samples) with
  | none => exact hfail _ (le_refl _) hK
  | some s =>
    obtain ⟨_, a2, _, _, _, _⟩ := solaStateAt_inv A skip mem st0 _ s hK
    have hg : ¬ s.num_in_samples > skip + (SEEK_WINDOW : Int) := by
      rw [a2]
      intro h
      have := (guard_iff_lt_iterations skip _ hs _).mp h
      omega
    rw [solaLoop_stateAt A skip hs mem st0 _ s hK, solaLoop_exit A skip hs mem s hg]

/-- No iteration is executed beyond the closed-form count. -/
theorem solaStateAt_beyond {F : Type} (A : ScoreArith F) (skip : Int) (hs : 0 < skip)
    (mem : SamplePtr) (st0 : SolaState) :
    solaStateAt A skip mem st0 (iterations skip st0.num_in_samples + 1) = none := by
  rw [solaStateAt_succ]
  cases hK : solaStateAt A skip mem st0 (iterations skip st0.num_in_samples) with
  | none => rfl
  | some s =>
    obtain ⟨_, a2, _, _, _, _⟩ := solaStateAt_inv A skip mem st0 _ s hK
    have hg : ¬ s.num_in_samples > skip + (SEEK_WINDOW : Int) := by
      rw [a2]
      intro h
      have := (guard_iff_lt_iterations skip _ hs _).mp h
      omega
    simp only [Option.some_bind, solaStep, if_neg hg]

/-- A state reached by `solaStateAt` has an index of at most the closed-form count. -/
theorem solaStateAt_index_le {F : Type} (A : ScoreArith F) (skip : Int) (hs : 0 < skip)
    (mem : SamplePtr) (st0 s : SolaState) (k : Nat)
    (h : solaStateAt A skip mem st0 k = some s) : k ≤ iterations skip st0.num_in_samples := by
  by_contra hk
  obtain ⟨sj, hj⟩ := solaStateAt_le A skip mem st0 k s h
    (iterations skip st0.num_in_samples + 1) (by omega)
  rw [solaStateAt_beyond A skip hs mem st0] at hj
  cases hj

/-! ## C14: termination -/

/-- C14: for every skip `sequence_skip >= 1`, every input and every input length `N`, the
driver loop of `sola` terminates: the embedding `solaRun` (a total function, defined by
well-founded recursion on the remaining length) is the state after exactly
`iterations skip N` executed iterations and no further iteration is executed; every
executed iteration decreases the remaining-length counter by `skip`, which strictly
decreases the measure of the recursion, so that after `k` iterations the counter is
`N - k * skip`; and on memory that can be read everywhere the run returns a state. -/
theorem C14_termination {F : Type} (A : ScoreArith F) (skip : Int) (hs : 1 ≤ skip)
    (mem : SamplePtr) (out : OutBuf) (N : Int) :
    solaRun A skip (lt_of_lt_of_le Int.zero_lt_one hs) out mem N =
        solaStateAt A skip mem (solaInit out N) (iterations skip N) ∧
      solaStateAt A skip mem (solaInit out N) (iterations skip N + 1) = none ∧
      (∀ k s, solaStateAt A skip mem (solaInit out N) k = some s →
        s.num_in_samples = N - (k : Int) * skip ∧ k ≤ iterations skip N) ∧
      (∀ s s2, solaStep A skip mem s = some s2 →
        s2.num_in_samples = s.num_in_samples - skip ∧
          (s2.num_in_samples - (skip + (SEEK_WINDOW : Int))).toNat <
            (s.num_in_samples - (skip + (SEEK_WINDOW : Int))).toNat) ∧
      (∀ f : Int → Int, ∃ st,
        solaRun A skip (lt_of_lt_of_le Int.zero_lt_one hs) out (totalMem f) N = some st) := by
  have hs0 : 0 < skip := lt_of_lt_of_le Int.zero_lt_one hs
  refine ⟨?_, ?_, ?_, ?_, ?_⟩
  · exact solaLoop_eq_stateAt A skip hs0 mem (solaInit out N)
  · exact solaStateAt_beyond A skip hs0 mem (solaInit out N)
  · intro k s h
    obtain ⟨_, a2, _, _, _, _⟩ := solaStateAt_inv A skip mem (solaInit out N) k s h
    exact ⟨a2, solaStateAt_index_le A skip hs0 mem (solaInit out N) s k h⟩
  · intro s s2 h
    obtain ⟨hg, s1, hb, rfl⟩ := solaStep_inv A skip mem s s2 h
    refine ⟨rfl, ?_⟩
    show (s.num_in_samples - skip - (skip + (SEEK_WINDOW : Int))).toNat < _
    omega
  · intro f
    obtain ⟨out1, h1, _, _, _⟩ := sola_spec_of_extent A skip hs0 (totalMem f) (-320)
      (N + 1278) (readable_totalMem f _ _) out N (by omega) (by omega) (by omega) (by omega)
    unfold sola at h1
    simp only [Option.map_eq_some'] at h1
    obtain ⟨st, hst, _⟩ := h1
    exact ⟨st, hst⟩

/-- Witness for C14: the shipped skip 1113 on 28960 silent samples. -/
theorem C14_termination_witness :
    solaRun exactArith 1113 (lt_of_lt_of_le Int.zero_lt_one one_le_1113) (filledBuf 0)
        (arrayOf 32750 silence) 28960 =
        solaStateAt exactArith 1113 (arrayOf 32750 silence) (solaInit (filledBuf 0) 28960)
          (iterations 1113 28960) ∧
      solaStateAt exactArith 1113 (arrayOf 32750 silence) (solaInit (filledBuf 0) 28960)
        (iterations 1113 28960 + 1) = none ∧
      (∀ k s, solaStateAt exactArith 1113 (arrayOf 32750 silence)
          (solaInit (filledBuf 0) 28960) k = some s →
        s.num_in_samples = 28960 - (k : Int) * 1113 ∧ k ≤ iterations 1113 28960) ∧
      (∀ s s2, solaStep exactArith 1113 (arrayOf 32750 silence) s = some s2 →
        s2.num_in_samples = s.num_in_samples - 1113 ∧
          (s2.num_in_samples - (1113 + (SEEK_WINDOW : Int))).toNat <
            (s.num_in_samples - (1113 + (SEEK_WINDOW : Int))).toNat) ∧
      (∀ f : Int → Int, ∃ st,
        solaRun exactArith 1113 (lt_of_lt_of_le Int.zero_lt_one one_le_1113) (filledBuf 0)
          (totalMem f) 28960 = some st) :=
  C14_termination exactArith 1113 one_le_1113 (arrayOf 32750 silence) (filledBuf 0) 28960

/-! ## C15, C16: the flat copy and the cursors -/

/-- The flat part of an executed iteration survives to the end of the run: when the loop
started in `st0` returns `fin` and `s` is the state at the start of an executed iteration,
the 960 samples at the selected cursor of `s` are in `fin` at the output cursor of `s`. -/
theorem flat_copy_survives {F : Type} (A : ScoreArith F) (skip : Int) (hs : 0 < skip)
    (mem : SamplePtr) (st0 fin s : SolaState) (k : Nat)
    (hrun : solaLoop A skip hs mem st0 = some fin)
    (hk : solaStateAt A skip mem st0 k = some s)
    (hg : s.num_in_samples > skip + (SEEK_WINDOW : Int)) :
    ∀ t : Nat, t < 960 →
      mem (s.seq_offset + (t : Int)) = some (fin.out.val (s.output + (t : Int))) := by
  rw [solaLoop_stateAt A skip hs mem st0 k s hk, solaLoop_eq_step A skip hs mem s hg] at hrun
  simp only [Option.bind_eq_some] at hrun
  obtain ⟨s2, hstep, hrest⟩ := hrun
  obtain ⟨_, s1, hb, rfl⟩ := solaStep_inv A skip mem s s2 hstep
  obtain ⟨off, _, _, b1, _, _, _, _, _, _, b8, _⟩ := solaBody_inv A skip mem s s1 hb
  rw [solaLoop_eq_stateAt] at hrest
  obtain ⟨_, _, _, _, _, a6⟩ := solaStateAt_inv A skip mem _ _ fin hrest
  intro t ht
  rw [a6 _ (by show s.output + (t : Int) < s1.output; rw [b1]; omega)]
  exact b8 t ht

/-- C15: for every input on which `sola` (shipped constants) completes its run, and every
executed iteration `k < K`, with `s_k` the selected cursor at the start of iteration `k`
(`s_0 = 0`), the final output satisfies `output[1280 * k + t] = input[s_k + t]` for every
`t` in `[0, 960)`; in particular the first 960 output samples equal the first 960 input
samples whenever `N > 1353`. -/
theorem C15_flat_copy_verbatim {F : Type} (A : ScoreArith F) (mem : SamplePtr) (out : OutBuf)
    (N : Int) (out1 : OutBuf) (L : Int)
    (hrun : sola A SEQUENCE_SKIP SEQUENCE_SKIP_pos out mem N = some (out1, L)) :
    (∀ k : Nat, k < iterations SEQUENCE_SKIP N →
      ∃ s, solaStateAt A SEQUENCE_SKIP mem (solaInit out N) k = some s ∧
        (k = 0 → s.seq_offset = 0) ∧
        ∀ t : Nat, t < 960 →
          mem (s.seq_offset + (t : Int)) = some (out1.val (1280 * (k : Int) + (t : Int)))) ∧
      (1353 < N → ∀ t : Nat, t < 960 → mem (t : Int) = some (out1.val (t : Int))) := by
  unfold sola solaRun at hrun
  simp only [Option.map_eq_some', Prod.mk.injEq] at hrun
  obtain ⟨fin, hfin, rfl, _⟩ := hrun
  have hK := hfin
  rw [solaLoop_eq_stateAt] at hK
  have hall : ∀ k : Nat, k < iterations SEQUENCE_SKIP N →
      ∃ s, solaStateAt A SEQUENCE_SKIP mem (solaInit out N) k = some s ∧
        (k = 0 → s.seq_offset = 0) ∧
        ∀ t : Nat, t < 960 →
          mem (s.seq_offset + (t : Int)) = some (fin.out.val (1280 * (k : Int) + (t : Int))) := by
    intro k hk
    obtain ⟨s, hs⟩ := solaStateAt_le A SEQUENCE_SKIP mem (solaInit out N) _ fin hK k
      (by simp only [solaInit] at *; omega)
    obtain ⟨_, a2, _, a4, _, _⟩ := solaStateAt_inv A SEQUENCE_SKIP mem (solaInit out N) k s hs
    have hg : s.num_in_samples > SEQUENCE_SKIP + (SEEK_WINDOW : Int) := by
      rw [a2]
      exact (guard_iff_lt_iterations SEQUENCE_SKIP N SEQUENCE_SKIP_pos k).mpr hk
    refine ⟨s, hs, ?_, ?_⟩
    · intro h0
      subst h0
      simp only [solaStateAt, Option.some.injEq] at hs
      rw [← hs]
      rfl
    · intro t ht
      have := flat_copy_survives A SEQUENCE_SKIP SEQUENCE_SKIP_pos mem (solaInit out N) fin s k
        hfin hs hg t ht
      rw [a4] at this
      simpa [solaInit] using this
  refine ⟨hall, ?_⟩
  intro hN t ht
  have hpos : 0 < iterations SEQUENCE_SKIP N := by
    have := (iterations_shipped N).2 hN
    omega
  obtain ⟨s, hs, h0, hv⟩ := hall 0 hpos
  have := hv t ht
  rw [h0 rfl] at this
  simpa using this

/-- Witness for C15: 28960 silent samples in a buffer of 32750 samples. -/
theorem C15_flat_copy_verbatim_witness :
    ∃ out1 L, sola exactArith SEQUENCE_SKIP SEQUENCE_SKIP_pos (filledBuf (-1))
        (arrayOf 32750 silence) 28960 = some (out1, L) ∧
      (∀ k : Nat, k < iterations SEQUENCE_SKIP 28960 →
        ∃ s, solaStateAt exactArith SEQUENCE_SKIP (arrayOf 32750 silence)
            (solaInit (filledBuf (-1)) 28960) k = some s ∧
          (k = 0 → s.seq_offset = 0) ∧
          ∀ t : Nat, t < 960 →
            arrayOf 32750 silence (s.seq_offset + (t : Int)) =
              some (out1.val (1280 * (k : Int) + (t : Int)))) ∧
      ((1353 : Int) < 28960 → ∀ t : Nat, t < 960 →
        arrayOf 32750 silence (t : Int) = some (out1.val (t : Int))) := by
  obtain ⟨out1, h1, _, _, _⟩ := sola_shipped exactArith (arrayOf 32750 silence)
    (filledBuf (-1)) 28960 (fun i h0 h1 => readable_arrayOf 32750 silence i h0 (by omega))
  exact ⟨out1, _, h1, C15_flat_copy_verbatim exactArith (arrayOf 32750 silence)
    (filledBuf (-1)) 28960 out1 _ h1⟩

/-- C16: the cursor invariant of the driver loop (shipped constants).  At the start of
every iteration `k` (the state after `k` executed iterations, through which the run of the
loop passes), the nominal cursor is `p_k = 1113 * k`, the remaining-length counter is
`N - p_k`, and the selected cursor `s_k` satisfies `p_k <= s_k < p_k + 240`, with
`s_0 = p_0 = 0`; and `s_(k+1) = p_(k+1) + off`, where `off` is the offset returned by the
call of `seek_best_overlap` in iteration `k`. -/
theorem C16_cursor_invariant {F : Type} (A : ScoreArith F) (mem : SamplePtr) (out : OutBuf)
    (N : Int) (k : Nat) (s : SolaState)
    (hk : solaStateAt A SEQUENCE_SKIP mem (solaInit out N) k = some s) :
    solaRun A SEQUENCE_SKIP SEQUENCE_SKIP_pos out mem N =
        solaLoop A SEQUENCE_SKIP SEQUENCE_SKIP_pos mem s ∧
      s.iters = k ∧
      s.input = 1113 * (k : Int) ∧
      s.num_in_samples = N - s.input ∧
      s.input ≤ s.seq_offset ∧ s.seq_offset < s.input + 240 ∧
      (k = 0 → s.seq_offset = 0) ∧
      (∀ s2, solaStateAt A SEQUENCE_SKIP mem (solaInit out N) (k + 1) = some s2 →
        ∃ off, seek_best_overlap A (ptrAdd mem (s.seq_offset + 960))
            (ptrAdd mem (s.input + 793)) = some off ∧
          s2.input = 1113 * ((k : Int) + 1) ∧
          s2.seq_offset = s2.input + (off : Int)) := by
  obtain ⟨a1, a2, a3, _, a5, _⟩ := solaStateAt_inv A SEQUENCE_SKIP mem (solaInit out N) k s hk
  simp only [solaInit, SEQUENCE_SKIP_eq, zero_add] at a1 a2 a3
  have h0 : k = 0 → s.seq_offset = 0 := by
    intro h0
    subst h0
    simp only [solaStateAt, Option.some.injEq] at hk
    rw [← hk]
    rfl
  refine ⟨solaLoop_stateAt A SEQUENCE_SKIP SEQUENCE_SKIP_pos mem (solaInit out N) k s hk,
    a3, by rw [a1]; ring, by rw [a2, a1], ?_, ?_, h0, ?_⟩
  · by_cases hk0 : k = 0
    · rw [h0 hk0, a1, hk0]
      simp
    · exact (a5 (by omega)).1
  · by_cases hk0 : k = 0
    · rw [h0 hk0, a1, hk0]
      simp
    · exact (a5 (by omega)).2
  · intro s2 h2
    obtain ⟨s', hs', hstep⟩ := solaStateAt_succ_inv A SEQUENCE_SKIP mem (solaInit out N) s2 k h2
    rw [hk] at hs'
    simp only [Option.some.injEq] at hs'
    subst hs'
    obtain ⟨_, s1, hb, rfl⟩ := solaStep_inv A SEQUENCE_SKIP mem s _ hstep
    obtain ⟨off, _, hseek, _, b2, b3, _, _, _, _, _, _⟩ :=
      solaBody_inv A SEQUENCE_SKIP mem s s1 hb
    refine ⟨off, ?_, ?_, ?_⟩
    · have e : s.input + (SEQUENCE_SKIP - 320) = s.input + 793 := by
        rw [SEQUENCE_SKIP_eq]
        ring
      rw [e] at hseek
      exact hseek
    · show s1.input = _
      rw [b2, a1, SEQUENCE_SKIP_eq]
      ring
    · show s1.seq_offset = s1.input + _
      rw [b3, b2]

theorem stateAt_one {F : Type} (A : ScoreArith F) (skip : Int) (mem : SamplePtr)
    (st0 st1 : SolaState) (hg : st0.num_in_samples > skip + (SEEK_WINDOW : Int))
    (hb : solaBody A skip mem st0 = some st1) :
    solaStateAt A skip mem st0 1 =
      some { st1 with num_in_samples := st0.num_in_samples - skip, iters := st0.iters + 1 } := by
  show (some st0).bind (solaStep A skip mem) = _
  simp only [Option.some_bind, solaStep, if_pos hg, hb, Option.map_some']

theorem stateAt_one_exists :
    ∃ s, solaStateAt exactArith SEQUENCE_SKIP (arrayOf 32750 silence)
        (solaInit (filledBuf 0) 28960) 1 = some s := by
  obtain ⟨st1, off, hb, _⟩ := solaBody_spec exactArith SEQUENCE_SKIP (arrayOf 32750 silence)
    0 32750 (readable_arrayOf 32750 silence) (solaInit (filledBuf 0) 28960)
    (by simp [solaInit]) (by simp [solaInit, SEQUENCE_SKIP_eq])
    (by simp [solaInit]) (by simp [solaInit, SEQUENCE_SKIP_eq])
  have hg : (solaInit (filledBuf 0) 28960).num_in_samples >
      SEQUENCE_SKIP + (SEEK_WINDOW : Int) := by
    simp [solaInit, SEQUENCE_SKIP_eq, SEEK_WINDOW]
  exact ⟨_, stateAt_one _ _ _ _ _ hg hb⟩

/-- Witness for C16: the state at the start of the second iteration on 28960 silent
samples in a buffer of 32750 samples. -/
theorem C16_cursor_invariant_witness :
    ∃ s, solaStateAt exactArith SEQUENCE_SKIP (arrayOf 32750 silence)
        (solaInit (filledBuf 0) 28960) 1 = some s ∧
      (solaRun exactArith SEQUENCE_SKIP SEQUENCE_SKIP_pos (filledBuf 0)
          (arrayOf 32750 silence) 28960 =
          solaLoop exactArith SEQUENCE_SKIP SEQUENCE_SKIP_pos (arrayOf 32750 silence) s ∧
        s.iters = 1 ∧
        s.input = 1113 * ((1 : Nat) : Int) ∧
        s.num_in_samples = 28960 - s.input ∧
        s.input ≤ s.seq_offset ∧ s.seq_offset < s.input + 240 ∧
        (1 = 0 → s.seq_offset = 0) ∧
        (∀ s2, solaStateAt exactArith SEQUENCE_SKIP (arrayOf 32750 silence)
            (solaInit (filledBuf 0) 28960) (1 + 1) = some s2 →
          ∃ off, seek_best_overlap exactArith
              (ptrAdd (arrayOf 32750 silence) (s.seq_offset + 960))
              (ptrAdd (arrayOf 32750 silence) (s.input + 793)) = some off ∧
            s2.input = 1113 * (((1 : Nat) : Int) + 1) ∧
            s2.seq_offset = s2.input + (off : Int))) := by
  obtain ⟨s, hs⟩ := stateAt_one_exists
  exact ⟨s, hs, C16_cursor_invariant exactArith (arrayOf 32750 silence) (filledBuf 0) 28960 1
    s hs⟩


/-! ## C17: no overflow in the weighting -/

/-- Every exact score of 16-bit samples has magnitude at most `320 * 32768 * 838860800`. -/
theorem exactScore_abs_le (input_prev input_new : SamplePtr)
    (hp16 : Samples16 input_prev) (hn16 : Samples16 input_new) (k : Nat) :
    |exactScore input_prev input_new k| ≤ 320 * 32768 * 838860800 := by
  unfold exactScore
  refine le_trans (Finset.abs_sum_le_sum_abs _ _) ?_
  have hterm : ∀ j, j ∈ Finset.range OVERLAP →
      |(input_new ((k : Int) + (j : Int))).getD 0 *
        ((input_prev (j : Int)).getD 0 * (j : Int) * ((OVERLAP : Int) - (j : Int)))| ≤
        32768 * 838860800 := by
    intro j hj
    have ha := getD_inRange16 input_new hn16 ((k : Int) + (j : Int))
    have hb := weighted_bound _ (getD_inRange16 input_prev hp16 (j : Int)) j (Finset.mem_range.mp hj)
    have ha1 : |(input_new ((k : Int) + (j : Int))).getD 0| ≤ 32768 := by
      unfold inRange16 at ha
      rw [abs_le]
      omega
    rw [abs_mul]
    exact mul_le_mul ha1 hb (abs_nonneg _) (by norm_num)
  have hsum := Finset.sum_le_card_nsmul (Finset.range OVERLAP) _ _ hterm
  simp only [Finset.card_range, OVERLAP, smul_eq_mul, nsmul_eq_mul] at hsum
  simp only [OVERLAP]
  norm_num at hsum ⊢
  linarith

/-- C17: the weighting in `seek_best_overlap` cannot overflow its 32-bit product: for every
`i` in `[0, 320)` the weight `i * (320 - i)` is at most `25600`; for every 16-bit sample `v`
the intermediate `v * i` and the product `v * i * (320 - i)` lie in the signed 32-bit range
(magnitude at most `32768 * 25600 = 838860800 < 2^31`), so the value converted to `float`
is the exact product; the magnitude of every exact score is at most
`320 * 32768 * 838860800`, which is below `1e30`, and the initial `bestcorr = -1e30f` is
strictly smaller than the score of offset 0. -/
theorem C17_weighting_no_overflow (v : Int) (hv : inRange16 v) (i : Nat) (hi : i < 320)
    (input_prev input_new : SamplePtr) (hp16 : Samples16 input_prev)
    (hn16 : Samples16 input_new) (k : Nat) :
    (0 ≤ (i : Int) * (320 - (i : Int)) ∧ (i : Int) * (320 - (i : Int)) ≤ 25600) ∧
      inRange32 (v * (i : Int)) ∧
      inRange32 (v * (i : Int) * (320 - (i : Int))) ∧
      |v * (i : Int)| ≤ 838860800 ∧
      |v * (i : Int) * (320 - (i : Int))| ≤ 838860800 ∧
      (32768 * 25600 = (838860800 : Int) ∧ (838860800 : Int) < 2 ^ 31) ∧
      slope exactArith v i = v * (i : Int) * (320 - (i : Int)) ∧
      |exactScore input_prev input_new k| ≤ 320 * 32768 * 838860800 ∧
      ((320 * 32768 * 838860800 : Int) < 10 ^ 30 ∧ exactArith.sentinel ≤ -(10 ^ 30)) ∧
      exactArith.sentinel < exactScore input_prev input_new 0 := by
  have hiO : i < OVERLAP := by simpa [OVERLAP] using hi
  have hO : ((OVERLAP : Nat) : Int) = 320 := by simp [OVERLAP]
  have hw := weight_bound i hiO
  have hb := weighted_bound v hv i hiO
  have hs := slope_exact v hv i hiO
  rw [hO] at hw hb hs
  have hvi : -10485760 ≤ v * (i : Int) ∧ v * (i : Int) ≤ 10485760 := by
    unfold inRange16 at hv
    have h0 : (0 : Int) ≤ (i : Int) := by omega
    have h1 : (i : Int) ≤ 320 := by omega
    constructor <;> nlinarith
  have hb2 := abs_le.mp hb
  refine ⟨hw, ?_, ?_, ?_, hb, by norm_num, hs,
    exactScore_abs_le input_prev input_new hp16 hn16 k, ⟨by norm_num, ?_⟩,
    sentinel_lt_exactScore input_prev input_new hp16 hn16 0⟩
  · unfold inRange32
    omega
  · unfold inRange32
    omega
  · rw [abs_le]
    omega
  · simp only [exactArith]
    norm_num

/-- Witness for C17: the sample `-32768` at index 160 and silent operands. -/
theorem C17_weighting_no_overflow_witness :
    (0 ≤ ((160 : Nat) : Int) * (320 - ((160 : Nat) : Int)) ∧
        ((160 : Nat) : Int) * (320 - ((160 : Nat) : Int)) ≤ 25600) ∧
      inRange32 (-32768 * ((160 : Nat) : Int)) ∧
      inRange32 (-32768 * ((160 : Nat) : Int) * (320 - ((160 : Nat) : Int))) ∧
      |-32768 * ((160 : Nat) : Int)| ≤ 838860800 ∧
      |-32768 * ((160 : Nat) : Int) * (320 - ((160 : Nat) : Int))| ≤ 838860800 ∧
      (32768 * 25600 = (838860800 : Int) ∧ (838860800 : Int) < 2 ^ 31) ∧
      slope exactArith (-32768) 160 = -32768 * ((160 : Nat) : Int) * (320 - ((160 : Nat) : Int)) ∧
      |exactScore (arrayOf 320 silence) (arrayOf 559 silence) 0| ≤ 320 * 32768 * 838860800 ∧
      ((320 * 32768 * 838860800 : Int) < 10 ^ 30 ∧ exactArith.sentinel ≤ -(10 ^ 30)) ∧
      exactArith.sentinel < exactScore (arrayOf 320 silence) (arrayOf 559 silence) 0 :=
  C17_weighting_no_overflow (-32768) (by decide) 160 (by decide) (arrayOf 320 silence)
    (arrayOf 559 silence) (samples16_const 320 0 (by decide)) (samples16_const 559 0 (by decide))
    0


/-! ## C18: the blend stays between its operands -/

/-- C18: for every `i` in `[0, 320)` and all 16-bit values `p = prev[i]`, `n = new[i]`, the
truncated quotient `(p * (320 - i) + n * i) / 320` lies between `min p n` and `max p n`;
hence it is a 16-bit value and the sample stored by `overlap` is this quotient (the
conversion to `SAMPLE` loses nothing); and blending a readable 16-bit sequence with itself
returns it unchanged. -/
theorem C18_blend_in_range (p n : Int) (hp : inRange16 p) (hn : inRange16 n) (i : Nat)
    (hi : i < 320) (out : OutBuf) (o : Int) (input_prev : SamplePtr)
    (hr : Readable input_prev 0 320) (h16 : Samples16 input_prev) :
    (min p n ≤ Int.tdiv (p * (320 - (i : Int)) + n * (i : Int)) 320 ∧
        Int.tdiv (p * (320 - (i : Int)) + n * (i : Int)) 320 ≤ max p n) ∧
      inRange16 (Int.tdiv (p * (320 - (i : Int)) + n * (i : Int)) 320) ∧
      blend p n i = Int.tdiv (p * (320 - (i : Int)) + n * (i : Int)) 320 ∧
      blend p p i = p ∧
      ∃ out1, overlap out o input_prev input_prev = some out1 ∧
        ∀ j : Nat, j < 320 → input_prev (j : Int) = some (out1.val (o + (j : Int))) := by
  have hiO : i < OVERLAP := by simpa [OVERLAP] using hi
  have hO : ((OVERLAP : Nat) : Int) = 320 := by simp [OVERLAP]
  obtain ⟨e, hlo, hhi⟩ := blend_exact p n hp hn i hiO
  rw [hO] at e
  have hself : ∀ (q : Int) (j : Nat), inRange16 q → j < 320 → blend q q j = q := by
    intro q j hq hj
    obtain ⟨_, h1, h2⟩ := blend_exact q q hq hq j (by simpa [OVERLAP] using hj)
    rw [min_self] at h1
    rw [max_self] at h2
    omega
  refine ⟨?_, ?_, e, hself p i hp hi, ?_⟩
  · rw [← e]
    exact ⟨hlo, hhi⟩
  · rw [← e]
    unfold inRange16 at hp hn ⊢
    have hmin : -32768 ≤ min p n := le_min hp.1 hn.1
    have hmax : max p n ≤ 32767 := max_le hp.2 hn.2
    omega
  · obtain ⟨out1, h1, _, _, hval⟩ := overlap_spec out o input_prev input_prev
      (by simpa [OVERLAP] using hr) (by simpa [OVERLAP] using hr)
    refine ⟨out1, h1, ?_⟩
    intro j hj
    obtain ⟨a, b, ha, hb, hv⟩ := hval j (by simpa [OVERLAP] using hj)
    rw [ha] at hb
    simp only [Option.some.injEq] at hb
    subst hb
    rw [hv, hself a j (h16 _ a ha) hj, ha]

/-- Witness for C18: the values `-32768` and `32767` at index 1, and a constant
sequence blended with itself. -/
theorem C18_blend_in_range_witness :
    (min (-32768) 32767 ≤ Int.tdiv (-32768 * (320 - ((1 : Nat) : Int)) + 32767 * ((1 : Nat) : Int)) 320 ∧
        Int.tdiv (-32768 * (320 - ((1 : Nat) : Int)) + 32767 * ((1 : Nat) : Int)) 320 ≤
          max (-32768) 32767) ∧
      inRange16 (Int.tdiv (-32768 * (320 - ((1 : Nat) : Int)) + 32767 * ((1 : Nat) : Int)) 320) ∧
      blend (-32768) 32767 1 =
        Int.tdiv (-32768 * (320 - ((1 : Nat) : Int)) + 32767 * ((1 : Nat) : Int)) 320 ∧
      blend (-32768) (-32768) 1 = -32768 ∧
      ∃ out1, overlap (filledBuf 0) 0 (arrayOf 320 (constSamples 7))
          (arrayOf 320 (constSamples 7)) = some out1 ∧
        ∀ j : Nat, j < 320 →
          arrayOf 320 (constSamples 7) (j : Int) = some (out1.val (0 + (j : Int))) :=
  C18_blend_in_range (-32768) 32767 (by decide) (by decide) 1 (by decide) (filledBuf 0) 0
    (arrayOf 320 (constSamples 7)) (readable_arrayOf 320 _) (samples16_const 320 7 (by decide))

/-! ## C19: the moving-average stage of `main.c` -/

theorem getElem?_lowPass (sample : Nat → Int) (i : Nat) (hi : i < FILTER_LENGTH) :
    (lowPass sample)[i]? = some (filterSample sample i) := by
  simp [lowPass, hi]

/-- What the filter loop writes: the sample itself for `i < 2` and for `i >= 15998`, the
truncated mean of the five neighbours in between (for 16-bit samples). -/
theorem filterSample_spec (sample : Nat → Int) (h16 : ∀ i, inRange16 (sample i)) (i : Nat) :
    (i < 2 → filterSample sample i = sample i) ∧
      (15998 ≤ i → filterSample sample i = sample i) ∧
      (2 ≤ i → i < 15998 → filterSample sample i =
        Int.tdiv (sample (i - 2) + sample (i - 1) + sample i + sample (i + 1) + sample (i + 2))
          5) := by
  refine ⟨?_, ?_, ?_⟩
  · intro h
    simp [filterSample, filter_order, h]
  · intro h
    have h1 : ¬ i < 2 := by omega
    simp [filterSample, filter_order, filterTailStart, h1, h]
  · intro h2 h3
    have h1 : ¬ i < 2 := by omega
    have h4 : ¬ 15998 ≤ i := by omega
    have a0 := h16 (i - 2)
    have a1 := h16 (i - 1)
    have a2 := h16 i
    have a3 := h16 (i + 1)
    have a4 := h16 (i + 2)
    unfold inRange16 at a0 a1 a2 a3 a4
    have e1 : i - 2 + 1 = i - 1 := by omega
    have e2 : i - 2 + 2 = i := by omega
    have e3 : i - 2 + 3 = i + 1 := by omega
    have e4 : i - 2 + 4 = i + 2 := by omega
    have hsum : samplesSum sample i =
        sample (i - 2) + sample (i - 1) + sample i + sample (i + 1) + sample (i + 2) := by
      simp only [samplesSum, filter_order, List.range_succ, List.range_zero, List.nil_append,
        List.cons_append, List.foldl_cons, List.foldl_nil, Nat.add_zero, e1, e2, e3, e4,
        zero_add]
      unfold wrap32
      omega
    simp only [filterSample, filter_order, filterTailStart, if_neg h1]
    rw [if_neg (by omega), hsum]
    apply wrap16_eq
    unfold inRange16
    rcases Int.le_total 0
      (sample (i - 2) + sample (i - 1) + sample i + sample (i + 1) + sample (i + 2)) with h | h
    · rw [Int.tdiv_eq_ediv h (by norm_num)]
      norm_num
      omega
    · have hneg : Int.tdiv
          (-(sample (i - 2) + sample (i - 1) + sample i + sample (i + 1) + sample (i + 2)))
          ((2 * 2 + 1 : Nat) : Int) =
          (-(sample (i - 2) + sample (i - 1) + sample i + sample (i + 1) + sample (i + 2))) /
            ((2 * 2 + 1 : Nat) : Int) :=
        Int.tdiv_eq_ediv (by omega) (by norm_num)
      rw [Int.neg_tdiv] at hneg
      norm_num at hneg ⊢
      omega


/-- C19 (failing input): for the samples that are zero except `sample[20000] = 5`, the
filter loop of `main.c` writes `5` at index 20000, an index with `2 <= 20000 < 28960 - 2`,
although the truncated mean of the five neighbours is `1`: every index from
`(uint16_t)(16000 - filter_order) = 15998` on is passed through unfiltered. -/
theorem C19_tail_passed_through :
    (lowPass lateSpike)[20000]? = some 5 ∧
      Int.tdiv (lateSpike 19998 + lateSpike 19999 + lateSpike 20000 + lateSpike 20001 +
        lateSpike 20002) 5 = 1 ∧
      (filter_order ≤ 20000 ∧ 20000 < FILTER_LENGTH - filter_order) ∧
      filterTailStart = 15998 := by
  refine ⟨?_, by decide, by decide, by decide⟩
  rw [getElem?_lowPass lateSpike 20000 (by decide)]
  decide

end Sola
